import Mathlib

/-!
# Yaw planning evaluator: a verification development

A shallow embedding of `YawPlanningEvaluator` (the decorator trajectory
evaluator of `active_3d_planning_core`) and of the uniform sampling policy of
`SimpleYawPlanningEvaluator`.

Modelling conventions.

* C++ `double` is the field `ℚ` of exact rationals: comparisons and arithmetic
  are exact, there is no rounding, no NaN and no infinity.
* A C++ method that mutates its `TrajectorySegment*` argument is a function
  that returns the segment as the call leaves it.  The inner (following)
  evaluator is an arbitrary object with private state of type `σ`; every call of
  it receives the current state and returns the next one.
* Reading `front()` / `back()` of an empty vector and indexing a vector out of
  range are undefined in C++; the embedding returns `none` there.
-/

namespace active_3d_planning

/-! ## Data model -/

/-- Modelled from the spec: `Eigen::Vector3d`, the position type, is declared
outside the sources at hand; it is a triple of coordinates. -/
structure Vector3d where
  x : ℚ
  y : ℚ
  z : ℚ
deriving DecidableEq

/-- Component-wise difference of two positions (`operator-`). -/
def Vector3d.sub (a b : Vector3d) : Vector3d :=
  ⟨a.x - b.x, a.y - b.y, a.z - b.z⟩

/-- Modelled from the spec: `EigenTrajectoryPoint` is declared outside the
sources at hand.  A pose is a position plus an orientation that reduces to a
scalar yaw angle. -/
structure EigenTrajectoryPoint where
  position_W : Vector3d
  yaw : ℚ
deriving DecidableEq

/-- The heading of a pose (`getYaw`). -/
def EigenTrajectoryPoint.getYaw (p : EigenTrajectoryPoint) : ℚ := p.yaw

/-- Rewrites the heading of a pose and keeps its position (`setFromYaw`). -/
def EigenTrajectoryPoint.setFromYaw (p : EigenTrajectoryPoint) (yaw : ℚ) :
    EigenTrajectoryPoint :=
  { p with yaw := yaw }

/-- The extension data written by the yaw planning evaluator: the sampled
alternatives and the index of the active one, over a segment type `S`. -/
structure YawPlanningInfoOf (S : Type) where
  orientations : List S
  active_orientation : Nat

/-- Modelled from the spec: `TrajectorySegment` is declared outside the sources
at hand.  A node of the planning tree: poses, the three metrics, the (weak)
parent reference, here the identifier of the parent node if there is one, and
the extension slot `info`, which holds a yaw planning record or is empty. -/
inductive TrajectorySegment where
  | mk (trajectory : List EigenTrajectoryPoint) (gain cost value : ℚ)
      (parent : Option Nat) (info : Option (YawPlanningInfoOf TrajectorySegment))

/-- The yaw planning record of a segment (`YawPlanningInfo`). -/
abbrev YawPlanningInfo := YawPlanningInfoOf TrajectorySegment

namespace TrajectorySegment

/-- Field `trajectory`. -/
def trajectory : TrajectorySegment → List EigenTrajectoryPoint
  | mk t _ _ _ _ _ => t

/-- Field `gain`. -/
def gain : TrajectorySegment → ℚ
  | mk _ g _ _ _ _ => g

/-- Field `cost`. -/
def cost : TrajectorySegment → ℚ
  | mk _ _ c _ _ _ => c

/-- Field `value`. -/
def value : TrajectorySegment → ℚ
  | mk _ _ _ v _ _ => v

/-- Field `parent`. -/
def parent : TrajectorySegment → Option Nat
  | mk _ _ _ _ p _ => p

/-- Field `info`. -/
def info : TrajectorySegment → Option YawPlanningInfo
  | mk _ _ _ _ _ i => i

/-- Assignment to the field `trajectory`. -/
def setTrajectory : TrajectorySegment → List EigenTrajectoryPoint → TrajectorySegment
  | mk _ g c v p i, t => mk t g c v p i

/-- Assignment to the field `gain`. -/
def setGain : TrajectorySegment → ℚ → TrajectorySegment
  | mk t _ c v p i, g => mk t g c v p i

/-- Assignment to the field `cost`. -/
def setCost : TrajectorySegment → ℚ → TrajectorySegment
  | mk t g _ v p i, c => mk t g c v p i

/-- Assignment to the field `value`. -/
def setValue : TrajectorySegment → ℚ → TrajectorySegment
  | mk t g c _ p i, v => mk t g c v p i

/-- Assignment to the field `info` (`info.reset(...)`). -/
def setInfo : TrajectorySegment → Option YawPlanningInfo → TrajectorySegment
  | mk t g c v p _, i => mk t g c v p i

/-- Modelled from the spec: `TrajectorySegment::shallowCopy` is not in the
sources at hand.  An alternative is a copy of the segment (poses, metrics,
parent reference); the extension slot is exclusively owned by the segment it is
attached to, so the copy starts with an empty slot. -/
def shallowCopy : TrajectorySegment → TrajectorySegment
  | mk t g c v p _ => mk t g c v p none

end TrajectorySegment

/-! ## The evaluator interface -/

/-- What a call on an evaluator leaves behind: the returned value, the segment
as the call left it, and the evaluator state after the call. -/
structure Outcome (σ ρ : Type) where
  ret : ρ
  segment : TrajectorySegment
  state : σ

/-- The capability set of a trajectory evaluator with private state `σ`
(`TrajectoryEvaluator`, the interface of the inner evaluator). -/
structure TrajectoryEvaluator (σ : Type) where
  computeGain : TrajectorySegment → σ → Outcome σ Bool
  computeCost : TrajectorySegment → σ → Outcome σ Bool
  computeValue : TrajectorySegment → σ → Outcome σ Bool
  selectNextBest : TrajectorySegment → σ → Outcome σ Int
  updateSegment : TrajectorySegment → σ → Outcome σ Bool

/-- The planner as far as the evaluator consumes it (`PlannerI`): the current
position of the agent. -/
structure PlannerI where
  getCurrentPosition : Vector3d

/-- The yaw planning evaluator: its four parameters, the inner evaluator it
decorates, and the two operations left to the sampling policy (pure virtual in
`YawPlanningEvaluator`). -/
structure YawPlanningEvaluator (σ : Type) where
  p_n_directions_ : Int
  p_select_by_value_ : Bool
  p_update_range_ : ℚ
  p_update_gain_ : ℚ
  following_evaluator_ : TrajectoryEvaluator σ
  sampleYaw : ℚ → Int → ℚ
  setTrajectoryYaw : TrajectorySegment → ℚ → ℚ → TrajectorySegment

/-- The local variables of the sampling loops: the record under construction,
`current_value`, `best_value` and the state of the inner evaluator. -/
structure LoopState (σ : Type) where
  info : YawPlanningInfo
  current_value : ℚ
  best_value : ℚ
  state : σ

namespace YawPlanningEvaluator

variable {σ : Type}

/-- One pass of the body of `for (int i = 1; i < p_n_directions_; ++i)` in
`computeGain`: a fresh copy gets the sampled heading, the inner evaluator scores
it, and it becomes the active alternative if its score strictly exceeds the
best so far. -/
def computeGainStep (e : YawPlanningEvaluator σ) (traj_in : TrajectorySegment)
    (start_yaw original_yaw : ℚ) (s : LoopState σ) (i : Nat) : LoopState σ :=
  let alt := e.setTrajectoryYaw traj_in.shallowCopy start_yaw
    (e.sampleYaw original_yaw (i : Int))
  let g := e.following_evaluator_.computeGain alt s.state
  let scored : TrajectorySegment × ℚ × σ :=
    if e.p_select_by_value_ then
      let c := e.following_evaluator_.computeCost g.segment g.state
      let v := e.following_evaluator_.computeValue c.segment c.state
      (v.segment, v.segment.value, v.state)
    else
      (g.segment, g.segment.gain, g.state)
  let orientations := s.info.orientations ++ [scored.1]
  if scored.2.1 > s.best_value then
    ⟨⟨orientations, i⟩, scored.2.1, scored.2.1, scored.2.2⟩
  else
    ⟨⟨orientations, s.info.active_orientation⟩, scored.2.1, s.best_value, scored.2.2⟩

/-- The state of `computeGain` on entry to the sampling loop: alternative 0
carries the original heading and its score is the best so far. -/
def computeGainInit (e : YawPlanningEvaluator σ) (traj_in : TrajectorySegment)
    (start_yaw original_yaw : ℚ) (st : σ) : LoopState σ :=
  let alt := e.setTrajectoryYaw traj_in.shallowCopy start_yaw original_yaw
  let g := e.following_evaluator_.computeGain alt st
  if e.p_select_by_value_ then
    let c := e.following_evaluator_.computeCost g.segment g.state
    let v := e.following_evaluator_.computeValue c.segment c.state
    ⟨⟨[v.segment], 0⟩, v.segment.value, v.segment.value, v.state⟩
  else
    ⟨⟨[g.segment], 0⟩, g.segment.gain, g.segment.gain, g.state⟩

/-- The sampling loop of `computeGain`, `i = 1, ..., p_n_directions_ - 1`. -/
def computeGainLoop (e : YawPlanningEvaluator σ) (traj_in : TrajectorySegment)
    (start_yaw original_yaw : ℚ) (st : σ) : LoopState σ :=
  (List.range' 1 (e.p_n_directions_ - 1).toNat).foldl
    (e.computeGainStep traj_in start_yaw original_yaw)
    (e.computeGainInit traj_in start_yaw original_yaw st)

/-- The last block of `computeGain`: the active alternative is applied to the
segment and the record is attached to it. -/
def applyBest (e : YawPlanningEvaluator σ) (traj_in : TrajectorySegment)
    (info : YawPlanningInfo) : Option TrajectorySegment :=
  match info.orientations[info.active_orientation]? with
  | none => none
  | some best =>
    let t := (traj_in.setTrajectory best.trajectory).setGain best.gain
    let t := if e.p_select_by_value_ then (t.setCost best.cost).setValue best.value else t
    some (t.setInfo (some info))

/-- `YawPlanningEvaluator::computeGain`. -/
def computeGain (e : YawPlanningEvaluator σ) (traj_in : TrajectorySegment) (st : σ) :
    Option (Outcome σ Bool) :=
  match traj_in.trajectory.head?, traj_in.trajectory.getLast? with
  | some front, some back =>
    let start_yaw := front.getYaw
    let original_yaw := back.getYaw
    let fin := e.computeGainLoop traj_in start_yaw original_yaw st
    match e.applyBest traj_in fin.info with
    | none => none
    | some t => some ⟨true, t, fin.state⟩
  | _, _ => none

/-- `YawPlanningEvaluator::computeCost`: forwarded to the inner evaluator. -/
def computeCost (e : YawPlanningEvaluator σ) (traj_in : TrajectorySegment) (st : σ) :
    Outcome σ Bool :=
  e.following_evaluator_.computeCost traj_in st

/-- `YawPlanningEvaluator::computeValue`: forwarded to the inner evaluator. -/
def computeValue (e : YawPlanningEvaluator σ) (traj_in : TrajectorySegment) (st : σ) :
    Outcome σ Bool :=
  e.following_evaluator_.computeValue traj_in st

/-- `YawPlanningEvaluator::selectNextBest`: forwarded to the inner evaluator. -/
def selectNextBest (e : YawPlanningEvaluator σ) (traj_in : TrajectorySegment) (st : σ) :
    Outcome σ Int :=
  e.following_evaluator_.selectNextBest traj_in st

/-- The constant `std::numeric_limits<double>::lowest()`, the most negative
finite double, `-(2 - 2^(-52)) * 2^1023`. -/
def lowest : ℚ := -(2 ^ 1024 - 2 ^ 971)

/-- One pass of the body of `for (int i = 0; i < info->orientations.size(); ++i)`
in `updateSegment`.  An alternative whose cached gain exceeds `p_update_gain_`
is scored again in place and becomes the active one if its score strictly
exceeds the best so far; any other alternative is skipped.  The two headings
read at the top of the branch are not used afterwards, the reads are kept. -/
def updateStep (e : YawPlanningEvaluator σ) (segment : TrajectorySegment)
    (s : LoopState σ) (i : Nat) : Option (LoopState σ) :=
  match s.info.orientations[i]? with
  | none => none
  | some o =>
    if o.gain > e.p_update_gain_ then
      match segment.trajectory.head?, o.trajectory.getLast? with
      | some _, some _ =>
        let g := e.following_evaluator_.computeGain o s.state
        let scored : TrajectorySegment × ℚ × σ :=
          if e.p_select_by_value_ then
            let c := e.following_evaluator_.computeCost g.segment g.state
            let v := e.following_evaluator_.computeValue c.segment c.state
            (v.segment, v.segment.value, v.state)
          else
            (g.segment, g.segment.gain, g.state)
        let orientations := s.info.orientations.set i scored.1
        if scored.2.1 > s.best_value then
          some ⟨⟨orientations, i⟩, scored.2.1, scored.2.1, scored.2.2⟩
        else
          some ⟨⟨orientations, s.info.active_orientation⟩, scored.2.1, s.best_value,
            scored.2.2⟩
      | _, _ => none
    else
      some s

/-- The scoring loop of `updateSegment` over all cached alternatives, started
with `current_value = best_value = lowest()`. -/
def updateLoop (e : YawPlanningEvaluator σ) (segment : TrajectorySegment)
    (info : YawPlanningInfo) (st : σ) : Option (LoopState σ) :=
  (List.range info.orientations.length).foldlM (e.updateStep segment)
    ⟨info, lowest, lowest, st⟩

/-- The block under `// Update trajectory` in `updateSegment`: gain, heading and
(when selecting by value) cost and value of the active alternative are applied
to the live segment, whose record `info` has been changed in place. -/
def applyUpdate (e : YawPlanningEvaluator σ) (segment : TrajectorySegment)
    (info : YawPlanningInfo) : Option TrajectorySegment :=
  match info.orientations[info.active_orientation]? with
  | none => none
  | some best =>
    match segment.trajectory.head?, best.trajectory.getLast? with
    | some front, some back =>
      let t := (segment.setInfo (some info)).setGain best.gain
      let t := e.setTrajectoryYaw t front.getYaw back.getYaw
      some (if e.p_select_by_value_ then (t.setCost best.cost).setValue best.value else t)
    | _, _ => none

/-- The first phase of `updateSegment`, everything before the final
`return following_evaluator_->updateSegment(segment)`: the segment and the
state of the inner evaluator as they are handed on.  The parameter `norm` is
`Eigen`'s vector norm, which is not rational-valued. -/
def updateSegmentLocal (e : YawPlanningEvaluator σ) (norm : Vector3d → ℚ)
    (planner_ : PlannerI) (segment : TrajectorySegment) (st : σ) :
    Option (TrajectorySegment × σ) :=
  match segment.parent, segment.info with
  | some _, some info =>
    match segment.trajectory.getLast? with
    | none => none
    | some back =>
      let dist := norm (planner_.getCurrentPosition.sub back.position_W)
      if e.p_update_range_ = 0 ∨ e.p_update_range_ > dist then
        match e.updateLoop segment info st with
        | none => none
        | some fin =>
          match e.applyUpdate segment fin.info with
          | none => none
          | some t => some (t, fin.state)
      else
        some (segment, st)
  | _, _ => some (segment, st)

/-- `YawPlanningEvaluator::updateSegment`: the local phase, then the call is
forwarded to the inner evaluator. -/
def updateSegment (e : YawPlanningEvaluator σ) (norm : Vector3d → ℚ)
    (planner_ : PlannerI) (segment : TrajectorySegment) (st : σ) :
    Option (Outcome σ Bool) :=
  match e.updateSegmentLocal norm planner_ segment st with
  | none => none
  | some (t, st1) => some (e.following_evaluator_.updateSegment t st1)

end YawPlanningEvaluator

/-! ## The uniform sampling policy -/

namespace SimpleYawPlanningEvaluator

/-- `SimpleYawPlanningEvaluator::sampleYaw`, uniform sampling.  The constant
`M_PI` and the function `defaults::angleScaled` are not in the sources at hand
and are parameters. -/
def sampleYaw (M_PI : ℚ) (angleScaled : ℚ → ℚ) (p_n_directions_ : Int)
    (original_yaw : ℚ) (sample_number : Int) : ℚ :=
  angleScaled (original_yaw + (sample_number : ℚ) * 2 * M_PI / (p_n_directions_ : ℚ))

/-- `SimpleYawPlanningEvaluator::setTrajectoryYaw`: every pose of the segment
gets the heading `target_yaw`. -/
def setTrajectoryYaw (segment : TrajectorySegment) (_start_yaw target_yaw : ℚ) :
    TrajectorySegment :=
  segment.setTrajectory (segment.trajectory.map fun p => p.setFromYaw target_yaw)

/-- A yaw planning evaluator with the uniform sampling policy. -/
def create {σ : Type} (M_PI : ℚ) (angleScaled : ℚ → ℚ) (p_n_directions_ : Int)
    (p_select_by_value_ : Bool) (p_update_range_ p_update_gain_ : ℚ)
    (following_evaluator_ : TrajectoryEvaluator σ) : YawPlanningEvaluator σ :=
  { p_n_directions_ := p_n_directions_
    p_select_by_value_ := p_select_by_value_
    p_update_range_ := p_update_range_
    p_update_gain_ := p_update_gain_
    following_evaluator_ := following_evaluator_
    sampleYaw := sampleYaw M_PI angleScaled p_n_directions_
    setTrajectoryYaw := setTrajectoryYaw }

end SimpleYawPlanningEvaluator

/-! ## A record of the calls made on the inner evaluator -/

/-- A call made on the inner evaluator, with the segment it was made on. -/
inductive InnerCall where
  | computeGain (segment : TrajectorySegment)
  | computeCost (segment : TrajectorySegment)
  | computeValue (segment : TrajectorySegment)
  | selectNextBest (segment : TrajectorySegment)
  | updateSegment (segment : TrajectorySegment)

/-- The evaluator `ev` instrumented with a log: it behaves as `ev` and appends
every call made on it to the list kept next to its state. -/
def TrajectoryEvaluator.logged {σ : Type} (ev : TrajectoryEvaluator σ) :
    TrajectoryEvaluator (σ × List InnerCall) :=
  { computeGain := fun seg st =>
      let r := ev.computeGain seg st.1
      ⟨r.ret, r.segment, (r.state, st.2 ++ [InnerCall.computeGain seg])⟩
    computeCost := fun seg st =>
      let r := ev.computeCost seg st.1
      ⟨r.ret, r.segment, (r.state, st.2 ++ [InnerCall.computeCost seg])⟩
    computeValue := fun seg st =>
      let r := ev.computeValue seg st.1
      ⟨r.ret, r.segment, (r.state, st.2 ++ [InnerCall.computeValue seg])⟩
    selectNextBest := fun seg st =>
      let r := ev.selectNextBest seg st.1
      ⟨r.ret, r.segment, (r.state, st.2 ++ [InnerCall.selectNextBest seg])⟩
    updateSegment := fun seg st =>
      let r := ev.updateSegment seg st.1
      ⟨r.ret, r.segment, (r.state, st.2 ++ [InnerCall.updateSegment seg])⟩ }

/-- The yaw planning evaluator `e` with its inner evaluator instrumented. -/
def YawPlanningEvaluator.logged {σ : Type} (e : YawPlanningEvaluator σ) :
    YawPlanningEvaluator (σ × List InnerCall) :=
  { p_n_directions_ := e.p_n_directions_
    p_select_by_value_ := e.p_select_by_value_
    p_update_range_ := e.p_update_range_
    p_update_gain_ := e.p_update_gain_
    following_evaluator_ := e.following_evaluator_.logged
    sampleYaw := e.sampleYaw
    setTrajectoryYaw := e.setTrajectoryYaw }

/-- The score by which alternatives are ranked: the value when selecting by
value, the gain otherwise. -/
def score (select_by_value : Bool) (s : TrajectorySegment) : ℚ :=
  if select_by_value then s.value else s.gain

/-! ## Definitions used in the statements -/

namespace YawPlanningEvaluator

variable {σ : Type}

/-- The alternative and the inner state that scoring leaves: the inner gain
computation, followed by cost and value when selecting by value. -/
def rescored (e : YawPlanningEvaluator σ) (alt : TrajectorySegment) (st : σ) :
    TrajectorySegment × σ :=
  let g := e.following_evaluator_.computeGain alt st
  if e.p_select_by_value_ then
    let c := e.following_evaluator_.computeCost g.segment g.state
    let v := e.following_evaluator_.computeValue c.segment c.state
    (v.segment, v.state)
  else
    (g.segment, g.state)

/-- The alternative with index `i` as `computeGain` builds it, before the inner
evaluator scores it. -/
def sampled (e : YawPlanningEvaluator σ) (traj_in : TrajectorySegment)
    (start_yaw original_yaw : ℚ) (i : Nat) : TrajectorySegment :=
  e.setTrajectoryYaw traj_in.shallowCopy start_yaw
    (if i = 0 then original_yaw else e.sampleYaw original_yaw (i : Int))

/-- The state of the inner evaluator when `computeGain` starts on the
alternative with index `i`: the state at the call for `i = 0`, and afterwards
the state in which the scoring of the previous alternative left it. -/
def scoringState (e : YawPlanningEvaluator σ) (traj_in : TrajectorySegment)
    (start_yaw original_yaw : ℚ) (st : σ) : Nat → σ
  | 0 => st
  | i + 1 =>
    (e.rescored (e.sampled traj_in start_yaw original_yaw i)
      (scoringState e traj_in start_yaw original_yaw st i)).2

/-- The alternative with index `i` as the inner evaluator leaves it: the
sampled alternative `i`, scored in the inner state reached after the
alternatives before it. -/
def scored (e : YawPlanningEvaluator σ) (traj_in : TrajectorySegment)
    (start_yaw original_yaw : ℚ) (st : σ) (i : Nat) : TrajectorySegment :=
  (e.rescored (e.sampled traj_in start_yaw original_yaw i)
    (e.scoringState traj_in start_yaw original_yaw st i)).1

/-- The invariant of the sampling loop before the pass with index `m`: `m`
alternatives are stored, the active index is valid, `best_value` is the score
of the active alternative, no stored score exceeds it and every score before
the active index is strictly below it. -/
structure GainInv (sbv : Bool) (s : LoopState σ) (m : Nat) : Prop where
  len : s.info.orientations.length = m
  act : s.info.active_orientation < m
  best : (s.info.orientations[s.info.active_orientation]?).map (score sbv) = some s.best_value
  le : ∀ o ∈ s.info.orientations, score sbv o ≤ s.best_value
  lt : ∀ o ∈ s.info.orientations.take s.info.active_orientation, score sbv o < s.best_value

end YawPlanningEvaluator

/-- The index `a` is the lowest index of a maximal entry of `l`: entry `a`
exists, no entry exceeds it, and every entry before it is strictly smaller. -/
def IsFirstMax (l : List ℚ) (a : Nat) : Prop :=
  ∃ m : ℚ, l[a]? = some m ∧ (∀ (j : Nat) (x : ℚ), l[j]? = some x → x ≤ m) ∧
    (∀ (j : Nat) (x : ℚ), j < a → l[j]? = some x → x < m)

/-- The segments on which the logged calls of the inner gain computation were
made, in the order of the calls. -/
def gainCalls (log : List InnerCall) : List TrajectorySegment :=
  log.filterMap fun c =>
    match c with
    | InnerCall.computeGain seg => some seg
    | _ => none

/-- An alternative is eligible for re-scoring in `updateSegment` when its cached
gain is strictly greater than `p_update_gain_`. -/
def YawPlanningEvaluator.eligible {σ : Type} (e : YawPlanningEvaluator σ)
    (o : TrajectorySegment) : Prop :=
  o.gain > e.p_update_gain_

instance YawPlanningEvaluator.decidableEligible {σ : Type} (e : YawPlanningEvaluator σ)
    (o : TrajectorySegment) : Decidable (e.eligible o) := by
  unfold YawPlanningEvaluator.eligible
  infer_instance

/-- The three scoring operations of the evaluator never leave a segment that
has a pose without poses. -/
def TrajectoryEvaluator.KeepsPoses {σ : Type} (ev : TrajectoryEvaluator σ) : Prop :=
  ∀ (seg : TrajectorySegment) (st : σ), seg.trajectory ≠ [] →
    (ev.computeGain seg st).segment.trajectory ≠ [] ∧
    (ev.computeCost seg st).segment.trajectory ≠ [] ∧
    (ev.computeValue seg st).segment.trajectory ≠ []

/-- A segment on which the local phase of `updateSegment` can run: it has a
parent and a pose, it carries the record `info`, the active index of the record
is valid and every alternative has a pose. -/
structure Updatable (segment : TrajectorySegment) (info : YawPlanningInfo) : Prop where
  parent : segment.parent ≠ none
  info_eq : segment.info = some info
  poses : segment.trajectory ≠ []
  active : info.active_orientation < info.orientations.length
  alt_poses : ∀ o ∈ info.orientations, o.trajectory ≠ []

/-- The invariant of the scoring loop of `updateSegment` before the pass with
index `m`, started on the record `info`: the list keeps its length; entries
from `m` on and ineligible entries are untouched; every eligible entry before
`m` is the result of scoring the cached entry; `best_value` bounds the scores
of these; and either `best_value` is still `lowest` and the active index is the
one of `info`, or the active index is the first eligible index before `m` whose
new score is `best_value`. -/
structure YawPlanningEvaluator.UpdInv {σ : Type} (e : YawPlanningEvaluator σ)
    (info : YawPlanningInfo) (s : LoopState σ) (m : Nat) : Prop where
  len : s.info.orientations.length = info.orientations.length
  rest : ∀ j : Nat, m ≤ j → s.info.orientations[j]? = info.orientations[j]?
  skip : ∀ (j : Nat) (o : TrajectorySegment), info.orientations[j]? = some o →
    ¬ e.eligible o → s.info.orientations[j]? = some o
  scored : ∀ (j : Nat) (o : TrajectorySegment), j < m → info.orientations[j]? = some o →
    e.eligible o → ∃ st : σ, s.info.orientations[j]? = some (e.rescored o st).1
  le : ∀ (j : Nat) (o o1 : TrajectorySegment), j < m → info.orientations[j]? = some o →
    e.eligible o → s.info.orientations[j]? = some o1 →
    score e.p_select_by_value_ o1 ≤ s.best_value
  act : (s.best_value = lowest ∧ s.info.active_orientation = info.active_orientation) ∨
    (lowest < s.best_value ∧ s.info.active_orientation < m ∧
      ∃ o o1 : TrajectorySegment, info.orientations[s.info.active_orientation]? = some o ∧
        e.eligible o ∧ s.info.orientations[s.info.active_orientation]? = some o1 ∧
        score e.p_select_by_value_ o1 = s.best_value ∧
        ∀ (j : Nat) (p p1 : TrajectorySegment), j < s.info.active_orientation →
          info.orientations[j]? = some p → e.eligible p →
          s.info.orientations[j]? = some p1 → score e.p_select_by_value_ p1 < s.best_value)

/-- The range gate of `updateSegment` is open: `p_update_range_` is zero or
greater than the distance from the planner position to the final pose of the
segment. -/
def YawPlanningEvaluator.inRange {σ : Type} (e : YawPlanningEvaluator σ)
    (norm : Vector3d → ℚ) (planner_ : PlannerI) (segment : TrajectorySegment) : Prop :=
  ∃ back, segment.trajectory.getLast? = some back ∧
    (e.p_update_range_ = 0 ∨
      e.p_update_range_ > norm (planner_.getCurrentPosition.sub back.position_W))

/-- The segment that the block under `// Update trajectory` leaves when the
active alternative is `best` and the headings read are `front_yaw` and
`back_yaw`. -/
def YawPlanningEvaluator.applied {σ : Type} (e : YawPlanningEvaluator σ)
    (segment : TrajectorySegment) (info : YawPlanningInfo) (best : TrajectorySegment)
    (front_yaw back_yaw : ℚ) : TrajectorySegment :=
  if e.p_select_by_value_ then
    ((e.setTrajectoryYaw ((segment.setInfo (some info)).setGain best.gain) front_yaw
      back_yaw).setCost best.cost).setValue best.value
  else
    e.setTrajectoryYaw ((segment.setInfo (some info)).setGain best.gain) front_yaw back_yaw

/-- `YawPlanningEvaluator::checkParamsValid`.  The string behind the pointer
`error_message` goes in and comes out next to the returned flag.  The
validation of the base class, `TrajectoryEvaluator::checkParamsValid`, is
declared outside the sources at hand and is the parameter `baseCheck`. -/
def YawPlanningEvaluator.checkParamsValid {σ : Type} (e : YawPlanningEvaluator σ)
    (baseCheck : String → Bool × String) (error_message : String) : Bool × String :=
  if e.p_n_directions_ < 1 then
    (false, "n_directions expected > 0")
  else
    baseCheck error_message

/-- The inner evaluator writes metrics only: its three scoring operations
leave the poses, the parent reference and the extension slot of the segment as
they are, and its other two operations leave the extension slot as it is. -/
structure TrajectoryEvaluator.MetricsOnly {σ : Type} (ev : TrajectoryEvaluator σ) : Prop where
  gain : ∀ (seg : TrajectorySegment) (st : σ),
    (ev.computeGain seg st).segment.trajectory = seg.trajectory ∧
    (ev.computeGain seg st).segment.parent = seg.parent ∧
    (ev.computeGain seg st).segment.info = seg.info
  cost : ∀ (seg : TrajectorySegment) (st : σ),
    (ev.computeCost seg st).segment.trajectory = seg.trajectory ∧
    (ev.computeCost seg st).segment.parent = seg.parent ∧
    (ev.computeCost seg st).segment.info = seg.info
  value : ∀ (seg : TrajectorySegment) (st : σ),
    (ev.computeValue seg st).segment.trajectory = seg.trajectory ∧
    (ev.computeValue seg st).segment.parent = seg.parent ∧
    (ev.computeValue seg st).segment.info = seg.info
  next : ∀ (seg : TrajectorySegment) (st : σ), (ev.selectNextBest seg st).segment.info = seg.info
  update : ∀ (seg : TrajectorySegment) (st : σ), (ev.updateSegment seg st).segment.info = seg.info

/-- The calls that scoring one alternative makes on the inner evaluator: the
gain computation on the alternative `alt` and, when selecting by value, the
cost computation on the segment `afterGain` and the value computation on the
segment `afterCost`. -/
def scoringCalls (select_by_value : Bool) (alt afterGain afterCost : TrajectorySegment) :
    List InnerCall :=
  if select_by_value then
    [InnerCall.computeGain alt, InnerCall.computeCost afterGain,
      InnerCall.computeValue afterCost]
  else
    [InnerCall.computeGain alt]

/-! ## Visualization of the alternatives (uniform policy) -/

/-- Modelled from the spec: `std_msgs::ColorRGBA` is declared outside the
sources at hand; the colour and the opacity of a rendered hint. -/
structure ColorRGBA where
  r : ℚ
  g : ℚ
  b : ℚ
  a : ℚ
deriving DecidableEq

/-- Modelled from the spec: `visualization_msgs::Marker` is declared outside the
sources at hand.  A rendered directional hint: position, orientation (reduced
to the yaw angle, as for poses), scale and colour.  The header, the namespace,
the type, the identifier and the action of the message do not depend on the
alternatives and are left out. -/
structure Marker where
  position : Vector3d
  yaw : ℚ
  scale : Vector3d
  color : ColorRGBA
deriving DecidableEq

namespace SimpleYawPlanningEvaluator

/-- One pass of the body of the first loop of `visualizeTrajectoryValue`: the
pair `(max_value, min_value)` after alternative `o` has been looked at. -/
def valueRangeStep (p_select_by_value_ : Bool) (acc : ℚ × ℚ) (o : TrajectorySegment) :
    ℚ × ℚ :=
  if p_select_by_value_ then
    (if o.value > acc.1 then o.value else acc.1, if o.value < acc.2 then o.value else acc.2)
  else
    (if o.gain > acc.1 then o.gain else acc.1, if o.gain < acc.2 then o.gain else acc.2)

/-- The pair `(max_value, min_value)` that `visualizeTrajectoryValue` computes:
both start at the score of alternative 0 and the loop runs over the
alternatives from index 1 on. -/
def valueRange (p_select_by_value_ : Bool) (orientations : List TrajectorySegment) :
    Option (ℚ × ℚ) :=
  match orientations with
  | [] => none
  | o0 :: rest =>
    some (rest.foldl (valueRangeStep p_select_by_value_)
      (if p_select_by_value_ then (o0.value, o0.value) else (o0.gain, o0.gain)))

/-- The colour that `visualizeTrajectoryValue` gives to the hint of alternative
`o` (block `// Color according to relative value`), with opacity `0.4`. -/
def hintColor (p_select_by_value_ : Bool) (max_value min_value : ℚ)
    (o : TrajectorySegment) : ColorRGBA :=
  if max_value ≠ min_value then
    let frac := (o.gain - min_value) / (max_value - min_value)
    let frac :=
      if p_select_by_value_ then (o.value - min_value) / (max_value - min_value) else frac
    ⟨min ((1 / 2 - frac) * 2 + 1) 1, min ((frac - 1 / 2) * 2 + 1) 1, 0, 2 / 5⟩
  else
    ⟨3 / 10, 3 / 10, 1, 2 / 5⟩

/-- The second loop of `visualizeTrajectoryValue`: one arrow per alternative, at
the position and with the orientation of its final pose, is pushed to the
message. -/
def pushHints (p_select_by_value_ : Bool) (max_value min_value : ℚ) :
    List TrajectorySegment → List Marker → Option (List Marker)
  | [], msg => some msg
  | o :: rest, msg =>
    match o.trajectory.getLast? with
    | none => none
    | some back =>
      pushHints p_select_by_value_ max_value min_value rest
        (msg ++ [⟨back.position_W, back.yaw, ⟨3 / 5, 7 / 100, 7 / 100⟩,
          hintColor p_select_by_value_ max_value min_value o⟩])

/-- `SimpleYawPlanningEvaluator::visualizeTrajectoryValue`.  The visualization
of the inner evaluator is the parameter `followup`; it is called on the active
alternative when `p_visualize_followup_` is set. -/
def visualizeTrajectoryValue (p_select_by_value_ p_visualize_followup_ : Bool)
    (followup : List Marker → TrajectorySegment → List Marker) (msg : List Marker)
    (trajectory : TrajectorySegment) : Option (List Marker) :=
  match trajectory.info with
  | none => some msg
  | some info =>
    match valueRange p_select_by_value_ info.orientations with
    | none => none
    | some (max_value, min_value) =>
      match pushHints p_select_by_value_ max_value min_value info.orientations msg with
      | none => none
      | some msg1 =>
        if p_visualize_followup_ then
          match info.orientations[info.active_orientation]? with
          | none => none
          | some active => some (followup msg1 active)
        else
          some msg1

end SimpleYawPlanningEvaluator

/-- The red, green and blue components of the colour of a hint. -/
def Marker.rgb (m : Marker) : ℚ × ℚ × ℚ := (m.color.r, m.color.g, m.color.b)

/-- The linear interpolation between red at `frac = 0` and green at
`frac = 1`, as red, green and blue components. -/
def linearRedGreen (frac : ℚ) : ℚ × ℚ × ℚ := (1 - frac, frac, 0)

/-! ## Example objects -/

/-- The heading of the final pose of a segment, `0` if it has no pose. -/
def finalYaw (s : TrajectorySegment) : ℚ :=
  (s.trajectory.getLast?.map EigenTrajectoryPoint.getYaw).getD 0

/-- An inner evaluator without state whose gain, cost and value are read off
the final heading of the segment it is called on; its other operations leave
the segment alone. -/
def headingEvaluator (gainOf costOf valueOf : ℚ → ℚ) : TrajectoryEvaluator Unit :=
  { computeGain := fun seg st => ⟨true, seg.setGain (gainOf (finalYaw seg)), st⟩
    computeCost := fun seg st => ⟨true, seg.setCost (costOf (finalYaw seg)), st⟩
    computeValue := fun seg st => ⟨true, seg.setValue (valueOf (finalYaw seg)), st⟩
    selectNextBest := fun seg st => ⟨0, seg, st⟩
    updateSegment := fun seg st => ⟨true, seg, st⟩ }

/-- A segment of two poses along the x axis with heading `yaw`, the given
metrics, a parent and the given extension slot. -/
def exampleNode (yaw gain cost value : ℚ) (info : Option YawPlanningInfo) :
    TrajectorySegment :=
  TrajectorySegment.mk [⟨⟨0, 0, 0⟩, yaw⟩, ⟨⟨1, 0, 0⟩, yaw⟩] gain cost value (some 0) info

/-- A fresh segment: heading `0`, all metrics `0`, empty extension slot. -/
def exampleSegment : TrajectorySegment := exampleNode 0 0 0 0 none

/-- The active index that a run leaves in the record of its segment. -/
def activeAfter {σ ρ : Type} (r : Option (Outcome σ ρ)) : Option Nat :=
  r.bind fun o => o.segment.info.map fun i => i.active_orientation

/-- The scores of the alternatives in the record that a run leaves, in index
order. -/
def scoresAfter {σ ρ : Type} (select_by_value : Bool) (r : Option (Outcome σ ρ)) :
    Option (List ℚ) :=
  r.bind fun o => o.segment.info.map fun i => i.orientations.map (score select_by_value)

/-- The segment that a run leaves. -/
def segmentAfter {σ ρ : Type} (r : Option (Outcome σ ρ)) : Option TrajectorySegment :=
  r.map fun o => o.segment

/-- Gains 5, 9, 3 for the headings 0, 44/21, 88/21. -/
def exampleGain (yaw : ℚ) : ℚ :=
  if yaw = 0 then 5 else if yaw = 44 / 21 then 9 else 3

/-- Values 8, 4, 9 for the headings 0, 44/21, 88/21. -/
def exampleValue (yaw : ℚ) : ℚ :=
  if yaw = 0 then 8 else if yaw = 44 / 21 then 4 else 9

/-- Three uniformly sampled directions, with `22/7` standing for `M_PI` and no
angle wrapping, over the inner evaluator with the gains and values above. -/
def exampleEvaluator (select_by_value : Bool) (update_range update_gain : ℚ) :
    YawPlanningEvaluator Unit :=
  SimpleYawPlanningEvaluator.create (22 / 7) id 3 select_by_value update_range update_gain
    (headingEvaluator exampleGain (fun _ => 1) exampleValue)

/-- The taxicab length of a vector; on a coordinate axis it is the Euclidean
length. -/
def exampleNorm (v : Vector3d) : ℚ := |v.x| + |v.y| + |v.z|

/-- The record of the example: cached gains 5, 9, 3 and values 8, 4, 9 on the
headings 0, 44/21, 88/21, with the given active index. -/
def exampleInfo (active : Nat) : YawPlanningInfo :=
  ⟨[exampleNode 0 5 1 8 none, exampleNode (44 / 21) 9 1 4 none,
    exampleNode (88 / 21) 3 1 9 none], active⟩

/-- A segment that carries the record of the example. -/
def exampleCached (active : Nat) : TrajectorySegment :=
  exampleNode 0 0 0 0 (some (exampleInfo active))

/-- The segment that `computeGain` leaves on the example segment when selecting
by value: the third alternative is active. -/
def exampleByValue : TrajectorySegment :=
  exampleNode (88 / 21) 3 1 9 (some (exampleInfo 2))

/-- An inner evaluator that scores as `headingEvaluator` does and reports
failure from every operation. -/
def failingHeadingEvaluator (gainOf costOf valueOf : ℚ → ℚ) : TrajectoryEvaluator Unit :=
  { computeGain := fun seg st => ⟨false, seg.setGain (gainOf (finalYaw seg)), st⟩
    computeCost := fun seg st => ⟨false, seg.setCost (costOf (finalYaw seg)), st⟩
    computeValue := fun seg st => ⟨false, seg.setValue (valueOf (finalYaw seg)), st⟩
    selectNextBest := fun seg st => ⟨-1, seg, st⟩
    updateSegment := fun seg st => ⟨false, seg, st⟩ }

/-- The example evaluator over the failing inner evaluator. -/
def failingEvaluator (select_by_value : Bool) : YawPlanningEvaluator Unit :=
  SimpleYawPlanningEvaluator.create (22 / 7) id 3 select_by_value 0 0
    (failingHeadingEvaluator exampleGain (fun _ => 1) exampleValue)

/-! ## Field lemmas -/

namespace TrajectorySegment

@[simp]
theorem trajectory_mk (t g c v p i) : (mk t g c v p i).trajectory = t := rfl
@[simp]
theorem gain_mk (t g c v p i) : (mk t g c v p i).gain = g := rfl
@[simp]
theorem cost_mk (t g c v p i) : (mk t g c v p i).cost = c := rfl
@[simp]
theorem value_mk (t g c v p i) : (mk t g c v p i).value = v := rfl
@[simp]
theorem parent_mk (t g c v p i) : (mk t g c v p i).parent = p := rfl
@[simp]
theorem info_mk (t g c v p i) : (mk t g c v p i).info = i := rfl

@[simp]
theorem trajectory_setTrajectory (s : TrajectorySegment) (t) :
    (s.setTrajectory t).trajectory = t := by cases s; rfl
@[simp]
theorem gain_setTrajectory (s : TrajectorySegment) (t) :
    (s.setTrajectory t).gain = s.gain := by cases s; rfl
@[simp]
theorem cost_setTrajectory (s : TrajectorySegment) (t) :
    (s.setTrajectory t).cost = s.cost := by cases s; rfl
@[simp]
theorem value_setTrajectory (s : TrajectorySegment) (t) :
    (s.setTrajectory t).value = s.value := by cases s; rfl
@[simp]
theorem parent_setTrajectory (s : TrajectorySegment) (t) :
    (s.setTrajectory t).parent = s.parent := by cases s; rfl
@[simp]
theorem info_setTrajectory (s : TrajectorySegment) (t) :
    (s.setTrajectory t).info = s.info := by cases s; rfl

@[simp]
theorem trajectory_setGain (s : TrajectorySegment) (g) :
    (s.setGain g).trajectory = s.trajectory := by cases s; rfl
@[simp]
theorem gain_setGain (s : TrajectorySegment) (g) :
    (s.setGain g).gain = g := by cases s; rfl
@[simp]
theorem cost_setGain (s : TrajectorySegment) (g) :
    (s.setGain g).cost = s.cost := by cases s; rfl
@[simp]
theorem value_setGain (s : TrajectorySegment) (g) :
    (s.setGain g).value = s.value := by cases s; rfl
@[simp]
theorem parent_setGain (s : TrajectorySegment) (g) :
    (s.setGain g).parent = s.parent := by cases s; rfl
@[simp]
theorem info_setGain (s : TrajectorySegment) (g) :
    (s.setGain g).info = s.info := by cases s; rfl

@[simp]
theorem trajectory_setCost (s : TrajectorySegment) (c) :
    (s.setCost c).trajectory = s.trajectory := by cases s; rfl
@[simp]
theorem gain_setCost (s : TrajectorySegment) (c) :
    (s.setCost c).gain = s.gain := by cases s; rfl
@[simp]
theorem cost_setCost (s : TrajectorySegment) (c) :
    (s.setCost c).cost = c := by cases s; rfl
@[simp]
theorem value_setCost (s : TrajectorySegment) (c) :
    (s.setCost c).value = s.value := by cases s; rfl
@[simp]
theorem parent_setCost (s : TrajectorySegment) (c) :
    (s.setCost c).parent = s.parent := by cases s; rfl
@[simp]
theorem info_setCost (s : TrajectorySegment) (c) :
    (s.setCost c).info = s.info := by cases s; rfl

@[simp]
theorem trajectory_setValue (s : TrajectorySegment) (v) :
    (s.setValue v).trajectory = s.trajectory := by cases s; rfl
@[simp]
theorem gain_setValue (s : TrajectorySegment) (v) :
    (s.setValue v).gain = s.gain := by cases s; rfl
@[simp]
theorem cost_setValue (s : TrajectorySegment) (v) :
    (s.setValue v).cost = s.cost := by cases s; rfl
@[simp]
theorem value_setValue (s : TrajectorySegment) (v) :
    (s.setValue v).value = v := by cases s; rfl
@[simp]
theorem parent_setValue (s : TrajectorySegment) (v) :
    (s.setValue v).parent = s.parent := by cases s; rfl
@[simp]
theorem info_setValue (s : TrajectorySegment) (v) :
    (s.setValue v).info = s.info := by cases s; rfl

@[simp]
theorem trajectory_setInfo (s : TrajectorySegment) (i) :
    (s.setInfo i).trajectory = s.trajectory := by cases s; rfl
@[simp]
theorem gain_setInfo (s : TrajectorySegment) (i) :
    (s.setInfo i).gain = s.gain := by cases s; rfl
@[simp]
theorem cost_setInfo (s : TrajectorySegment) (i) :
    (s.setInfo i).cost = s.cost := by cases s; rfl
@[simp]
theorem value_setInfo (s : TrajectorySegment) (i) :
    (s.setInfo i).value = s.value := by cases s; rfl
@[simp]
theorem parent_setInfo (s : TrajectorySegment) (i) :
    (s.setInfo i).parent = s.parent := by cases s; rfl
@[simp]
theorem info_setInfo (s : TrajectorySegment) (i) :
    (s.setInfo i).info = i := by cases s; rfl

@[simp]
theorem trajectory_shallowCopy (s : TrajectorySegment) :
    s.shallowCopy.trajectory = s.trajectory := by cases s; rfl
@[simp]
theorem gain_shallowCopy (s : TrajectorySegment) :
    s.shallowCopy.gain = s.gain := by cases s; rfl
@[simp]
theorem cost_shallowCopy (s : TrajectorySegment) :
    s.shallowCopy.cost = s.cost := by cases s; rfl
@[simp]
theorem value_shallowCopy (s : TrajectorySegment) :
    s.shallowCopy.value = s.value := by cases s; rfl
@[simp]
theorem parent_shallowCopy (s : TrajectorySegment) :
    s.shallowCopy.parent = s.parent := by cases s; rfl
@[simp]
theorem info_shallowCopy (s : TrajectorySegment) :
    s.shallowCopy.info = none := by cases s; rfl

/-- Two segments with the same six fields are equal. -/
theorem ext_fields {s t : TrajectorySegment} (h1 : s.trajectory = t.trajectory)
    (h2 : s.gain = t.gain) (h3 : s.cost = t.cost) (h4 : s.value = t.value)
    (h5 : s.parent = t.parent) (h6 : s.info = t.info) : s = t := by
  cases s; cases t
  simp only [trajectory, gain, cost, value, parent, info] at h1 h2 h3 h4 h5 h6
  subst h1 h2 h3 h4 h5 h6
  rfl

end TrajectorySegment

/-! ## The sampling loop of `computeGain` -/

namespace YawPlanningEvaluator

variable {σ : Type}

theorem computeGainStep_eq (e : YawPlanningEvaluator σ) (traj_in : TrajectorySegment)
    (sy oy : ℚ) (s : LoopState σ) (i : Nat) (hi : i ≠ 0) :
    e.computeGainStep traj_in sy oy s i =
      if score e.p_select_by_value_ (e.rescored (e.sampled traj_in sy oy i) s.state).1
          > s.best_value then
        ⟨⟨s.info.orientations ++ [(e.rescored (e.sampled traj_in sy oy i) s.state).1], i⟩,
          score e.p_select_by_value_ (e.rescored (e.sampled traj_in sy oy i) s.state).1,
          score e.p_select_by_value_ (e.rescored (e.sampled traj_in sy oy i) s.state).1,
          (e.rescored (e.sampled traj_in sy oy i) s.state).2⟩
      else
        ⟨⟨s.info.orientations ++ [(e.rescored (e.sampled traj_in sy oy i) s.state).1],
            s.info.active_orientation⟩,
          score e.p_select_by_value_ (e.rescored (e.sampled traj_in sy oy i) s.state).1,
          s.best_value,
          (e.rescored (e.sampled traj_in sy oy i) s.state).2⟩ := by
  unfold computeGainStep rescored sampled score
  cases hsbv : e.p_select_by_value_ <;> simp [hi]

theorem computeGainInit_eq (e : YawPlanningEvaluator σ) (traj_in : TrajectorySegment)
    (sy oy : ℚ) (st : σ) :
    e.computeGainInit traj_in sy oy st =
      ⟨⟨[(e.rescored (e.sampled traj_in sy oy 0) st).1], 0⟩,
        score e.p_select_by_value_ (e.rescored (e.sampled traj_in sy oy 0) st).1,
        score e.p_select_by_value_ (e.rescored (e.sampled traj_in sy oy 0) st).1,
        (e.rescored (e.sampled traj_in sy oy 0) st).2⟩ := by
  unfold computeGainInit rescored sampled score
  cases hsbv : e.p_select_by_value_ <;> simp

theorem gainInv_init (e : YawPlanningEvaluator σ) (traj_in : TrajectorySegment)
    (sy oy : ℚ) (st : σ) :
    GainInv e.p_select_by_value_ (e.computeGainInit traj_in sy oy st) 1 := by
  rw [computeGainInit_eq]
  constructor <;> simp

theorem gainInv_step (e : YawPlanningEvaluator σ) (traj_in : TrajectorySegment)
    (sy oy : ℚ) (s : LoopState σ) (m : Nat) (hm : m ≠ 0)
    (h : GainInv e.p_select_by_value_ s m) :
    GainInv e.p_select_by_value_ (e.computeGainStep traj_in sy oy s m) (m + 1) := by
  rw [computeGainStep_eq e traj_in sy oy s m hm]
  obtain ⟨hlen, hact, hbest, hle, hlt⟩ := h
  split_ifs with hgt
  · constructor
    · simp [hlen]
    · simp
    · simp [← hlen]
    · intro o ho
      simp only [List.mem_append, List.mem_singleton] at ho
      rcases ho with ho | ho
      · exact le_of_lt (lt_of_le_of_lt (hle o ho) hgt)
      · simp [ho]
    · intro o ho
      simp only [← hlen, List.take_left] at ho
      exact lt_of_le_of_lt (hle o ho) hgt
  · constructor
    · simp [hlen]
    · simp only; omega
    · simp only
      rw [List.getElem?_append_left (by omega)]
      exact hbest
    · intro o ho
      simp only [List.mem_append, List.mem_singleton] at ho
      rcases ho with ho | ho
      · exact hle o ho
      · subst ho; exact not_lt.mp hgt
    · intro o ho
      simp only at ho
      rw [List.take_append_of_le_length (by omega)] at ho
      exact hlt o ho

theorem gainInv_foldl (e : YawPlanningEvaluator σ) (traj_in : TrajectorySegment)
    (sy oy : ℚ) (k : Nat) : ∀ (m : Nat) (s : LoopState σ), m ≠ 0 →
    GainInv e.p_select_by_value_ s m →
    GainInv e.p_select_by_value_
      ((List.range' m k).foldl (e.computeGainStep traj_in sy oy) s) (m + k) := by
  induction k with
  | zero => intro m s _ h; simpa using h
  | succ k ih =>
    intro m s hm h
    rw [List.range'_succ, List.foldl_cons]
    have := ih (m + 1) _ (by omega) (gainInv_step e traj_in sy oy s m hm h)
    rw [show m + (k + 1) = m + 1 + k by omega]
    exact this

theorem gainInv_loop (e : YawPlanningEvaluator σ) (traj_in : TrajectorySegment)
    (sy oy : ℚ) (st : σ) :
    GainInv e.p_select_by_value_ (e.computeGainLoop traj_in sy oy st)
      (1 + (e.p_n_directions_ - 1).toNat) :=
  gainInv_foldl e traj_in sy oy _ 1 _ (by omega) (gainInv_init e traj_in sy oy st)

end YawPlanningEvaluator


/-! ## `computeGain` -/

namespace YawPlanningEvaluator

variable {σ : Type}

/-- On a segment with at least one pose `computeGain` returns: it reports
success, hands back the inner state the sampling loop ends in, and the segment
carries the record of the loop and the metrics of the active alternative
`best`. -/
theorem computeGain_some (e : YawPlanningEvaluator σ) (traj_in : TrajectorySegment)
    (st : σ) (hne : traj_in.trajectory ≠ []) :
    ∃ front back best t,
      traj_in.trajectory.head? = some front ∧
      traj_in.trajectory.getLast? = some back ∧
      (e.computeGainLoop traj_in front.getYaw back.getYaw st).info.orientations[
        (e.computeGainLoop traj_in front.getYaw back.getYaw st).info.active_orientation]?
          = some best ∧
      e.computeGain traj_in st = some ⟨true, t,
        (e.computeGainLoop traj_in front.getYaw back.getYaw st).state⟩ ∧
      t.info = some (e.computeGainLoop traj_in front.getYaw back.getYaw st).info ∧
      t.trajectory = best.trajectory ∧ t.gain = best.gain ∧ t.parent = traj_in.parent ∧
      (e.p_select_by_value_ = true → t.cost = best.cost ∧ t.value = best.value) ∧
      (e.p_select_by_value_ = false → t.cost = traj_in.cost ∧ t.value = traj_in.value) := by
  obtain ⟨front, hfront⟩ : ∃ f, traj_in.trajectory.head? = some f := by
    cases h : traj_in.trajectory with
    | nil => exact absurd h hne
    | cons a l => exact ⟨a, rfl⟩
  obtain ⟨back, hback⟩ : ∃ b, traj_in.trajectory.getLast? = some b :=
    ⟨_, List.getLast?_eq_getLast _ hne⟩
  have hinv := gainInv_loop e traj_in front.getYaw back.getYaw st
  obtain ⟨best, hbest⟩ : ∃ b,
      (e.computeGainLoop traj_in front.getYaw back.getYaw st).info.orientations[
        (e.computeGainLoop traj_in front.getYaw back.getYaw st).info.active_orientation]?
          = some b := by
    refine ⟨_, List.getElem?_eq_getElem ?_⟩
    rw [hinv.len]; exact hinv.act
  refine ⟨front, back, best,
    (if e.p_select_by_value_ then
      (((traj_in.setTrajectory best.trajectory).setGain best.gain).setCost best.cost).setValue
        best.value
     else (traj_in.setTrajectory best.trajectory).setGain best.gain).setInfo
      (some (e.computeGainLoop traj_in front.getYaw back.getYaw st).info),
    hfront, hback, hbest, ?_, ?_⟩
  · unfold computeGain
    rw [hfront, hback]
    simp only [applyBest, hbest]
  · cases hsbv : e.p_select_by_value_ <;> simp

/-- C1: for `n_directions = k ≥ 1` and a segment with at least one pose,
`computeGain` returns and attaches a record with exactly `k` alternatives whose
active index `a` satisfies `0 ≤ a < k`. -/
theorem computeGain_alternative_count (e : YawPlanningEvaluator σ)
    (traj_in : TrajectorySegment) (st : σ) (k : Nat) (hk : 1 ≤ k)
    (hn : e.p_n_directions_ = (k : Int)) (hne : traj_in.trajectory ≠ []) :
    ∃ r info, e.computeGain traj_in st = some r ∧ r.segment.info = some info ∧
      info.orientations.length = k ∧
      0 ≤ info.active_orientation ∧ info.active_orientation < k := by
  obtain ⟨front, back, best, t, -, -, -, hrun, hinfo, -⟩ := computeGain_some e traj_in st hne
  have hinv := gainInv_loop e traj_in front.getYaw back.getYaw st
  have hcount : 1 + (e.p_n_directions_ - 1).toNat = k := by rw [hn]; omega
  rw [hcount] at hinv
  exact ⟨_, _, hrun, hinfo, hinv.len, Nat.zero_le _, hinv.act⟩

end YawPlanningEvaluator

/-! ## Winner selection -/

theorem isFirstMax_unique {l : List ℚ} {a b : Nat} (ha : IsFirstMax l a)
    (hb : IsFirstMax l b) : a = b := by
  obtain ⟨ma, hma, hale, halt⟩ := ha
  obtain ⟨mb, hmb, hble, hblt⟩ := hb
  rcases Nat.lt_trichotomy a b with h | h | h
  · exact absurd (hblt a ma h hma) (not_lt.mpr (hale b mb hmb))
  · exact h
  · exact absurd (halt b mb h hmb) (not_lt.mpr (hble a ma hma))

namespace YawPlanningEvaluator

variable {σ : Type}

theorem GainInv.isFirstMax {sbv : Bool} {s : LoopState σ} {m : Nat} (h : GainInv sbv s m) :
    IsFirstMax (s.info.orientations.map (score sbv)) s.info.active_orientation := by
  refine ⟨s.best_value, ?_, ?_, ?_⟩
  · rw [List.getElem?_map]; exact h.best
  · intro j x hx
    rw [List.getElem?_map] at hx
    obtain ⟨o, ho, rfl⟩ := Option.map_eq_some'.mp hx
    exact h.le o (List.getElem?_mem ho)
  · intro j x hj hx
    rw [List.getElem?_map] at hx
    obtain ⟨o, ho, rfl⟩ := Option.map_eq_some'.mp hx
    refine h.lt o (List.getElem?_mem (n := j) ?_)
    rw [List.getElem?_take_of_lt hj]; exact ho

/-- A run of `computeGain` that returns was made on a segment with a pose. -/
theorem trajectory_ne_nil_of_computeGain (e : YawPlanningEvaluator σ)
    (traj_in : TrajectorySegment) (st : σ) (r : Outcome σ Bool)
    (h : e.computeGain traj_in st = some r) : traj_in.trajectory ≠ [] := by
  intro hnil
  unfold computeGain at h
  rw [hnil] at h
  simp at h

/-- What every returning run of `computeGain` leaves: a record whose active
index is the first maximum of the scores. -/
theorem computeGain_isFirstMax (e : YawPlanningEvaluator σ) (traj_in : TrajectorySegment)
    (st : σ) (r : Outcome σ Bool) (info : YawPlanningInfo)
    (hr : e.computeGain traj_in st = some r) (hi : r.segment.info = some info) :
    IsFirstMax (info.orientations.map (score e.p_select_by_value_))
      info.active_orientation := by
  have hne := trajectory_ne_nil_of_computeGain e traj_in st r hr
  obtain ⟨front, back, best, t, -, -, -, hrun, hinfo, -⟩ := computeGain_some e traj_in st hne
  rw [hrun] at hr
  cases hr
  simp only at hi
  rw [hinfo] at hi
  cases hi
  exact (gainInv_loop e traj_in front.getYaw back.getYaw st).isFirstMax

/-- The record of the sampling loop, entry by entry: before the pass with index
`m` it holds the alternatives `0, ..., m - 1` as the inner evaluator scored
them, and the inner state is the one reached after them. -/
theorem record_foldl (e : YawPlanningEvaluator σ) (traj_in : TrajectorySegment)
    (sy oy : ℚ) (st : σ) (k : Nat) : ∀ (m : Nat) (s : LoopState σ), m ≠ 0 →
    s.info.orientations = (List.range m).map (e.scored traj_in sy oy st) →
    s.state = e.scoringState traj_in sy oy st m →
    ((List.range' m k).foldl (e.computeGainStep traj_in sy oy) s).info.orientations
        = (List.range (m + k)).map (e.scored traj_in sy oy st) ∧
      ((List.range' m k).foldl (e.computeGainStep traj_in sy oy) s).state
        = e.scoringState traj_in sy oy st (m + k) := by
  induction k with
  | zero => intro m s _ h1 h2; exact ⟨by simpa using h1, by simpa using h2⟩
  | succ k ih =>
    intro m s hm h1 h2
    rw [List.range'_succ, List.foldl_cons, show m + (k + 1) = m + 1 + k by omega]
    apply ih (m + 1) _ (by omega)
    · rw [computeGainStep_eq e traj_in sy oy s m hm, List.range_succ, List.map_append,
        List.map_singleton, ← h1]
      unfold scored
      rw [← h2]
      split_ifs <;> rfl
    · rw [computeGainStep_eq e traj_in sy oy s m hm]
      show _ = (e.rescored (e.sampled traj_in sy oy m) (e.scoringState traj_in sy oy st m)).2
      rw [← h2]
      split_ifs <;> rfl

theorem record_loop (e : YawPlanningEvaluator σ) (traj_in : TrajectorySegment)
    (sy oy : ℚ) (st : σ) :
    (e.computeGainLoop traj_in sy oy st).info.orientations
        = (List.range (1 + (e.p_n_directions_ - 1).toNat)).map (e.scored traj_in sy oy st) ∧
      (e.computeGainLoop traj_in sy oy st).state
        = e.scoringState traj_in sy oy st (1 + (e.p_n_directions_ - 1).toNat) := by
  unfold computeGainLoop
  apply record_foldl e traj_in sy oy st _ 1 _ (by omega)
  · rw [computeGainInit_eq]; rfl
  · rw [computeGainInit_eq]; rfl

theorem scored_by_gain (e : YawPlanningEvaluator σ) (traj_in : TrajectorySegment)
    (sy oy : ℚ) (st : σ) (h : e.p_select_by_value_ = false) (i : Nat) :
    e.scored traj_in sy oy st i
      = (e.following_evaluator_.computeGain (e.sampled traj_in sy oy i)
          (e.scoringState traj_in sy oy st i)).segment := by
  unfold scored rescored
  simp [h]

theorem scored_by_value (e : YawPlanningEvaluator σ) (traj_in : TrajectorySegment)
    (sy oy : ℚ) (st : σ) (h : e.p_select_by_value_ = true) (i : Nat) :
    e.scored traj_in sy oy st i
      = (e.following_evaluator_.computeValue
          (e.following_evaluator_.computeCost
            (e.following_evaluator_.computeGain (e.sampled traj_in sy oy i)
              (e.scoringState traj_in sy oy st i)).segment
            (e.following_evaluator_.computeGain (e.sampled traj_in sy oy i)
              (e.scoringState traj_in sy oy st i)).state).segment
          (e.following_evaluator_.computeCost
            (e.following_evaluator_.computeGain (e.sampled traj_in sy oy i)
              (e.scoringState traj_in sy oy st i)).segment
            (e.following_evaluator_.computeGain (e.sampled traj_in sy oy i)
              (e.scoringState traj_in sy oy st i)).state).state).segment := by
  unfold scored rescored
  simp [h]

/-- The record and the inner state that a returning run of `computeGain`
leaves, in terms of the inner evaluator's results on the sampled alternatives. -/
theorem computeGain_record (e : YawPlanningEvaluator σ) (traj_in : TrajectorySegment)
    (st : σ) (r : Outcome σ Bool) (info : YawPlanningInfo)
    (front back : EigenTrajectoryPoint)
    (hr : e.computeGain traj_in st = some r) (hi : r.segment.info = some info)
    (hf : traj_in.trajectory.head? = some front)
    (hb : traj_in.trajectory.getLast? = some back) :
    info.orientations = (List.range (1 + (e.p_n_directions_ - 1).toNat)).map
        (e.scored traj_in front.getYaw back.getYaw st) ∧
      r.state = e.scoringState traj_in front.getYaw back.getYaw st
        (1 + (e.p_n_directions_ - 1).toNat) := by
  have hne := trajectory_ne_nil_of_computeGain e traj_in st r hr
  obtain ⟨front1, back1, best, t, hf1, hb1, -, hrun, hinfo, -⟩ :=
    computeGain_some e traj_in st hne
  rw [hf] at hf1
  rw [hb] at hb1
  cases hf1
  cases hb1
  rw [hrun] at hr
  cases hr
  simp only at hi
  rw [hinfo] at hi
  cases hi
  exact record_loop e traj_in front.getYaw back.getYaw st

/-- C2: after `computeGain` the record holds, for `i = 0, ..., n_directions - 1`
in this order, the sampled alternative `i` as the inner evaluator left it (after
its gain computation, or after its gain, cost and value computations when
selecting by value, each run in the inner state the previous alternative left),
and the active index is the lowest index of a maximal score among them, the
score being the value when selecting by value and the gain otherwise; any other
run in which the inner evaluator leaves the same list of scores on its
alternatives has the same active index. -/
theorem computeGain_active_first_max (e : YawPlanningEvaluator σ)
    (traj_in : TrajectorySegment) (st : σ) (hne : traj_in.trajectory ≠ []) :
    ∃ r info front back, e.computeGain traj_in st = some r ∧ r.segment.info = some info ∧
      traj_in.trajectory.head? = some front ∧ traj_in.trajectory.getLast? = some back ∧
      info.orientations = (List.range (1 + (e.p_n_directions_ - 1).toNat)).map
        (e.scored traj_in front.getYaw back.getYaw st) ∧
      (∀ k : Nat, 1 ≤ k → e.p_n_directions_ = (k : Int) → info.orientations.length = k) ∧
      r.state = e.scoringState traj_in front.getYaw back.getYaw st
        (1 + (e.p_n_directions_ - 1).toNat) ∧
      (e.p_select_by_value_ = false → ∀ i : Nat,
        e.scored traj_in front.getYaw back.getYaw st i
          = (e.following_evaluator_.computeGain
              (e.sampled traj_in front.getYaw back.getYaw i)
              (e.scoringState traj_in front.getYaw back.getYaw st i)).segment) ∧
      (e.p_select_by_value_ = true → ∀ i : Nat,
        e.scored traj_in front.getYaw back.getYaw st i
          = (e.following_evaluator_.computeValue
              (e.following_evaluator_.computeCost
                (e.following_evaluator_.computeGain
                  (e.sampled traj_in front.getYaw back.getYaw i)
                  (e.scoringState traj_in front.getYaw back.getYaw st i)).segment
                (e.following_evaluator_.computeGain
                  (e.sampled traj_in front.getYaw back.getYaw i)
                  (e.scoringState traj_in front.getYaw back.getYaw st i)).state).segment
              (e.following_evaluator_.computeCost
                (e.following_evaluator_.computeGain
                  (e.sampled traj_in front.getYaw back.getYaw i)
                  (e.scoringState traj_in front.getYaw back.getYaw st i)).segment
                (e.following_evaluator_.computeGain
                  (e.sampled traj_in front.getYaw back.getYaw i)
                  (e.scoringState traj_in front.getYaw back.getYaw st i)).state).state).segment) ∧
      IsFirstMax (info.orientations.map (score e.p_select_by_value_))
        info.active_orientation ∧
      ∀ (τ : Type) (e2 : YawPlanningEvaluator τ) (traj2 : TrajectorySegment) (st2 : τ)
        (r2 : Outcome τ Bool) (info2 : YawPlanningInfo) (front2 back2 : EigenTrajectoryPoint),
        e2.computeGain traj2 st2 = some r2 → r2.segment.info = some info2 →
        traj2.trajectory.head? = some front2 → traj2.trajectory.getLast? = some back2 →
        ((List.range (1 + (e2.p_n_directions_ - 1).toNat)).map
            (e2.scored traj2 front2.getYaw back2.getYaw st2)).map
            (score e2.p_select_by_value_)
          = ((List.range (1 + (e.p_n_directions_ - 1).toNat)).map
            (e.scored traj_in front.getYaw back.getYaw st)).map
            (score e.p_select_by_value_) →
        info2.active_orientation = info.active_orientation := by
  obtain ⟨front, back, best, t, hfront, hback, -, hrun, hinfo, -⟩ :=
    computeGain_some e traj_in st hne
  have hfm := computeGain_isFirstMax e traj_in st _ _ hrun hinfo
  obtain ⟨hrec, hstate⟩ := record_loop e traj_in front.getYaw back.getYaw st
  refine ⟨_, _, front, back, hrun, hinfo, hfront, hback, hrec, ?_, hstate,
    fun h i => scored_by_gain e traj_in _ _ st h i,
    fun h i => scored_by_value e traj_in _ _ st h i, hfm, ?_⟩
  · intro k hk hn
    rw [hrec, List.length_map, List.length_range, hn]
    omega
  · intro τ e2 traj2 st2 r2 info2 front2 back2 hr2 hi2 hf2 hb2 hsc
    have hfm2 := computeGain_isFirstMax e2 traj2 st2 r2 info2 hr2 hi2
    rw [(computeGain_record e2 traj2 st2 r2 info2 front2 back2 hr2 hi2 hf2 hb2).1, hsc,
      ← hrec] at hfm2
    exact isFirstMax_unique hfm2 hfm

end YawPlanningEvaluator

/-! ## The example run: three directions, gains 5, 9, 3 and values 8, 4, 9 -/

theorem exampleSegment_trajectory_ne_nil : exampleSegment.trajectory ≠ [] := by
  simp [exampleSegment, exampleNode, TrajectorySegment.trajectory]

theorem example_computeGain_by_gain (range ug : ℚ) :
    (exampleEvaluator false range ug).computeGain exampleSegment () =
      some ⟨true, exampleNode (44 / 21) 9 0 0 (some ⟨[exampleNode 0 5 0 0 none,
        exampleNode (44 / 21) 9 0 0 none, exampleNode (88 / 21) 3 0 0 none], 1⟩), ()⟩ := by
  simp [exampleEvaluator, SimpleYawPlanningEvaluator.create, YawPlanningEvaluator.computeGain,
    exampleSegment, exampleNode, TrajectorySegment.trajectory,
    YawPlanningEvaluator.computeGainLoop, YawPlanningEvaluator.computeGainStep,
    YawPlanningEvaluator.computeGainInit, List.range', headingEvaluator,
    SimpleYawPlanningEvaluator.setTrajectoryYaw, SimpleYawPlanningEvaluator.sampleYaw,
    TrajectorySegment.shallowCopy, TrajectorySegment.setTrajectory, finalYaw,
    EigenTrajectoryPoint.setFromYaw, EigenTrajectoryPoint.getYaw, TrajectorySegment.setGain,
    exampleGain, TrajectorySegment.gain, YawPlanningEvaluator.applyBest,
    TrajectorySegment.setInfo]
  norm_num

theorem example_computeGain_by_value (range ug : ℚ) :
    (exampleEvaluator true range ug).computeGain exampleSegment () =
      some ⟨true, exampleNode (88 / 21) 3 1 9 (some ⟨[exampleNode 0 5 1 8 none,
        exampleNode (44 / 21) 9 1 4 none, exampleNode (88 / 21) 3 1 9 none], 2⟩), ()⟩ := by
  simp [exampleEvaluator, SimpleYawPlanningEvaluator.create, YawPlanningEvaluator.computeGain,
    exampleSegment, exampleNode, TrajectorySegment.trajectory,
    YawPlanningEvaluator.computeGainLoop, YawPlanningEvaluator.computeGainStep,
    YawPlanningEvaluator.computeGainInit, List.range', headingEvaluator,
    SimpleYawPlanningEvaluator.setTrajectoryYaw, SimpleYawPlanningEvaluator.sampleYaw,
    TrajectorySegment.shallowCopy, TrajectorySegment.setTrajectory, finalYaw,
    EigenTrajectoryPoint.setFromYaw, EigenTrajectoryPoint.getYaw, TrajectorySegment.setGain,
    exampleGain, exampleValue, TrajectorySegment.gain, TrajectorySegment.value,
    TrajectorySegment.cost, TrajectorySegment.setCost, TrajectorySegment.setValue,
    YawPlanningEvaluator.applyBest, TrajectorySegment.setInfo]
  norm_num

namespace YawPlanningEvaluator

variable {σ : Type}

/-- Witness of C1: three directions on the example segment. -/
theorem computeGain_alternative_count_witness :
    (1 ≤ 3 ∧ (exampleEvaluator false 0 0).p_n_directions_ = ((3 : Nat) : Int) ∧
      exampleSegment.trajectory ≠ []) ∧
    ∃ r info, (exampleEvaluator false 0 0).computeGain exampleSegment () = some r ∧
      r.segment.info = some info ∧ info.orientations.length = 3 ∧
      0 ≤ info.active_orientation ∧ info.active_orientation < 3 :=
  ⟨⟨by decide, rfl, exampleSegment_trajectory_ne_nil⟩,
    computeGain_alternative_count (exampleEvaluator false 0 0) exampleSegment () 3
      (by decide) rfl exampleSegment_trajectory_ne_nil⟩

/-- Witness of C2: the example run selecting by value; the inner evaluator
leaves the values 8, 4, 9 on the three alternatives and the active index is 2,
and selecting by gain it leaves the gains 5, 9, 3 and the active index is 1. -/
theorem computeGain_active_first_max_witness :
    (exampleSegment.trajectory ≠ [] ∧
      scoresAfter true ((exampleEvaluator true 0 0).computeGain exampleSegment ())
        = some [8, 4, 9] ∧
      activeAfter ((exampleEvaluator true 0 0).computeGain exampleSegment ()) = some 2 ∧
      scoresAfter false ((exampleEvaluator false 0 0).computeGain exampleSegment ())
        = some [5, 9, 3] ∧
      activeAfter ((exampleEvaluator false 0 0).computeGain exampleSegment ()) = some 1) ∧
    ∃ r info front back,
      (exampleEvaluator true 0 0).computeGain exampleSegment () = some r ∧
      r.segment.info = some info ∧
      exampleSegment.trajectory.head? = some front ∧
      exampleSegment.trajectory.getLast? = some back ∧
      info.orientations = (List.range 3).map
        ((exampleEvaluator true 0 0).scored exampleSegment front.getYaw back.getYaw ()) ∧
      info.orientations.length = 3 ∧
      IsFirstMax (info.orientations.map (score true)) info.active_orientation :=
  ⟨⟨exampleSegment_trajectory_ne_nil,
      by rw [example_computeGain_by_value]; rfl,
      by rw [example_computeGain_by_value]; rfl,
      by rw [example_computeGain_by_gain]; rfl,
      by rw [example_computeGain_by_gain]; rfl⟩,
    match computeGain_active_first_max (exampleEvaluator true 0 0) exampleSegment ()
      exampleSegment_trajectory_ne_nil with
    | ⟨r, info, front, back, h1, h2, h3, h4, h5, h6, _, _, _, h7, _⟩ =>
      ⟨r, info, front, back, h1, h2, h3, h4, h5, h6 3 (by decide) rfl, h7⟩⟩

theorem score_false (s : TrajectorySegment) : score false s = s.gain := rfl

theorem score_true (s : TrajectorySegment) : score true s = s.value := rfl

/-- C4: after `computeGain` the trajectory and the gain of the segment are
those of the active alternative; selecting by value its cost and value are
those of the active alternative too, otherwise they are the ones the segment
had before the call. -/
theorem computeGain_applies_active (e : YawPlanningEvaluator σ)
    (traj_in : TrajectorySegment) (st : σ) (hne : traj_in.trajectory ≠ []) :
    ∃ r info best, e.computeGain traj_in st = some r ∧ r.segment.info = some info ∧
      info.orientations[info.active_orientation]? = some best ∧
      r.segment.trajectory = best.trajectory ∧ r.segment.gain = best.gain ∧
      (e.p_select_by_value_ = true →
        r.segment.cost = best.cost ∧ r.segment.value = best.value) ∧
      (e.p_select_by_value_ = false →
        r.segment.cost = traj_in.cost ∧ r.segment.value = traj_in.value) := by
  obtain ⟨front, back, best, t, -, -, hbest, hrun, hinfo, htraj, hgain, -, hv, hg⟩ :=
    computeGain_some e traj_in st hne
  exact ⟨_, _, best, hrun, hinfo, hbest, htraj, hgain, hv, hg⟩

/-- Witness of C4: three directions with inner gains 5, 9, 3 give the active
index 1 and the segment gain 9. -/
theorem computeGain_applies_active_witness :
    (exampleSegment.trajectory ≠ [] ∧
      activeAfter ((exampleEvaluator false 0 0).computeGain exampleSegment ()) = some 1 ∧
      (segmentAfter ((exampleEvaluator false 0 0).computeGain exampleSegment ())).map
        TrajectorySegment.gain = some 9) ∧
    ∃ r info best, (exampleEvaluator false 0 0).computeGain exampleSegment () = some r ∧
      r.segment.info = some info ∧
      info.orientations[info.active_orientation]? = some best ∧
      r.segment.trajectory = best.trajectory ∧ r.segment.gain = best.gain ∧
      ((exampleEvaluator false 0 0).p_select_by_value_ = true →
        r.segment.cost = best.cost ∧ r.segment.value = best.value) ∧
      ((exampleEvaluator false 0 0).p_select_by_value_ = false →
        r.segment.cost = exampleSegment.cost ∧ r.segment.value = exampleSegment.value) :=
  ⟨⟨exampleSegment_trajectory_ne_nil,
      by rw [example_computeGain_by_gain]; rfl,
      by rw [example_computeGain_by_gain]; rfl⟩,
    computeGain_applies_active (exampleEvaluator false 0 0) exampleSegment ()
      exampleSegment_trajectory_ne_nil⟩

end YawPlanningEvaluator

/-! ## The alternatives that `computeGain` hands to the inner evaluator -/

namespace YawPlanningEvaluator

variable {σ : Type}

theorem computeGainStep_state (e : YawPlanningEvaluator σ) (traj_in : TrajectorySegment)
    (sy oy : ℚ) (s : LoopState σ) (i : Nat) (hi : i ≠ 0) :
    (e.computeGainStep traj_in sy oy s i).state
      = (e.rescored (e.sampled traj_in sy oy i) s.state).2 := by
  rw [computeGainStep_eq e traj_in sy oy s i hi]
  split_ifs <;> rfl

theorem gainCalls_append (l1 l2 : List InnerCall) :
    gainCalls (l1 ++ l2) = gainCalls l1 ++ gainCalls l2 := by
  simp [gainCalls]

theorem gainCalls_rescored_logged (e : YawPlanningEvaluator σ) (alt : TrajectorySegment)
    (st : σ × List InnerCall) :
    gainCalls (e.logged.rescored alt st).2.2 = gainCalls st.2 ++ [alt] := by
  unfold rescored logged TrajectoryEvaluator.logged
  cases hsbv : e.p_select_by_value_ <;> simp [gainCalls]

theorem sampled_logged (e : YawPlanningEvaluator σ) (traj_in : TrajectorySegment)
    (sy oy : ℚ) (i : Nat) : e.logged.sampled traj_in sy oy i = e.sampled traj_in sy oy i := rfl

theorem gainCalls_foldl (e : YawPlanningEvaluator σ) (traj_in : TrajectorySegment)
    (sy oy : ℚ) (k : Nat) : ∀ (m : Nat) (s : LoopState (σ × List InnerCall)), m ≠ 0 →
    gainCalls s.state.2 = (List.range m).map (e.sampled traj_in sy oy) →
    gainCalls ((List.range' m k).foldl (e.logged.computeGainStep traj_in sy oy) s).state.2
      = (List.range (m + k)).map (e.sampled traj_in sy oy) := by
  induction k with
  | zero => intro m s _ h; simpa using h
  | succ k ih =>
    intro m s hm h
    rw [List.range'_succ, List.foldl_cons, show m + (k + 1) = m + 1 + k by omega]
    apply ih (m + 1) _ (by omega)
    rw [computeGainStep_state _ _ _ _ _ _ hm, gainCalls_rescored_logged, h, sampled_logged,
      List.range_succ, List.map_append, List.map_singleton]

theorem gainCalls_loop (e : YawPlanningEvaluator σ) (traj_in : TrajectorySegment)
    (sy oy : ℚ) (st : σ) :
    gainCalls (e.logged.computeGainLoop traj_in sy oy (st, [])).state.2
      = (List.range (1 + (e.p_n_directions_ - 1).toNat)).map (e.sampled traj_in sy oy) := by
  unfold computeGainLoop
  apply gainCalls_foldl e traj_in sy oy _ 1 _ (by omega)
  rw [computeGainInit_eq, gainCalls_rescored_logged, sampled_logged]
  rfl

end YawPlanningEvaluator

namespace SimpleYawPlanningEvaluator

variable {σ : Type}

theorem trajectory_setTrajectoryYaw (s : TrajectorySegment) (sy y : ℚ) :
    (setTrajectoryYaw s sy y).trajectory = s.trajectory.map fun p => p.setFromYaw y := by
  simp [setTrajectoryYaw]

theorem length_setTrajectoryYaw (s : TrajectorySegment) (sy y : ℚ) :
    (setTrajectoryYaw s sy y).trajectory.length = s.trajectory.length := by
  simp [setTrajectoryYaw]

theorem positions_setTrajectoryYaw (s : TrajectorySegment) (sy y : ℚ) :
    (setTrajectoryYaw s sy y).trajectory.map EigenTrajectoryPoint.position_W
      = s.trajectory.map EigenTrajectoryPoint.position_W := by
  rw [trajectory_setTrajectoryYaw, List.map_map]
  rfl

theorem yaw_setTrajectoryYaw (s : TrajectorySegment) (sy y : ℚ) :
    ∀ p ∈ (setTrajectoryYaw s sy y).trajectory, p.getYaw = y := by
  intro p hp
  rw [trajectory_setTrajectoryYaw, List.mem_map] at hp
  obtain ⟨q, -, rfl⟩ := hp
  rfl

/-- C5: with the uniform policy, the segments on which `computeGain` runs the
inner gain computation are `k = n_directions` copies of the input segment, in
index order, with the same number of poses, the same positions, metrics and
parent; every pose of copy 0 has the heading of the last pose of the input, and
every pose of copy `i ≥ 1` has the heading
`sampleYaw(original_yaw, i) = angleScaled(original_yaw + i * 2 * M_PI / k)`. -/
theorem computeGain_simple_alternatives (M_PI : ℚ) (angleScaled : ℚ → ℚ) (k : Nat)
    (hk : 1 ≤ k) (sbv : Bool) (range ug : ℚ) (inner : TrajectoryEvaluator σ)
    (traj_in : TrajectorySegment) (st : σ) (hne : traj_in.trajectory ≠ []) :
    ∃ r back,
      (create M_PI angleScaled (k : Int) sbv range ug inner).logged.computeGain traj_in (st, [])
        = some r ∧
      traj_in.trajectory.getLast? = some back ∧
      (gainCalls r.state.2).length = k ∧
      ∀ i : Nat, i < k → ∃ alt, (gainCalls r.state.2)[i]? = some alt ∧
        alt.trajectory.length = traj_in.trajectory.length ∧
        alt.trajectory.map EigenTrajectoryPoint.position_W
          = traj_in.trajectory.map EigenTrajectoryPoint.position_W ∧
        alt.gain = traj_in.gain ∧ alt.cost = traj_in.cost ∧ alt.value = traj_in.value ∧
        alt.parent = traj_in.parent ∧
        (i = 0 → ∀ p ∈ alt.trajectory, p.getYaw = back.getYaw) ∧
        (1 ≤ i → ∀ p ∈ alt.trajectory,
          p.getYaw = sampleYaw M_PI angleScaled (k : Int) back.getYaw (i : Int) ∧
          p.getYaw = angleScaled (back.getYaw + (i : ℚ) * 2 * M_PI / (k : ℚ))) := by
  obtain ⟨front, back, best, t, -, hback, -, hrun, -⟩ :=
    YawPlanningEvaluator.computeGain_some
      (create M_PI angleScaled (k : Int) sbv range ug inner).logged traj_in (st, []) hne
  have hlog := YawPlanningEvaluator.gainCalls_loop
    (create M_PI angleScaled (k : Int) sbv range ug inner) traj_in front.getYaw back.getYaw st
  have hcount : 1 + ((create M_PI angleScaled (k : Int) sbv range ug inner).p_n_directions_
      - 1).toNat = k := by
    show 1 + ((k : Int) - 1).toNat = k
    omega
  rw [hcount] at hlog
  refine ⟨_, back, hrun, hback, ?_, ?_⟩
  · simp only [hlog, List.length_map, List.length_range]
  · intro i hi
    refine ⟨(create M_PI angleScaled (k : Int) sbv range ug inner).sampled traj_in
      front.getYaw back.getYaw i, ?_, ?_⟩
    · simp only [hlog, List.getElem?_map, List.getElem?_range hi, Option.map_some']
    · have hs : (create M_PI angleScaled (k : Int) sbv range ug inner).sampled traj_in
          front.getYaw back.getYaw i
          = setTrajectoryYaw traj_in.shallowCopy front.getYaw
              (if i = 0 then back.getYaw
               else sampleYaw M_PI angleScaled (k : Int) back.getYaw (i : Int)) := rfl
      rw [hs]
      refine ⟨by rw [length_setTrajectoryYaw]; simp,
        by rw [positions_setTrajectoryYaw]; simp, by simp [setTrajectoryYaw],
        by simp [setTrajectoryYaw], by simp [setTrajectoryYaw], by simp [setTrajectoryYaw],
        ?_, ?_⟩
      · intro h0 p hp
        rw [if_pos h0] at hp
        exact yaw_setTrajectoryYaw _ _ _ p hp
      · intro h1 p hp
        rw [if_neg (by omega)] at hp
        have := yaw_setTrajectoryYaw _ _ _ p hp
        exact ⟨this, this.trans (by simp [sampleYaw])⟩

/-- Witness of C5: three directions on the example segment. -/
theorem computeGain_simple_alternatives_witness :
    (1 ≤ 3 ∧ exampleSegment.trajectory ≠ []) ∧
    ∃ r back,
      (create (22 / 7) id ((3 : Nat) : Int) false 0 0
        (headingEvaluator exampleGain (fun _ => 1) exampleValue)).logged.computeGain
          exampleSegment ((), []) = some r ∧
      exampleSegment.trajectory.getLast? = some back ∧
      (gainCalls r.state.2).length = 3 ∧
      ∀ i : Nat, i < 3 → ∃ alt, (gainCalls r.state.2)[i]? = some alt ∧
        alt.trajectory.length = exampleSegment.trajectory.length ∧
        alt.trajectory.map EigenTrajectoryPoint.position_W
          = exampleSegment.trajectory.map EigenTrajectoryPoint.position_W ∧
        alt.gain = exampleSegment.gain ∧ alt.cost = exampleSegment.cost ∧
        alt.value = exampleSegment.value ∧ alt.parent = exampleSegment.parent ∧
        (i = 0 → ∀ p ∈ alt.trajectory, p.getYaw = back.getYaw) ∧
        (1 ≤ i → ∀ p ∈ alt.trajectory,
          p.getYaw = sampleYaw (22 / 7) id ((3 : Nat) : Int) back.getYaw (i : Int) ∧
          p.getYaw = id (back.getYaw + (i : ℚ) * 2 * (22 / 7) / ((3 : Nat) : ℚ))) :=
  ⟨⟨by decide, exampleSegment_trajectory_ne_nil⟩,
    computeGain_simple_alternatives (22 / 7) id 3 (by decide) false 0 0
      (headingEvaluator exampleGain (fun _ => 1) exampleValue) exampleSegment ()
      exampleSegment_trajectory_ne_nil⟩

end SimpleYawPlanningEvaluator

/-! ## The scoring loop of `updateSegment` -/

namespace YawPlanningEvaluator

variable {σ : Type}

theorem updateStep_skip (e : YawPlanningEvaluator σ) (segment : TrajectorySegment)
    (s : LoopState σ) (i : Nat) (o : TrajectorySegment)
    (ho : s.info.orientations[i]? = some o) (hne : ¬ e.eligible o) :
    e.updateStep segment s i = some s := by
  unfold updateStep
  simp only [ho]
  rw [if_neg (show ¬ o.gain > e.p_update_gain_ from hne)]

theorem updateStep_score (e : YawPlanningEvaluator σ) (segment : TrajectorySegment)
    (s : LoopState σ) (i : Nat) (o : TrajectorySegment)
    (ho : s.info.orientations[i]? = some o) (hel : e.eligible o)
    (hseg : segment.trajectory ≠ []) (hpose : o.trajectory ≠ []) :
    e.updateStep segment s i =
      some (if score e.p_select_by_value_ (e.rescored o s.state).1 > s.best_value then
        ⟨⟨s.info.orientations.set i (e.rescored o s.state).1, i⟩,
          score e.p_select_by_value_ (e.rescored o s.state).1,
          score e.p_select_by_value_ (e.rescored o s.state).1, (e.rescored o s.state).2⟩
      else
        ⟨⟨s.info.orientations.set i (e.rescored o s.state).1, s.info.active_orientation⟩,
          score e.p_select_by_value_ (e.rescored o s.state).1, s.best_value,
          (e.rescored o s.state).2⟩) := by
  obtain ⟨f, hf⟩ : ∃ f, segment.trajectory.head? = some f := by
    cases h : segment.trajectory with
    | nil => exact absurd h hseg
    | cons a l => exact ⟨a, rfl⟩
  have hb : o.trajectory.getLast? = some (o.trajectory.getLast hpose) :=
    List.getLast?_eq_getLast _ hpose
  unfold updateStep
  simp only [ho]
  rw [if_pos (show o.gain > e.p_update_gain_ from hel), hf, hb]
  unfold rescored score
  cases hsbv : e.p_select_by_value_ <;> simp <;> split_ifs <;> rfl

/-- A pass of the loop that returns found an entry at its index; if the entry
is eligible, the segment and the entry have a pose. -/
theorem updateStep_some (e : YawPlanningEvaluator σ) (segment : TrajectorySegment)
    (s s1 : LoopState σ) (i : Nat) (h : e.updateStep segment s i = some s1) :
    ∃ o, s.info.orientations[i]? = some o ∧
      (e.eligible o → segment.trajectory ≠ [] ∧ o.trajectory ≠ []) := by
  unfold updateStep at h
  cases ho : s.info.orientations[i]? with
  | none => simp [ho] at h
  | some o =>
    refine ⟨o, rfl, fun hel => ?_⟩
    simp only [ho] at h
    rw [if_pos (show o.gain > e.p_update_gain_ from hel)] at h
    constructor
    · intro hnil
      rw [hnil] at h
      simp at h
    · intro hnil
      rw [hnil] at h
      cases hh : segment.trajectory.head? <;> simp [hh] at h

end YawPlanningEvaluator

namespace YawPlanningEvaluator

variable {σ : Type}

theorem UpdInv.lowest_le {e : YawPlanningEvaluator σ} {info : YawPlanningInfo}
    {s : LoopState σ} {m : Nat} (h : e.UpdInv info s m) : lowest ≤ s.best_value := by
  rcases h.act with ⟨h1, -⟩ | ⟨h1, -⟩
  · exact le_of_eq h1.symm
  · exact le_of_lt h1

theorem updInv_init (e : YawPlanningEvaluator σ) (info : YawPlanningInfo) (st : σ) :
    e.UpdInv info ⟨info, lowest, lowest, st⟩ 0 where
  len := rfl
  rest := fun _ _ => rfl
  skip := fun _ _ h _ => h
  scored := fun _ _ h => absurd h (Nat.not_lt_zero _)
  le := fun _ _ _ h => absurd h (Nat.not_lt_zero _)
  act := Or.inl ⟨rfl, rfl⟩

theorem updInv_skip (e : YawPlanningEvaluator σ) (info : YawPlanningInfo)
    (s : LoopState σ) (m : Nat) (o : TrajectorySegment) (h : e.UpdInv info s m)
    (ho : info.orientations[m]? = some o) (hne : ¬ e.eligible o) :
    e.UpdInv info s (m + 1) where
  len := h.len
  rest := fun j hj => h.rest j (by omega)
  skip := h.skip
  scored := by
    intro j p hj hp hel
    rcases Nat.lt_succ_iff_lt_or_eq.mp hj with hlt | heq
    · exact h.scored j p hlt hp hel
    · subst heq
      rw [ho] at hp
      cases hp
      exact absurd hel hne
  le := by
    intro j p p1 hj hp hel hp1
    rcases Nat.lt_succ_iff_lt_or_eq.mp hj with hlt | heq
    · exact h.le j p p1 hlt hp hel hp1
    · subst heq
      rw [ho] at hp
      cases hp
      exact absurd hel hne
  act := by
    rcases h.act with h1 | ⟨h1, h2, h3⟩
    · exact Or.inl h1
    · exact Or.inr ⟨h1, by omega, h3⟩

theorem updInv_score (e : YawPlanningEvaluator σ) (info : YawPlanningInfo)
    (s : LoopState σ) (m : Nat) (o : TrajectorySegment) (h : e.UpdInv info s m)
    (hm : m < info.orientations.length)
    (ho : info.orientations[m]? = some o) (hel : e.eligible o) :
    e.UpdInv info
      (if score e.p_select_by_value_ (e.rescored o s.state).1 > s.best_value then
        ⟨⟨s.info.orientations.set m (e.rescored o s.state).1, m⟩,
          score e.p_select_by_value_ (e.rescored o s.state).1,
          score e.p_select_by_value_ (e.rescored o s.state).1, (e.rescored o s.state).2⟩
      else
        ⟨⟨s.info.orientations.set m (e.rescored o s.state).1, s.info.active_orientation⟩,
          score e.p_select_by_value_ (e.rescored o s.state).1, s.best_value,
          (e.rescored o s.state).2⟩) (m + 1) := by
  have hlen := h.len
  have hset : ∀ j : Nat, j ≠ m →
      (s.info.orientations.set m (e.rescored o s.state).1)[j]? = s.info.orientations[j]? :=
    fun j hj => List.getElem?_set_ne (Ne.symm hj)
  have hself : (s.info.orientations.set m (e.rescored o s.state).1)[m]?
      = some (e.rescored o s.state).1 := by
    rw [List.getElem?_set, if_pos rfl, if_pos (by omega)]
  have hskip : ∀ (j : Nat) (p : TrajectorySegment), info.orientations[j]? = some p →
      ¬ e.eligible p →
      (s.info.orientations.set m (e.rescored o s.state).1)[j]? = some p := by
    intro j p hp hnel
    have hjm : j ≠ m := by
      rintro rfl
      rw [ho] at hp
      cases hp
      exact hnel hel
    rw [hset j hjm]
    exact h.skip j p hp hnel
  have hscored : ∀ (j : Nat) (p : TrajectorySegment), j < m + 1 →
      info.orientations[j]? = some p → e.eligible p →
      ∃ st : σ, (s.info.orientations.set m (e.rescored o s.state).1)[j]?
        = some (e.rescored p st).1 := by
    intro j p hj hp hpel
    rcases Nat.lt_succ_iff_lt_or_eq.mp hj with hlt | heq
    · rw [hset j (by omega)]
      exact h.scored j p hlt hp hpel
    · subst heq
      rw [ho] at hp
      cases hp
      exact ⟨s.state, hself⟩
  split_ifs with hgt
  · refine ⟨by simpa using hlen, ?_, hskip, hscored, ?_, ?_⟩
    · intro j hj
      show (s.info.orientations.set m (e.rescored o s.state).1)[j]? = _
      rw [hset j (by omega)]
      exact h.rest j (by omega)
    · intro j p p1 hj hp hpel hp1
      change (s.info.orientations.set m (e.rescored o s.state).1)[j]? = some p1 at hp1
      show score e.p_select_by_value_ p1 ≤ score e.p_select_by_value_ (e.rescored o s.state).1
      rcases Nat.lt_succ_iff_lt_or_eq.mp hj with hlt | heq
      · rw [hset j (by omega)] at hp1
        exact le_of_lt (lt_of_le_of_lt (h.le j p p1 hlt hp hpel hp1) hgt)
      · subst heq
        rw [hself] at hp1
        cases hp1
        exact le_refl _
    · refine Or.inr ⟨lt_of_le_of_lt h.lowest_le hgt, Nat.lt_succ_self m, o, _, ho, hel, hself,
        rfl, ?_⟩
      intro j p p1 hj hp hpel hp1
      change (s.info.orientations.set m (e.rescored o s.state).1)[j]? = some p1 at hp1
      change j < m at hj
      rw [hset j (by omega)] at hp1
      exact lt_of_le_of_lt (h.le j p p1 hj hp hpel hp1) hgt
  · refine ⟨by simpa using hlen, ?_, hskip, hscored, ?_, ?_⟩
    · intro j hj
      show (s.info.orientations.set m (e.rescored o s.state).1)[j]? = _
      rw [hset j (by omega)]
      exact h.rest j (by omega)
    · intro j p p1 hj hp hpel hp1
      change (s.info.orientations.set m (e.rescored o s.state).1)[j]? = some p1 at hp1
      show score e.p_select_by_value_ p1 ≤ s.best_value
      rcases Nat.lt_succ_iff_lt_or_eq.mp hj with hlt | heq
      · rw [hset j (by omega)] at hp1
        exact h.le j p p1 hlt hp hpel hp1
      · subst heq
        rw [hself] at hp1
        cases hp1
        exact not_lt.mp hgt
    · rcases h.act with h1 | ⟨h1, h2, p, p1, hp, hpel, hp1, hsc, hlt⟩
      · exact Or.inl h1
      · refine Or.inr ⟨h1, Nat.lt_succ_of_lt h2, p, p1, hp, hpel, ?_, hsc, ?_⟩
        · show (s.info.orientations.set m (e.rescored o s.state).1)[
            s.info.active_orientation]? = some p1
          rw [hset _ (by omega)]
          exact hp1
        · intro j q q1 hj hq hqel hq1
          change (s.info.orientations.set m (e.rescored o s.state).1)[j]? = some q1 at hq1
          change j < s.info.active_orientation at hj
          rw [hset j (by omega)] at hq1
          exact hlt j q q1 hj hq hqel hq1

/-- One pass of the loop of `updateSegment` that returns keeps the invariant. -/
theorem updInv_step (e : YawPlanningEvaluator σ) (info : YawPlanningInfo)
    (segment : TrajectorySegment) (s s1 : LoopState σ) (m : Nat)
    (hm : m < info.orientations.length) (h : e.UpdInv info s m)
    (hs : e.updateStep segment s m = some s1) : e.UpdInv info s1 (m + 1) := by
  obtain ⟨o, ho, hposes⟩ := updateStep_some e segment s s1 m hs
  have hoi : info.orientations[m]? = some o := by rw [← h.rest m (le_refl m)]; exact ho
  by_cases hel : e.eligible o
  · obtain ⟨hseg, hpose⟩ := hposes hel
    rw [updateStep_score e segment s m o ho hel hseg hpose] at hs
    cases hs
    exact updInv_score e info s m o h hm hoi hel
  · rw [updateStep_skip e segment s m o ho hel] at hs
    cases hs
    exact updInv_skip e info s m o h hoi hel

/-- Every returning run of the first `m` passes of the loop keeps the
invariant. -/
theorem updInv_foldlM (e : YawPlanningEvaluator σ) (info : YawPlanningInfo)
    (segment : TrajectorySegment) (st : σ) :
    ∀ (m : Nat), m ≤ info.orientations.length → ∀ s : LoopState σ,
      (List.range m).foldlM (e.updateStep segment) ⟨info, lowest, lowest, st⟩ = some s →
      e.UpdInv info s m := by
  intro m
  induction m with
  | zero =>
    intro _ s hs
    simp only [List.range_zero, List.foldlM_nil] at hs
    cases hs
    exact updInv_init e info st
  | succ m ih =>
    intro hm s hs
    rw [List.range_succ, List.foldlM_append] at hs
    cases hmid : (List.range m).foldlM (e.updateStep segment) ⟨info, lowest, lowest, st⟩ with
    | none => simp [hmid] at hs
    | some s0 =>
      rw [hmid] at hs
      simp only [Option.some_bind, List.foldlM_cons, List.foldlM_nil, Option.bind_eq_bind] at hs
      have hstep : e.updateStep segment s0 m = some s := by
        cases hst : e.updateStep segment s0 m with
        | none => simp [hst] at hs
        | some s2 =>
          rw [hst] at hs
          simpa using hs
      exact updInv_step e info segment s0 s m (by omega) (ih (by omega) s0 hmid) hstep

theorem updInv_loop (e : YawPlanningEvaluator σ) (info : YawPlanningInfo)
    (segment : TrajectorySegment) (st : σ) (fin : LoopState σ)
    (h : e.updateLoop segment info st = some fin) :
    e.UpdInv info fin info.orientations.length :=
  updInv_foldlM e info segment st _ (le_refl _) fin h

end YawPlanningEvaluator

/-! ## The local phase of `updateSegment` -/

namespace YawPlanningEvaluator

variable {σ : Type}

theorem rescored_poses (e : YawPlanningEvaluator σ) (hk : e.following_evaluator_.KeepsPoses)
    (o : TrajectorySegment) (st : σ) (ho : o.trajectory ≠ []) :
    (e.rescored o st).1.trajectory ≠ [] := by
  unfold rescored
  have hg := (hk o st ho).1
  cases hsbv : e.p_select_by_value_
  · simpa using hg
  · have hc := (hk _ (e.following_evaluator_.computeGain o st).state hg).2.1
    simpa using (hk _ (e.following_evaluator_.computeCost
      (e.following_evaluator_.computeGain o st).segment
      (e.following_evaluator_.computeGain o st).state).state hc).2.2

/-- When the segment and every alternative have a pose, every pass of the loop
returns. -/
theorem updateLoop_defined (e : YawPlanningEvaluator σ) (info : YawPlanningInfo)
    (segment : TrajectorySegment) (st : σ) (hseg : segment.trajectory ≠ [])
    (halt : ∀ o ∈ info.orientations, o.trajectory ≠ []) :
    ∀ (m : Nat), m ≤ info.orientations.length →
      ∃ s, (List.range m).foldlM (e.updateStep segment) ⟨info, lowest, lowest, st⟩ = some s := by
  intro m
  induction m with
  | zero => intro _; exact ⟨_, rfl⟩
  | succ m ih =>
    intro hm
    obtain ⟨s0, hs0⟩ := ih (by omega)
    have hinv := updInv_foldlM e info segment st m (by omega) s0 hs0
    have ho : s0.info.orientations[m]? = some (info.orientations[m]) := by
      rw [hinv.rest m (le_refl m)]
      exact List.getElem?_eq_getElem (by omega)
    rw [List.range_succ, List.foldlM_append, hs0]
    simp only [Option.some_bind, List.foldlM_cons, List.foldlM_nil, Option.bind_eq_bind]
    by_cases hel : e.eligible (info.orientations[m])
    · rw [updateStep_score e segment s0 m _ ho hel hseg
        (halt _ (List.getElem_mem _))]
      exact ⟨_, rfl⟩
    · rw [updateStep_skip e segment s0 m _ ho hel]
      exact ⟨_, rfl⟩

/-- After the loop every entry of the record has a pose, if the cached entries
had one and the inner evaluator keeps poses. -/
theorem UpdInv.entry_poses {e : YawPlanningEvaluator σ} {info : YawPlanningInfo}
    {s : LoopState σ} (h : e.UpdInv info s info.orientations.length)
    (hk : e.following_evaluator_.KeepsPoses)
    (halt : ∀ o ∈ info.orientations, o.trajectory ≠ []) (j : Nat)
    (hj : j < info.orientations.length) :
    ∃ b, s.info.orientations[j]? = some b ∧ b.trajectory ≠ [] := by
  have ho : info.orientations[j]? = some (info.orientations[j]) :=
    List.getElem?_eq_getElem hj
  have hp := halt _ (List.getElem_mem hj)
  by_cases hel : e.eligible (info.orientations[j])
  · obtain ⟨st1, hst1⟩ := h.scored j _ hj ho hel
    exact ⟨_, hst1, rescored_poses e hk _ st1 hp⟩
  · exact ⟨_, h.skip j _ ho hel, hp⟩

/-- After the loop the active index is valid, if it was before. -/
theorem UpdInv.active_lt {e : YawPlanningEvaluator σ} {info : YawPlanningInfo}
    {s : LoopState σ} (h : e.UpdInv info s info.orientations.length)
    (ha : info.active_orientation < info.orientations.length) :
    s.info.active_orientation < info.orientations.length := by
  rcases h.act with ⟨-, h2⟩ | ⟨-, h2, -⟩
  · rw [h2]; exact ha
  · exact h2

theorem updateSegmentLocal_gated (e : YawPlanningEvaluator σ) (norm : Vector3d → ℚ)
    (planner_ : PlannerI) (segment : TrajectorySegment) (st : σ)
    (h : segment.parent = none ∨ segment.info = none ∨
      ∃ back, segment.trajectory.getLast? = some back ∧ e.p_update_range_ ≠ 0 ∧
        e.p_update_range_ ≤ norm (planner_.getCurrentPosition.sub back.position_W)) :
    e.updateSegmentLocal norm planner_ segment st = some (segment, st) := by
  unfold updateSegmentLocal
  cases hp : segment.parent with
  | none => rfl
  | some p =>
    cases hi : segment.info with
    | none => rfl
    | some info =>
      rcases h with h | h | ⟨back, hb, h0, hle⟩
      · rw [hp] at h; cases h
      · rw [hi] at h; cases h
      · simp only [hb]
        rw [if_neg]
        rintro (h1 | h1)
        · exact h0 h1
        · exact absurd h1 (not_lt.mpr hle)

/-- The local phase on an updatable segment with the range gate open: the loop
runs through, the active alternative `best` has a pose, and the segment handed
on is `applied` to it, with the inner state the loop ends in. -/
theorem updateSegmentLocal_rescoring (e : YawPlanningEvaluator σ) (norm : Vector3d → ℚ)
    (planner_ : PlannerI) (segment : TrajectorySegment) (info : YawPlanningInfo) (st : σ)
    (hu : Updatable segment info) (hk : e.following_evaluator_.KeepsPoses)
    (hgate : e.inRange norm planner_ segment) :
    ∃ fin best front back, e.updateLoop segment info st = some fin ∧
      e.UpdInv info fin info.orientations.length ∧
      fin.info.orientations[fin.info.active_orientation]? = some best ∧
      segment.trajectory.head? = some front ∧ best.trajectory.getLast? = some back ∧
      e.updateSegmentLocal norm planner_ segment st
        = some (e.applied segment fin.info best front.getYaw back.getYaw, fin.state) := by
  obtain ⟨fin, hfin⟩ := updateLoop_defined e info segment st hu.poses hu.alt_poses _ (le_refl _)
  have hinv := updInv_foldlM e info segment st _ (le_refl _) fin hfin
  obtain ⟨best, hbest, hbp⟩ := hinv.entry_poses hk hu.alt_poses _ (hinv.active_lt hu.active)
  obtain ⟨front, hfront⟩ : ∃ f, segment.trajectory.head? = some f := by
    cases h : segment.trajectory with
    | nil => exact absurd h hu.poses
    | cons a l => exact ⟨a, rfl⟩
  obtain ⟨last, hlast, hrange⟩ := hgate
  obtain ⟨p, hp⟩ := Option.ne_none_iff_exists'.mp hu.parent
  refine ⟨fin, best, front, best.trajectory.getLast hbp, hfin, hinv, hbest, hfront,
    List.getLast?_eq_getLast _ hbp, ?_⟩
  unfold updateSegmentLocal
  simp only [hp, hu.info_eq, hlast]
  rw [if_pos hrange]
  have hfin2 : e.updateLoop segment info st = some fin := hfin
  simp only [hfin2, applyUpdate, hbest, hfront, List.getLast?_eq_getLast _ hbp, applied]

end YawPlanningEvaluator

namespace YawPlanningEvaluator

variable {σ : Type}

theorem logged_keepsPoses (e : YawPlanningEvaluator σ)
    (hk : e.following_evaluator_.KeepsPoses) : e.logged.following_evaluator_.KeepsPoses :=
  fun seg st h => hk seg st.1 h

theorem updateSegment_of_local (e : YawPlanningEvaluator σ) (norm : Vector3d → ℚ)
    (planner_ : PlannerI) (segment t : TrajectorySegment) (st st1 : σ)
    (h : e.updateSegmentLocal norm planner_ segment st = some (t, st1)) :
    e.updateSegment norm planner_ segment st
      = some (e.following_evaluator_.updateSegment t st1) := by
  unfold updateSegment
  rw [h]

/-- C6: `updateSegment` does not touch the segment when it has no parent, or
carries no record, or `update_range > 0` and the distance from the planner
position to its final pose is greater than `update_range`: the local phase
hands on the input segment and the untouched inner state, the result is that of
the inner `updateSegment` on the input segment, and the only call logged on the
inner evaluator is that `updateSegment`. -/
theorem updateSegment_noop (e : YawPlanningEvaluator σ) (norm : Vector3d → ℚ)
    (planner_ : PlannerI) (segment : TrajectorySegment) (st : σ)
    (h : segment.parent = none ∨ segment.info = none ∨
      ∃ back, segment.trajectory.getLast? = some back ∧ 0 < e.p_update_range_ ∧
        e.p_update_range_ < norm (planner_.getCurrentPosition.sub back.position_W)) :
    e.updateSegmentLocal norm planner_ segment st = some (segment, st) ∧
    e.updateSegment norm planner_ segment st
      = some (e.following_evaluator_.updateSegment segment st) ∧
    ∀ log : List InnerCall, ∃ r,
      e.logged.updateSegment norm planner_ segment (st, log) = some r ∧
      r.segment = (e.following_evaluator_.updateSegment segment st).segment ∧
      r.state.2 = log ++ [InnerCall.updateSegment segment] := by
  have hg : ∀ {τ : Type} (e1 : YawPlanningEvaluator τ) (s1 : τ),
      e1.p_update_range_ = e.p_update_range_ →
      e1.updateSegmentLocal norm planner_ segment s1 = some (segment, s1) := by
    intro τ e1 s1 he
    apply updateSegmentLocal_gated
    rcases h with h | h | ⟨back, hb, h0, hlt⟩
    · exact Or.inl h
    · exact Or.inr (Or.inl h)
    · exact Or.inr (Or.inr ⟨back, hb, by rw [he]; exact ne_of_gt h0, by rw [he]; exact le_of_lt hlt⟩)
  refine ⟨hg e st rfl, updateSegment_of_local e norm planner_ segment segment st st (hg e st rfl),
    fun log => ⟨_, updateSegment_of_local e.logged norm planner_ segment segment _ _
      (hg e.logged (st, log) rfl), rfl, rfl⟩⟩

/-- Witness of C6: the example segment with its record, `update_range = 5` and
the planner at distance 9 from the final pose. -/
theorem updateSegment_noop_witness :
    ((exampleCached 1).parent = none ∨ (exampleCached 1).info = none ∨
      ∃ back, (exampleCached 1).trajectory.getLast? = some back ∧
        0 < (exampleEvaluator false 5 0).p_update_range_ ∧
        (exampleEvaluator false 5 0).p_update_range_
          < exampleNorm ((PlannerI.mk ⟨10, 0, 0⟩).getCurrentPosition.sub back.position_W)) ∧
    ((exampleEvaluator false 5 0).updateSegmentLocal exampleNorm ⟨⟨10, 0, 0⟩⟩
        (exampleCached 1) () = some (exampleCached 1, ()) ∧
      (exampleEvaluator false 5 0).updateSegment exampleNorm ⟨⟨10, 0, 0⟩⟩ (exampleCached 1) ()
        = some ((exampleEvaluator false 5 0).following_evaluator_.updateSegment
            (exampleCached 1) ()) ∧
      ∀ log : List InnerCall, ∃ r,
        (exampleEvaluator false 5 0).logged.updateSegment exampleNorm ⟨⟨10, 0, 0⟩⟩
          (exampleCached 1) ((), log) = some r ∧
        r.segment = ((exampleEvaluator false 5 0).following_evaluator_.updateSegment
          (exampleCached 1) ()).segment ∧
        r.state.2 = log ++ [InnerCall.updateSegment (exampleCached 1)]) :=
  have h : (exampleCached 1).parent = none ∨ (exampleCached 1).info = none ∨
      ∃ back, (exampleCached 1).trajectory.getLast? = some back ∧
        0 < (exampleEvaluator false 5 0).p_update_range_ ∧
        (exampleEvaluator false 5 0).p_update_range_
          < exampleNorm ((PlannerI.mk ⟨10, 0, 0⟩).getCurrentPosition.sub back.position_W) :=
    Or.inr (Or.inr ⟨⟨⟨1, 0, 0⟩, 0⟩, rfl, by
      norm_num [exampleEvaluator, SimpleYawPlanningEvaluator.create], by
      norm_num [exampleEvaluator, SimpleYawPlanningEvaluator.create, exampleNorm,
        Vector3d.sub]⟩)
  ⟨h, updateSegment_noop (exampleEvaluator false 5 0) exampleNorm ⟨⟨10, 0, 0⟩⟩
    (exampleCached 1) () h⟩

end YawPlanningEvaluator

/-! ## The calls that the loop of `updateSegment` makes -/

namespace YawPlanningEvaluator

variable {σ : Type}

theorem updateStep_state (e : YawPlanningEvaluator σ) (segment : TrajectorySegment)
    (s s1 : LoopState σ) (i : Nat) (o : TrajectorySegment)
    (ho : s.info.orientations[i]? = some o) (hel : e.eligible o)
    (hs : e.updateStep segment s i = some s1) :
    s1.state = (e.rescored o s.state).2 := by
  obtain ⟨o1, ho1, hposes⟩ := updateStep_some e segment s s1 i hs
  rw [ho] at ho1
  cases ho1
  obtain ⟨hseg, hpose⟩ := hposes hel
  rw [updateStep_score e segment s i o ho hel hseg hpose] at hs
  cases hs
  split_ifs <;> rfl

/-- The gain calls logged by the first `m` passes of the loop are the eligible
ones among the first `m` cached alternatives, in index order. -/
theorem gainCalls_updateLoop (e : YawPlanningEvaluator σ) (info : YawPlanningInfo)
    (segment : TrajectorySegment) (st : σ) (log : List InnerCall) :
    ∀ (m : Nat), m ≤ info.orientations.length → ∀ s : LoopState (σ × List InnerCall),
      (List.range m).foldlM (e.logged.updateStep segment) ⟨info, lowest, lowest, (st, log)⟩
        = some s →
      gainCalls s.state.2
        = gainCalls log ++ (info.orientations.take m).filter fun o => decide (e.eligible o) := by
  intro m
  induction m with
  | zero =>
    intro _ s hs
    simp only [List.range_zero, List.foldlM_nil] at hs
    cases hs
    simp
  | succ m ih =>
    intro hm s hs
    rw [List.range_succ, List.foldlM_append] at hs
    cases hmid : (List.range m).foldlM (e.logged.updateStep segment)
        ⟨info, lowest, lowest, (st, log)⟩ with
    | none => simp [hmid] at hs
    | some s0 =>
      rw [hmid] at hs
      simp only [Option.some_bind, List.foldlM_cons, List.foldlM_nil, Option.bind_eq_bind] at hs
      have hstep : e.logged.updateStep segment s0 m = some s := by
        cases hst : e.logged.updateStep segment s0 m with
        | none => simp [hst] at hs
        | some s2 =>
          rw [hst] at hs
          simpa using hs
      have hinv := updInv_foldlM e.logged info segment (st, log) m (by omega) s0 hmid
      have hget : info.orientations[m]? = some (info.orientations[m]) :=
        List.getElem?_eq_getElem (by omega)
      have ho : s0.info.orientations[m]? = some (info.orientations[m]) := by
        rw [hinv.rest m (le_refl m)]; exact hget
      rw [List.take_succ, hget, List.filter_append, ← List.append_assoc, ← ih (by omega) s0 hmid]
      by_cases hel : e.eligible (info.orientations[m])
      · rw [updateStep_state e.logged segment s0 s m _ ho hel hstep, gainCalls_rescored_logged]
        simp [hel]
      · rw [updateStep_skip e.logged segment s0 m _ ho hel] at hstep
        cases hstep
        simp [hel]

/-- C7: for every planner position, on a segment with a pose: with
`update_range = 0`, a parent and a record, the loop runs and the inner gain
computation is run on every cached alternative whose gain exceeds `update_gain`
(and on no other); with `update_range < 0` no alternative is scored, the
segment and its record are handed on unchanged, and the only call on the inner
evaluator is its `updateSegment`. -/
theorem updateSegment_range_sign (e : YawPlanningEvaluator σ) (norm : Vector3d → ℚ)
    (hnorm : ∀ v, 0 ≤ norm v) (planner_ : PlannerI) (segment : TrajectorySegment)
    (info : YawPlanningInfo) (st : σ) (hposes : segment.trajectory ≠ []) :
    (e.p_update_range_ = 0 → Updatable segment info → e.following_evaluator_.KeepsPoses →
      ∃ t st1 r,
      e.logged.updateSegmentLocal norm planner_ segment (st, []) = some (t, st1) ∧
      gainCalls st1.2 = info.orientations.filter (fun o => decide (e.eligible o)) ∧
      e.logged.updateSegment norm planner_ segment (st, []) = some r ∧
      gainCalls r.state.2 = info.orientations.filter (fun o => decide (e.eligible o))) ∧
    (e.p_update_range_ < 0 →
      e.updateSegmentLocal norm planner_ segment st = some (segment, st) ∧
      e.updateSegment norm planner_ segment st
        = some (e.following_evaluator_.updateSegment segment st) ∧
      ∃ r, e.logged.updateSegment norm planner_ segment (st, []) = some r ∧
        r.state.2 = [InnerCall.updateSegment segment]) := by
  obtain ⟨last, hlast⟩ : ∃ b, segment.trajectory.getLast? = some b :=
    ⟨_, List.getLast?_eq_getLast _ hposes⟩
  constructor
  · intro h0 hu hk
    obtain ⟨fin, best, front, back, hloop, -, -, -, -, hlocal⟩ :=
      updateSegmentLocal_rescoring e.logged norm planner_ segment info (st, []) hu
        (logged_keepsPoses e hk) ⟨last, hlast, Or.inl h0⟩
    have hlog := gainCalls_updateLoop e info segment st [] _ (le_refl _) fin hloop
    rw [List.take_length] at hlog
    have hlog2 : gainCalls fin.state.2
        = info.orientations.filter (fun o => decide (e.eligible o)) := by
      rw [hlog]; rfl
    refine ⟨_, _, _, hlocal, hlog2,
      updateSegment_of_local e.logged norm planner_ segment _ _ _ hlocal, ?_⟩
    show gainCalls (fin.state.2 ++ [InnerCall.updateSegment _]) = _
    rw [gainCalls_append, hlog2]
    simp [gainCalls]
  · intro hneg
    have hg : ∀ {τ : Type} (e1 : YawPlanningEvaluator τ) (s1 : τ),
        e1.p_update_range_ = e.p_update_range_ →
        e1.updateSegmentLocal norm planner_ segment s1 = some (segment, s1) := by
      intro τ e1 s1 he
      apply updateSegmentLocal_gated
      refine Or.inr (Or.inr ⟨last, hlast, by rw [he]; exact ne_of_lt hneg, ?_⟩)
      rw [he]
      exact le_trans (le_of_lt hneg) (hnorm _)
    exact ⟨hg e st rfl, updateSegment_of_local e norm planner_ segment segment st st (hg e st rfl),
      _, updateSegment_of_local e.logged norm planner_ segment segment _ _
        (hg e.logged (st, []) rfl), rfl⟩

end YawPlanningEvaluator

/-! ## The example objects are well formed -/

theorem exampleNorm_nonneg (v : Vector3d) : 0 ≤ exampleNorm v := by
  unfold exampleNorm
  positivity

theorem headingEvaluator_keepsPoses (gainOf costOf valueOf : ℚ → ℚ) :
    (headingEvaluator gainOf costOf valueOf).KeepsPoses := by
  intro seg st hne
  simp [headingEvaluator, hne]

theorem exampleEvaluator_keepsPoses (sbv : Bool) (range ug : ℚ) :
    (exampleEvaluator sbv range ug).following_evaluator_.KeepsPoses :=
  headingEvaluator_keepsPoses exampleGain (fun _ => 1) exampleValue

theorem exampleNode_updatable (yaw gain cost value : ℚ) (active : Nat) (h : active < 3) :
    Updatable (exampleNode yaw gain cost value (some (exampleInfo active)))
      (exampleInfo active) where
  parent := by simp [exampleNode, TrajectorySegment.parent]
  info_eq := rfl
  poses := by simp [exampleNode, TrajectorySegment.trajectory]
  active := h
  alt_poses := by
    intro o ho
    simp only [exampleInfo, List.mem_cons, List.mem_singleton, List.not_mem_nil, or_false] at ho
    rcases ho with rfl | rfl | rfl <;> simp [exampleNode, TrajectorySegment.trajectory]

theorem exampleCached_updatable (active : Nat) (h : active < 3) :
    Updatable (exampleCached active) (exampleInfo active) :=
  exampleNode_updatable 0 0 0 0 active h

namespace YawPlanningEvaluator

/-- Witness of C7: the example record with `update_gain = 6`, the planner far
away, once with `update_range = 0` and once with `update_range = -1`. -/
theorem updateSegment_range_sign_witness :
    ((∀ v, 0 ≤ exampleNorm v) ∧ (exampleCached 1).trajectory ≠ [] ∧
      Updatable (exampleCached 1) (exampleInfo 1) ∧
      (exampleEvaluator false 0 6).following_evaluator_.KeepsPoses) ∧
    (∃ t st1 r,
      (exampleEvaluator false 0 6).logged.updateSegmentLocal exampleNorm ⟨⟨1000, 0, 0⟩⟩
        (exampleCached 1) ((), []) = some (t, st1) ∧
      gainCalls st1.2 = (exampleInfo 1).orientations.filter
        (fun o => decide ((exampleEvaluator false 0 6).eligible o)) ∧
      (exampleEvaluator false 0 6).logged.updateSegment exampleNorm ⟨⟨1000, 0, 0⟩⟩
        (exampleCached 1) ((), []) = some r ∧
      gainCalls r.state.2 = (exampleInfo 1).orientations.filter
        (fun o => decide ((exampleEvaluator false 0 6).eligible o))) ∧
    ((exampleEvaluator false (-1) 6).updateSegmentLocal exampleNorm ⟨⟨1000, 0, 0⟩⟩
        (exampleCached 1) () = some (exampleCached 1, ()) ∧
      (exampleEvaluator false (-1) 6).updateSegment exampleNorm ⟨⟨1000, 0, 0⟩⟩
        (exampleCached 1) ()
        = some ((exampleEvaluator false (-1) 6).following_evaluator_.updateSegment
            (exampleCached 1) ()) ∧
      ∃ r, (exampleEvaluator false (-1) 6).logged.updateSegment exampleNorm ⟨⟨1000, 0, 0⟩⟩
          (exampleCached 1) ((), []) = some r ∧
        r.state.2 = [InnerCall.updateSegment (exampleCached 1)]) :=
  ⟨⟨exampleNorm_nonneg, (exampleCached_updatable 1 (by decide)).poses,
      exampleCached_updatable 1 (by decide), exampleEvaluator_keepsPoses false 0 6⟩,
    (updateSegment_range_sign (exampleEvaluator false 0 6) exampleNorm exampleNorm_nonneg
      ⟨⟨1000, 0, 0⟩⟩ (exampleCached 1) (exampleInfo 1) ()
      (exampleCached_updatable 1 (by decide)).poses).1 rfl
      (exampleCached_updatable 1 (by decide)) (exampleEvaluator_keepsPoses false 0 6),
    (updateSegment_range_sign (exampleEvaluator false (-1) 6) exampleNorm exampleNorm_nonneg
      ⟨⟨1000, 0, 0⟩⟩ (exampleCached 1) (exampleInfo 1) ()
      (exampleCached_updatable 1 (by decide)).poses).2
      (by norm_num [exampleEvaluator, SimpleYawPlanningEvaluator.create])⟩

end YawPlanningEvaluator

/-! ## The cache invariant -/

namespace YawPlanningEvaluator

variable {σ : Type}

theorem applyUpdate_some (e : YawPlanningEvaluator σ) (segment : TrajectorySegment)
    (info : YawPlanningInfo) (t : TrajectorySegment)
    (h : e.applyUpdate segment info = some t) :
    ∃ best front back, info.orientations[info.active_orientation]? = some best ∧
      segment.trajectory.head? = some front ∧ best.trajectory.getLast? = some back ∧
      t = e.applied segment info best front.getYaw back.getYaw := by
  unfold applyUpdate at h
  cases hb : info.orientations[info.active_orientation]? with
  | none => simp [hb] at h
  | some best =>
    cases hf : segment.trajectory.head? with
    | none => simp [hb, hf] at h
    | some front =>
      cases hl : best.trajectory.getLast? with
      | none => simp [hb, hf, hl] at h
      | some back =>
        simp only [hb, hf, hl, Option.some.injEq] at h
        exact ⟨best, front, back, rfl, rfl, hl, h.symm⟩

/-- What a returning run of the local phase did: it left the segment alone, or
the range gate was open, the loop ran on the record of the segment and the
active alternative was applied. -/
theorem updateSegmentLocal_cases (e : YawPlanningEvaluator σ) (norm : Vector3d → ℚ)
    (planner_ : PlannerI) (segment t : TrajectorySegment) (st st1 : σ)
    (h : e.updateSegmentLocal norm planner_ segment st = some (t, st1)) :
    (t = segment ∧ st1 = st) ∨
    ∃ info fin best front back, segment.parent ≠ none ∧ segment.info = some info ∧
      e.inRange norm planner_ segment ∧ e.updateLoop segment info st = some fin ∧
      fin.info.orientations[fin.info.active_orientation]? = some best ∧
      segment.trajectory.head? = some front ∧ best.trajectory.getLast? = some back ∧
      t = e.applied segment fin.info best front.getYaw back.getYaw ∧ st1 = fin.state := by
  unfold updateSegmentLocal at h
  cases hp : segment.parent with
  | none =>
    simp only [hp, Option.some.injEq, Prod.mk.injEq] at h
    exact Or.inl ⟨h.1.symm, h.2.symm⟩
  | some p =>
    cases hi : segment.info with
    | none =>
      simp only [hp, hi, Option.some.injEq, Prod.mk.injEq] at h
      exact Or.inl ⟨h.1.symm, h.2.symm⟩
    | some info =>
      cases hl : segment.trajectory.getLast? with
      | none => simp [hp, hi, hl] at h
      | some last =>
        simp only [hp, hi, hl] at h
        split_ifs at h with hgate
        · cases hloop : e.updateLoop segment info st with
          | none => simp [hloop] at h
          | some fin =>
            cases happ : e.applyUpdate segment fin.info with
            | none => simp [hloop, happ] at h
            | some t1 =>
              simp only [hloop, happ, Option.some.injEq, Prod.mk.injEq] at h
              obtain ⟨best, front, back, hb, hf, hbk, ht⟩ := applyUpdate_some e segment _ _ happ
              refine Or.inr ⟨info, fin, best, front, back, by simp, rfl,
                ⟨last, hl, hgate⟩, hloop, hb, hf, hbk, ?_, h.2.symm⟩
              rw [← h.1]; exact ht
        · simp only [Option.some.injEq, Prod.mk.injEq] at h
          exact Or.inl ⟨h.1.symm, h.2.symm⟩

theorem info_applied (e : YawPlanningEvaluator σ)
    (hpol : ∀ s a b, (e.setTrajectoryYaw s a b).info = s.info)
    (segment : TrajectorySegment) (info : YawPlanningInfo) (best : TrajectorySegment)
    (a b : ℚ) : (e.applied segment info best a b).info = some info := by
  unfold applied
  cases e.p_select_by_value_ <;> simp [hpol]

/-- C10: the record that `computeGain` attaches has at least one alternative
and a valid active index, whatever `n_directions` is; `updateSegment` keeps the
number of alternatives and the validity of the active index, in the segment it
hands to the inner `updateSegment` and (when the inner `updateSegment` does not
touch the record) in the segment it leaves; and it returns on every updatable
segment. -/
theorem cache_invariant (e : YawPlanningEvaluator σ)
    (hpol : ∀ s a b, (e.setTrajectoryYaw s a b).info = s.info)
    (norm : Vector3d → ℚ) (planner_ : PlannerI) (segment : TrajectorySegment) (st : σ) :
    (segment.trajectory ≠ [] → ∃ r info, e.computeGain segment st = some r ∧
      r.segment.info = some info ∧ info.orientations ≠ [] ∧
      info.active_orientation < info.orientations.length) ∧
    (∀ info : YawPlanningInfo, segment.info = some info → info.orientations ≠ [] →
      info.active_orientation < info.orientations.length →
      (∀ t st1, e.updateSegmentLocal norm planner_ segment st = some (t, st1) →
        ∃ info1, t.info = some info1 ∧
          info1.orientations.length = info.orientations.length ∧
          info1.orientations ≠ [] ∧
          info1.active_orientation < info1.orientations.length) ∧
      (∀ r, e.updateSegment norm planner_ segment st = some r →
        (∀ s s1, (e.following_evaluator_.updateSegment s s1).segment.info = s.info) →
        ∃ info1, r.segment.info = some info1 ∧
          info1.orientations.length = info.orientations.length ∧
          info1.orientations ≠ [] ∧
          info1.active_orientation < info1.orientations.length) ∧
      (Updatable segment info → e.following_evaluator_.KeepsPoses →
        ∃ r, e.updateSegment norm planner_ segment st = some r)) := by
  constructor
  · intro hne
    obtain ⟨front, back, best, t, -, -, -, hrun, hinfo, -⟩ := computeGain_some e segment st hne
    have hinv := gainInv_loop e segment front.getYaw back.getYaw st
    refine ⟨_, _, hrun, hinfo, ?_, ?_⟩
    · intro hnil
      have := hinv.len
      rw [hnil] at this
      simp at this
      omega
    · rw [hinv.len]; exact hinv.act
  · intro info hinfo hne hact
    have hlocal : ∀ t st1, e.updateSegmentLocal norm planner_ segment st = some (t, st1) →
        ∃ info1, t.info = some info1 ∧
          info1.orientations.length = info.orientations.length ∧
          info1.orientations ≠ [] ∧
          info1.active_orientation < info1.orientations.length := by
      intro t st1 h
      rcases updateSegmentLocal_cases e norm planner_ segment t st st1 h with
        ⟨rfl, -⟩ | ⟨info0, fin, best, front, back, -, hi0, -, hloop, -, -, -, rfl, -⟩
      · exact ⟨info, hinfo, rfl, hne, hact⟩
      · rw [hinfo] at hi0
        cases hi0
        have hinv := updInv_loop e info segment st fin hloop
        refine ⟨fin.info, info_applied e hpol _ _ _ _ _, hinv.len, ?_, ?_⟩
        · intro hnil
          have hl := hinv.len
          rw [hnil] at hl
          exact hne (List.length_eq_zero.mp hl.symm)
        · rw [hinv.len]; exact hinv.active_lt hact
    refine ⟨hlocal, ?_, ?_⟩
    · intro r hr hkeep
      unfold updateSegment at hr
      cases hloc : e.updateSegmentLocal norm planner_ segment st with
      | none => simp [hloc] at hr
      | some p =>
        obtain ⟨t, st1⟩ := p
        simp only [hloc, Option.some.injEq] at hr
        obtain ⟨info1, h1, h2⟩ := hlocal t st1 hloc
        exact ⟨info1, by rw [← hr, hkeep]; exact h1, h2⟩
    · intro hu hk
      by_cases hgate : e.inRange norm planner_ segment
      · obtain ⟨fin, best, front, back, -, -, -, -, -, hloc⟩ :=
          updateSegmentLocal_rescoring e norm planner_ segment info st hu hk hgate
        exact ⟨_, updateSegment_of_local e norm planner_ segment _ _ _ hloc⟩
      · refine ⟨_, updateSegment_of_local e norm planner_ segment segment st st
          (updateSegmentLocal_gated e norm planner_ segment st (Or.inr (Or.inr ?_)))⟩
        refine ⟨_, List.getLast?_eq_getLast _ hu.poses, ?_, ?_⟩
        · intro h0
          exact hgate ⟨_, List.getLast?_eq_getLast _ hu.poses, Or.inl h0⟩
        · by_contra hlt
          exact hgate ⟨_, List.getLast?_eq_getLast _ hu.poses, Or.inr (not_le.mp hlt)⟩

end YawPlanningEvaluator

/-! ## Eligibility and the active index after an update -/

theorem simple_setTrajectoryYaw_info (s : TrajectorySegment) (a b : ℚ) :
    (SimpleYawPlanningEvaluator.setTrajectoryYaw s a b).info = s.info := by
  simp [SimpleYawPlanningEvaluator.setTrajectoryYaw]

namespace YawPlanningEvaluator

variable {σ : Type}

/-- Witness of C10: the example evaluator on the example segment and on the
example segment with its record. -/
theorem cache_invariant_witness :
    (∀ s a b, ((exampleEvaluator false 0 6).setTrajectoryYaw s a b).info = s.info) ∧
    (∃ r info, (exampleEvaluator false 0 6).computeGain exampleSegment () = some r ∧
      r.segment.info = some info ∧ info.orientations ≠ [] ∧
      info.active_orientation < info.orientations.length) ∧
    (∀ t st1, (exampleEvaluator false 0 6).updateSegmentLocal exampleNorm ⟨⟨1000, 0, 0⟩⟩
        (exampleCached 1) () = some (t, st1) →
      ∃ info1, t.info = some info1 ∧
        info1.orientations.length = (exampleInfo 1).orientations.length ∧
        info1.orientations ≠ [] ∧
        info1.active_orientation < info1.orientations.length) ∧
    (∃ r, (exampleEvaluator false 0 6).updateSegment exampleNorm ⟨⟨1000, 0, 0⟩⟩
      (exampleCached 1) () = some r) :=
  ⟨simple_setTrajectoryYaw_info,
    (cache_invariant (exampleEvaluator false 0 6) simple_setTrajectoryYaw_info exampleNorm
      ⟨⟨1000, 0, 0⟩⟩ exampleSegment ()).1 exampleSegment_trajectory_ne_nil,
    ((cache_invariant (exampleEvaluator false 0 6) simple_setTrajectoryYaw_info exampleNorm
      ⟨⟨1000, 0, 0⟩⟩ (exampleCached 1) ()).2 (exampleInfo 1) rfl (by simp [exampleInfo])
      (by decide)).1,
    ((cache_invariant (exampleEvaluator false 0 6) simple_setTrajectoryYaw_info exampleNorm
      ⟨⟨1000, 0, 0⟩⟩ (exampleCached 1) ()).2 (exampleInfo 1) rfl (by simp [exampleInfo])
      (by decide)).2.2 (exampleCached_updatable 1 (by decide))
      (exampleEvaluator_keepsPoses false 0 6)⟩

end YawPlanningEvaluator

/-! ## Example runs of `updateSegment` -/

theorem example_update_by_value :
    (exampleEvaluator true 0 6).updateSegment exampleNorm ⟨⟨1000, 0, 0⟩⟩ exampleByValue ()
      = some ⟨true, exampleNode (44 / 21) 9 1 4 (some (exampleInfo 1)), ()⟩ := by
  norm_num [exampleEvaluator, SimpleYawPlanningEvaluator.create,
    YawPlanningEvaluator.updateSegment, YawPlanningEvaluator.updateSegmentLocal,
    YawPlanningEvaluator.updateLoop, YawPlanningEvaluator.updateStep,
    YawPlanningEvaluator.applyUpdate, exampleByValue, exampleInfo, exampleNode,
    TrajectorySegment.trajectory, TrajectorySegment.parent, TrajectorySegment.info,
    List.range, List.range.loop, headingEvaluator, SimpleYawPlanningEvaluator.setTrajectoryYaw,
    TrajectorySegment.setTrajectory, finalYaw, EigenTrajectoryPoint.setFromYaw,
    EigenTrajectoryPoint.getYaw, TrajectorySegment.setGain, exampleGain, exampleValue,
    TrajectorySegment.gain, TrajectorySegment.value, TrajectorySegment.cost,
    TrajectorySegment.setCost, TrajectorySegment.setValue, TrajectorySegment.setInfo,
    YawPlanningEvaluator.lowest]

namespace YawPlanningEvaluator

end YawPlanningEvaluator

/-! ## Idempotence of `updateSegment` -/

namespace YawPlanningEvaluator

variable {σ : Type}

theorem updateSegmentLocal_closed (e : YawPlanningEvaluator σ) (norm : Vector3d → ℚ)
    (planner_ : PlannerI) (segment : TrajectorySegment) (st : σ)
    (hposes : segment.trajectory ≠ []) (hgate : ¬ e.inRange norm planner_ segment) :
    e.updateSegmentLocal norm planner_ segment st = some (segment, st) := by
  apply updateSegmentLocal_gated
  refine Or.inr (Or.inr ⟨_, List.getLast?_eq_getLast _ hposes, ?_, ?_⟩)
  · intro h0
    exact hgate ⟨_, List.getLast?_eq_getLast _ hposes, Or.inl h0⟩
  · by_contra hlt
    exact hgate ⟨_, List.getLast?_eq_getLast _ hposes, Or.inr (not_le.mp hlt)⟩

/-- With the uniform policy, the segment left by the update block, field by
field. -/
theorem applied_simple (e : YawPlanningEvaluator σ)
    (hpol : e.setTrajectoryYaw = SimpleYawPlanningEvaluator.setTrajectoryYaw)
    (segment : TrajectorySegment) (info : YawPlanningInfo) (best : TrajectorySegment)
    (a b : ℚ) :
    e.applied segment info best a b =
      TrajectorySegment.mk (segment.trajectory.map fun p => p.setFromYaw b) best.gain
        (if e.p_select_by_value_ then best.cost else segment.cost)
        (if e.p_select_by_value_ then best.value else segment.value)
        segment.parent (some info) := by
  unfold applied
  rw [hpol]
  cases segment
  cases e.p_select_by_value_ <;> rfl

end YawPlanningEvaluator

namespace YawPlanningEvaluator

variable {σ : Type}

end YawPlanningEvaluator

/-! ## Example runs of two updates in succession -/

namespace YawPlanningEvaluator

end YawPlanningEvaluator

/-! ## Reported success and failure -/

namespace YawPlanningEvaluator

variable {σ : Type}

/-- C12: on a segment with a pose `computeGain` returns and reports success,
for every configuration, sampling policy and inner evaluator, whatever the
inner gain, cost and value computations report. -/
theorem computeGain_returns_true (e : YawPlanningEvaluator σ) (traj_in : TrajectorySegment)
    (st : σ) (hne : traj_in.trajectory ≠ []) :
    ∃ r, e.computeGain traj_in st = some r ∧ r.ret = true := by
  obtain ⟨front, back, best, t, -, -, -, hrun, -⟩ := computeGain_some e traj_in st hne
  exact ⟨_, hrun, rfl⟩

/-- Witness of C12: the inner evaluator reports failure from every call, on
every alternative. -/
theorem computeGain_returns_true_witness :
    (exampleSegment.trajectory ≠ [] ∧
      ∀ seg st, ((failingEvaluator true).following_evaluator_.computeGain seg st).ret = false ∧
        ((failingEvaluator true).following_evaluator_.computeCost seg st).ret = false ∧
        ((failingEvaluator true).following_evaluator_.computeValue seg st).ret = false) ∧
    ∃ r, (failingEvaluator true).computeGain exampleSegment () = some r ∧ r.ret = true :=
  ⟨⟨exampleSegment_trajectory_ne_nil, fun _ _ => ⟨rfl, rfl, rfl⟩⟩,
    computeGain_returns_true (failingEvaluator true) exampleSegment ()
      exampleSegment_trajectory_ne_nil⟩

/-- C11, amended: `computeCost`, `computeValue` and `updateSegment` report
exactly what the inner call of the same name reports (for `updateSegment`: the
inner call on the segment that the local phase hands on), so a failure of the
inner call is the failure of the decorator; `computeGain` reports success
whatever the inner evaluator reports. -/
theorem delegated_failure (e : YawPlanningEvaluator σ) (norm : Vector3d → ℚ)
    (planner_ : PlannerI) (segment : TrajectorySegment) (st : σ) :
    (e.computeCost segment st).ret = (e.following_evaluator_.computeCost segment st).ret ∧
    (e.computeValue segment st).ret = (e.following_evaluator_.computeValue segment st).ret ∧
    (∀ t st1, e.updateSegmentLocal norm planner_ segment st = some (t, st1) →
      ∃ r, e.updateSegment norm planner_ segment st = some r ∧
        r.ret = (e.following_evaluator_.updateSegment t st1).ret) ∧
    (segment.trajectory ≠ [] →
      ∃ r, e.computeGain segment st = some r ∧ r.ret = true) := by
  refine ⟨rfl, rfl, ?_, ?_⟩
  · intro t st1 h
    exact ⟨_, updateSegment_of_local e norm planner_ segment t st st1 h, rfl⟩
  · intro hne
    obtain ⟨front, back, best, t, -, -, -, hrun, -⟩ := computeGain_some e segment st hne
    exact ⟨_, hrun, rfl⟩

/-- Witness of C11 as amended: the failing inner evaluator on the example
segment with its record; the three delegating calls report failure. -/
theorem delegated_failure_witness :
    ((failingEvaluator false).computeCost (exampleCached 1) ()).ret = false ∧
    ((failingEvaluator false).computeValue (exampleCached 1) ()).ret = false ∧
    (∀ t st1, (failingEvaluator false).updateSegmentLocal exampleNorm ⟨⟨1000, 0, 0⟩⟩
        (exampleCached 1) () = some (t, st1) →
      ∃ r, (failingEvaluator false).updateSegment exampleNorm ⟨⟨1000, 0, 0⟩⟩
        (exampleCached 1) () = some r ∧ r.ret = false) ∧
    ((exampleCached 1).trajectory ≠ [] →
      ∃ r, (failingEvaluator false).computeGain (exampleCached 1) () = some r ∧
        r.ret = true) :=
  ⟨(delegated_failure (failingEvaluator false) exampleNorm ⟨⟨1000, 0, 0⟩⟩
      (exampleCached 1) ()).1,
    (delegated_failure (failingEvaluator false) exampleNorm ⟨⟨1000, 0, 0⟩⟩
      (exampleCached 1) ()).2.1,
    (delegated_failure (failingEvaluator false) exampleNorm ⟨⟨1000, 0, 0⟩⟩
      (exampleCached 1) ()).2.2.1,
    (delegated_failure (failingEvaluator false) exampleNorm ⟨⟨1000, 0, 0⟩⟩
      (exampleCached 1) ()).2.2.2⟩

/-- C11 as stated fails for `computeGain`: the inner gain computation reports
failure on every alternative, the winning one included, and `computeGain`
reports success. -/
theorem delegated_failure_counterexample :
    (∀ seg st, ((failingEvaluator false).following_evaluator_.computeGain seg st).ret
      = false) ∧
    ∃ r, (failingEvaluator false).computeGain exampleSegment () = some r ∧ r.ret = true := by
  refine ⟨fun _ _ => rfl, ?_⟩
  obtain ⟨front, back, best, t, -, -, -, hrun, -⟩ :=
    computeGain_some (failingEvaluator false) exampleSegment ()
      exampleSegment_trajectory_ne_nil
  exact ⟨_, hrun, rfl⟩

/-- C13: `checkParamsValid` returns false with the message
`n_directions expected > 0` when `n_directions ≤ 0`; for `n_directions ≥ 1` it
returns the flag and the message of the validation of the base class, called on
the message it was given. -/
theorem checkParamsValid_spec (e : YawPlanningEvaluator σ)
    (baseCheck : String → Bool × String) (error_message : String) :
    (e.p_n_directions_ ≤ 0 →
      e.checkParamsValid baseCheck error_message = (false, "n_directions expected > 0")) ∧
    (1 ≤ e.p_n_directions_ →
      e.checkParamsValid baseCheck error_message = baseCheck error_message) := by
  unfold checkParamsValid
  constructor
  · intro h
    rw [if_pos (by omega)]
  · intro h
    rw [if_neg (by omega)]

/-- Witness of C13: `n_directions = 0` and `n_directions = 3` over a base
validation that accepts and leaves the message alone. -/
theorem checkParamsValid_spec_witness :
    ((SimpleYawPlanningEvaluator.create (22 / 7) id 0 false 0 0
        (headingEvaluator exampleGain (fun _ => 1) exampleValue)).p_n_directions_ ≤ 0 ∧
      1 ≤ (exampleEvaluator false 0 0).p_n_directions_) ∧
    (SimpleYawPlanningEvaluator.create (22 / 7) id 0 false 0 0
        (headingEvaluator exampleGain (fun _ => 1) exampleValue)).checkParamsValid
        (fun m => (true, m)) "" = (false, "n_directions expected > 0") ∧
    (exampleEvaluator false 0 0).checkParamsValid (fun m => (true, m)) "" = (true, "") :=
  ⟨⟨by decide, by decide⟩,
    (checkParamsValid_spec (SimpleYawPlanningEvaluator.create (22 / 7) id 0 false 0 0
      (headingEvaluator exampleGain (fun _ => 1) exampleValue)) (fun m => (true, m)) "").1
      (by decide),
    (checkParamsValid_spec (exampleEvaluator false 0 0) (fun m => (true, m)) "").2
      (by decide)⟩

/-- C15: `computeCost`, `computeValue` and `selectNextBest` are the inner
operations of the same name: same returned value, same segment left, same inner
state; on the instrumented inner evaluator each of them logs exactly one call,
the inner operation of the same name on the segment it was given. -/
theorem pure_delegation (e : YawPlanningEvaluator σ) (segment : TrajectorySegment) (st : σ)
    (log : List InnerCall) :
    e.computeCost segment st = e.following_evaluator_.computeCost segment st ∧
    e.computeValue segment st = e.following_evaluator_.computeValue segment st ∧
    e.selectNextBest segment st = e.following_evaluator_.selectNextBest segment st ∧
    (e.logged.computeCost segment (st, log)).state.2
      = log ++ [InnerCall.computeCost segment] ∧
    (e.logged.computeValue segment (st, log)).state.2
      = log ++ [InnerCall.computeValue segment] ∧
    (e.logged.selectNextBest segment (st, log)).state.2
      = log ++ [InnerCall.selectNextBest segment] ∧
    (e.logged.computeCost segment (st, log)).segment
      = (e.following_evaluator_.computeCost segment st).segment ∧
    (e.logged.computeValue segment (st, log)).segment
      = (e.following_evaluator_.computeValue segment st).segment ∧
    (e.logged.selectNextBest segment (st, log)).segment
      = (e.following_evaluator_.selectNextBest segment st).segment :=
  ⟨rfl, rfl, rfl, rfl, rfl, rfl, rfl, rfl, rfl⟩

end YawPlanningEvaluator

/-! ## What the update block writes -/

namespace YawPlanningEvaluator

variable {σ : Type}

/-- When no cached alternative is eligible, the loop of `updateSegment` returns
the state it started in. -/
theorem updateLoop_none_eligible (e : YawPlanningEvaluator σ) (segment : TrajectorySegment)
    (info : YawPlanningInfo) (st : σ) (hnone : ∀ o ∈ info.orientations, ¬ e.eligible o) :
    e.updateLoop segment info st = some ⟨info, lowest, lowest, st⟩ := by
  have h : ∀ m : Nat, m ≤ info.orientations.length →
      (List.range m).foldlM (e.updateStep segment) ⟨info, lowest, lowest, st⟩
        = some ⟨info, lowest, lowest, st⟩ := by
    intro m
    induction m with
    | zero => intro _; rfl
    | succ m ih =>
      intro hm
      rw [List.range_succ, List.foldlM_append, ih (by omega)]
      simp only [Option.some_bind, List.foldlM_cons, List.foldlM_nil, Option.bind_eq_bind]
      have ho : info.orientations[m]? = some (info.orientations[m]) :=
        List.getElem?_eq_getElem (by omega)
      rw [updateStep_skip e segment ⟨info, lowest, lowest, st⟩ m _ ho
        (hnone _ (List.getElem_mem _))]
      rfl
  exact h _ (le_refl _)

/-- The local phase with the range gate open and no eligible alternative: the
previously active alternative is applied and the inner state is untouched. -/
theorem updateSegmentLocal_none_eligible (e : YawPlanningEvaluator σ) (norm : Vector3d → ℚ)
    (planner_ : PlannerI) (segment : TrajectorySegment) (info : YawPlanningInfo) (st : σ)
    (hu : Updatable segment info) (hgate : e.inRange norm planner_ segment)
    (hnone : ∀ o ∈ info.orientations, ¬ e.eligible o) :
    ∃ best front back, info.orientations[info.active_orientation]? = some best ∧
      segment.trajectory.head? = some front ∧ best.trajectory.getLast? = some back ∧
      e.updateSegmentLocal norm planner_ segment st
        = some (e.applied segment info best front.getYaw back.getYaw, st) := by
  have hbest := List.getElem?_eq_getElem hu.active
  have hbp := hu.alt_poses _ (List.getElem_mem hu.active)
  obtain ⟨front, hfront⟩ : ∃ f, segment.trajectory.head? = some f := by
    cases h : segment.trajectory with
    | nil => exact absurd h hu.poses
    | cons a l => exact ⟨a, rfl⟩
  obtain ⟨last, hlast, hrange⟩ := hgate
  obtain ⟨p, hp⟩ := Option.ne_none_iff_exists'.mp hu.parent
  refine ⟨_, front, _, hbest, hfront, List.getLast?_eq_getLast _ hbp, ?_⟩
  unfold updateSegmentLocal
  simp only [hp, hu.info_eq, hlast]
  rw [if_pos hrange]
  simp only [updateLoop_none_eligible e segment info st hnone, applyUpdate, hbest, hfront,
    List.getLast?_eq_getLast _ hbp, applied]

end YawPlanningEvaluator

namespace YawPlanningEvaluator

variable {σ : Type}

/-- C19: when the gating of `updateSegment` passes and no cached alternative
has a gain strictly greater than `update_gain`, no call is made on the inner
evaluator before the delegation, the record and its active index are as they
were, the gain of the segment (and, selecting by value, its cost and value)
becomes the cached one of the active alternative, and every pose keeps its
position and gets the heading of the final pose of that alternative. -/
theorem updateSegment_none_eligible (e : YawPlanningEvaluator σ)
    (hpol : e.setTrajectoryYaw = SimpleYawPlanningEvaluator.setTrajectoryYaw)
    (norm : Vector3d → ℚ) (planner_ : PlannerI) (segment : TrajectorySegment)
    (info : YawPlanningInfo) (st : σ) (hu : Updatable segment info)
    (hgate : e.inRange norm planner_ segment)
    (hnone : ∀ o ∈ info.orientations, ¬ e.eligible o) :
    ∃ t best back, e.updateSegmentLocal norm planner_ segment st = some (t, st) ∧
      e.updateSegment norm planner_ segment st
        = some (e.following_evaluator_.updateSegment t st) ∧
      (∀ log : List InnerCall,
        e.logged.updateSegmentLocal norm planner_ segment (st, log) = some (t, (st, log))) ∧
      info.orientations[info.active_orientation]? = some best ∧
      best.trajectory.getLast? = some back ∧
      t.info = some info ∧ t.parent = segment.parent ∧ t.gain = best.gain ∧
      (e.p_select_by_value_ = true → t.cost = best.cost ∧ t.value = best.value) ∧
      (e.p_select_by_value_ = false → t.cost = segment.cost ∧ t.value = segment.value) ∧
      t.trajectory.map EigenTrajectoryPoint.position_W
        = segment.trajectory.map EigenTrajectoryPoint.position_W ∧
      ∀ p ∈ t.trajectory, p.getYaw = back.getYaw := by
  obtain ⟨best, front, back, hbest, hfront, hback, hlocal⟩ :=
    updateSegmentLocal_none_eligible e norm planner_ segment info st hu hgate hnone
  have happ := applied_simple e hpol segment info best front.getYaw back.getYaw
  refine ⟨_, best, back, hlocal, updateSegment_of_local e norm planner_ segment _ _ _ hlocal,
    ?_, hbest, hback, ?_⟩
  · intro log
    obtain ⟨best1, front1, back1, hbest1, hfront1, hback1, hlocal1⟩ :=
      updateSegmentLocal_none_eligible e.logged norm planner_ segment info (st, log) hu
        hgate hnone
    rw [hbest] at hbest1
    cases hbest1
    rw [hfront] at hfront1
    cases hfront1
    rw [hback] at hback1
    cases hback1
    exact hlocal1
  · rw [happ]
    refine ⟨rfl, rfl, rfl, ?_, ?_, ?_, ?_⟩
    · intro h; simp [h]
    · intro h; simp [h]
    · simp only [TrajectorySegment.trajectory_mk, List.map_map]
      rfl
    · intro p hp
      simp only [TrajectorySegment.trajectory_mk, List.mem_map] at hp
      obtain ⟨q, -, rfl⟩ := hp
      rfl

/-- C16: when `updateSegment` scores again with the uniform policy, the segment
it hands on has the poses of the live segment with their positions, every pose
with the heading of the final pose of the active alternative; its gain is the
gain of the active alternative and its cost and value are those of the active
alternative when selecting by value and unchanged otherwise; its trajectory is
the live trajectory with the headings rewritten, not the stored trajectory of
the alternative. -/
theorem updateSegment_geometry_frozen (e : YawPlanningEvaluator σ)
    (hpol : e.setTrajectoryYaw = SimpleYawPlanningEvaluator.setTrajectoryYaw)
    (norm : Vector3d → ℚ) (planner_ : PlannerI) (segment : TrajectorySegment)
    (info : YawPlanningInfo) (st : σ) (hu : Updatable segment info)
    (hk : e.following_evaluator_.KeepsPoses) (hgate : e.inRange norm planner_ segment) :
    ∃ t st1 info1 best back, e.updateSegmentLocal norm planner_ segment st = some (t, st1) ∧
      e.updateSegment norm planner_ segment st
        = some (e.following_evaluator_.updateSegment t st1) ∧
      t.info = some info1 ∧ info1.orientations[info1.active_orientation]? = some best ∧
      best.trajectory.getLast? = some back ∧
      t.trajectory = segment.trajectory.map (fun p => p.setFromYaw back.getYaw) ∧
      t.trajectory.length = segment.trajectory.length ∧
      t.trajectory.map EigenTrajectoryPoint.position_W
        = segment.trajectory.map EigenTrajectoryPoint.position_W ∧
      (∀ p ∈ t.trajectory, p.getYaw = back.getYaw) ∧
      t.parent = segment.parent ∧ t.gain = best.gain ∧
      (e.p_select_by_value_ = true → t.cost = best.cost ∧ t.value = best.value) ∧
      (e.p_select_by_value_ = false → t.cost = segment.cost ∧ t.value = segment.value) := by
  obtain ⟨fin, best, front, back, -, -, hbest, -, hback, hlocal⟩ :=
    updateSegmentLocal_rescoring e norm planner_ segment info st hu hk hgate
  have happ := applied_simple e hpol segment fin.info best front.getYaw back.getYaw
  refine ⟨_, _, fin.info, best, back, hlocal,
    updateSegment_of_local e norm planner_ segment _ _ _ hlocal, ?_⟩
  rw [happ]
  refine ⟨rfl, hbest, hback, rfl, ?_, ?_, ?_, rfl, rfl, ?_, ?_⟩
  · simp
  · simp only [TrajectorySegment.trajectory_mk, List.map_map]
    rfl
  · intro p hp
    simp only [TrajectorySegment.trajectory_mk, List.mem_map] at hp
    obtain ⟨q, -, rfl⟩ := hp
    rfl
  · intro h; simp [h]
  · intro h; simp [h]

/-- C20: on an updatable segment with `update_range > 0` the range gate is open
exactly when the distance from the planner position to the final pose is
strictly less than `update_range`; then the loop runs and the inner gain
computation is run on the eligible alternatives; at a distance equal to or
greater than `update_range` the segment and the inner state are handed on
unchanged and the only call on the inner evaluator is its `updateSegment`. -/
theorem updateSegment_range_gate_strict (e : YawPlanningEvaluator σ) (norm : Vector3d → ℚ)
    (planner_ : PlannerI) (segment : TrajectorySegment) (info : YawPlanningInfo) (st : σ)
    (hu : Updatable segment info) (hk : e.following_evaluator_.KeepsPoses)
    (hpos : 0 < e.p_update_range_) :
    ∃ back, segment.trajectory.getLast? = some back ∧
      (e.inRange norm planner_ segment ↔
        norm (planner_.getCurrentPosition.sub back.position_W) < e.p_update_range_) ∧
      (norm (planner_.getCurrentPosition.sub back.position_W) < e.p_update_range_ →
        ∃ t st1, e.logged.updateSegmentLocal norm planner_ segment (st, []) = some (t, st1) ∧
          gainCalls st1.2 = info.orientations.filter (fun o => decide (e.eligible o))) ∧
      (e.p_update_range_ ≤ norm (planner_.getCurrentPosition.sub back.position_W) →
        e.updateSegmentLocal norm planner_ segment st = some (segment, st) ∧
        e.updateSegment norm planner_ segment st
          = some (e.following_evaluator_.updateSegment segment st) ∧
        ∃ r, e.logged.updateSegment norm planner_ segment (st, []) = some r ∧
          r.state.2 = [InnerCall.updateSegment segment]) ∧
      (norm (planner_.getCurrentPosition.sub back.position_W) = e.p_update_range_ →
        e.updateSegmentLocal norm planner_ segment st = some (segment, st)) := by
  have hlast : segment.trajectory.getLast? = some (segment.trajectory.getLast hu.poses) :=
    List.getLast?_eq_getLast _ hu.poses
  have hclosed : ∀ {τ : Type} (e1 : YawPlanningEvaluator τ) (s1 : τ),
      e1.p_update_range_ = e.p_update_range_ →
      e.p_update_range_ ≤ norm (planner_.getCurrentPosition.sub
        (segment.trajectory.getLast hu.poses).position_W) →
      e1.updateSegmentLocal norm planner_ segment s1 = some (segment, s1) := by
    intro τ e1 s1 he hle
    apply updateSegmentLocal_gated
    exact Or.inr (Or.inr ⟨_, hlast, by rw [he]; exact ne_of_gt hpos, by rw [he]; exact hle⟩)
  refine ⟨_, hlast, ?_, ?_, ?_, ?_⟩
  · constructor
    · rintro ⟨b, hb, h0 | hlt⟩
      · exact absurd h0 (ne_of_gt hpos)
      · rw [hlast] at hb
        cases hb
        exact hlt
    · intro hlt
      exact ⟨_, hlast, Or.inr hlt⟩
  · intro hlt
    obtain ⟨fin, best, front, back, hloop, -, -, -, -, hlocal⟩ :=
      updateSegmentLocal_rescoring e.logged norm planner_ segment info (st, []) hu
        (logged_keepsPoses e hk) ⟨_, hlast, Or.inr hlt⟩
    have hlog := gainCalls_updateLoop e info segment st [] _ (le_refl _) fin hloop
    rw [List.take_length] at hlog
    exact ⟨_, _, hlocal, by rw [hlog]; rfl⟩
  · intro hle
    exact ⟨hclosed e st rfl hle,
      updateSegment_of_local e norm planner_ segment segment st st (hclosed e st rfl hle),
      _, updateSegment_of_local e.logged norm planner_ segment segment _ _
        (hclosed e.logged (st, []) rfl hle), rfl⟩
  · intro heq
    exact hclosed e st rfl (le_of_eq heq.symm)

end YawPlanningEvaluator

/-! ## Example runs of the update block -/

theorem example_none_eligible :
    ∀ o ∈ (exampleInfo 2).orientations, ¬ (exampleEvaluator true 0 10).eligible o := by
  intro o ho
  simp only [exampleInfo, List.mem_cons, List.mem_singleton, List.not_mem_nil, or_false] at ho
  rcases ho with rfl | rfl | rfl <;>
    norm_num [YawPlanningEvaluator.eligible, exampleEvaluator,
      SimpleYawPlanningEvaluator.create, exampleNode]

theorem example_inRange_zero (sbv : Bool) (ug : ℚ) (planner_ : PlannerI) :
    (exampleEvaluator sbv 0 ug).inRange exampleNorm planner_ exampleByValue :=
  ⟨⟨⟨1, 0, 0⟩, 88 / 21⟩, rfl, Or.inl rfl⟩

namespace YawPlanningEvaluator

/-- Witness of C19: `update_gain = 10` with cached gains 5, 9, 3, on the
segment that `computeGain` left selecting by value. -/
theorem updateSegment_none_eligible_witness :
    ((exampleEvaluator true 0 10).setTrajectoryYaw
        = SimpleYawPlanningEvaluator.setTrajectoryYaw ∧
      Updatable exampleByValue (exampleInfo 2) ∧
      (exampleEvaluator true 0 10).inRange exampleNorm ⟨⟨1000, 0, 0⟩⟩ exampleByValue ∧
      ∀ o ∈ (exampleInfo 2).orientations, ¬ (exampleEvaluator true 0 10).eligible o) ∧
    ∃ t best back,
      (exampleEvaluator true 0 10).updateSegmentLocal exampleNorm ⟨⟨1000, 0, 0⟩⟩
        exampleByValue () = some (t, ()) ∧
      (exampleEvaluator true 0 10).updateSegment exampleNorm ⟨⟨1000, 0, 0⟩⟩ exampleByValue ()
        = some ((exampleEvaluator true 0 10).following_evaluator_.updateSegment t ()) ∧
      (∀ log : List InnerCall,
        (exampleEvaluator true 0 10).logged.updateSegmentLocal exampleNorm ⟨⟨1000, 0, 0⟩⟩
          exampleByValue ((), log) = some (t, ((), log))) ∧
      (exampleInfo 2).orientations[(exampleInfo 2).active_orientation]? = some best ∧
      best.trajectory.getLast? = some back ∧
      t.info = some (exampleInfo 2) ∧ t.parent = exampleByValue.parent ∧
      t.gain = best.gain ∧
      ((exampleEvaluator true 0 10).p_select_by_value_ = true →
        t.cost = best.cost ∧ t.value = best.value) ∧
      ((exampleEvaluator true 0 10).p_select_by_value_ = false →
        t.cost = exampleByValue.cost ∧ t.value = exampleByValue.value) ∧
      t.trajectory.map EigenTrajectoryPoint.position_W
        = exampleByValue.trajectory.map EigenTrajectoryPoint.position_W ∧
      ∀ p ∈ t.trajectory, p.getYaw = back.getYaw :=
  ⟨⟨rfl, exampleNode_updatable _ _ _ _ 2 (by decide), example_inRange_zero true 10 _,
      example_none_eligible⟩,
    updateSegment_none_eligible (exampleEvaluator true 0 10) rfl exampleNorm
      ⟨⟨1000, 0, 0⟩⟩ exampleByValue (exampleInfo 2) ()
      (exampleNode_updatable _ _ _ _ 2 (by decide)) (example_inRange_zero true 10 _)
      example_none_eligible⟩

/-- Witness of C16: `update_gain = 6` on the segment that `computeGain` left
selecting by value; the update hands on the live poses with the heading 44/21
of the second alternative, its gain 9, cost 1 and value 4. -/
theorem updateSegment_geometry_frozen_witness :
    ((exampleEvaluator true 0 6).setTrajectoryYaw
        = SimpleYawPlanningEvaluator.setTrajectoryYaw ∧
      Updatable exampleByValue (exampleInfo 2) ∧
      (exampleEvaluator true 0 6).following_evaluator_.KeepsPoses ∧
      (exampleEvaluator true 0 6).inRange exampleNorm ⟨⟨1000, 0, 0⟩⟩ exampleByValue) ∧
    segmentAfter ((exampleEvaluator true 0 6).updateSegment exampleNorm ⟨⟨1000, 0, 0⟩⟩
      exampleByValue ()) = some (exampleNode (44 / 21) 9 1 4 (some (exampleInfo 1))) ∧
    ∃ t st1 info1 best back,
      (exampleEvaluator true 0 6).updateSegmentLocal exampleNorm ⟨⟨1000, 0, 0⟩⟩
        exampleByValue () = some (t, st1) ∧
      (exampleEvaluator true 0 6).updateSegment exampleNorm ⟨⟨1000, 0, 0⟩⟩ exampleByValue ()
        = some ((exampleEvaluator true 0 6).following_evaluator_.updateSegment t st1) ∧
      t.info = some info1 ∧ info1.orientations[info1.active_orientation]? = some best ∧
      best.trajectory.getLast? = some back ∧
      t.trajectory = exampleByValue.trajectory.map (fun p => p.setFromYaw back.getYaw) ∧
      t.trajectory.length = exampleByValue.trajectory.length ∧
      t.trajectory.map EigenTrajectoryPoint.position_W
        = exampleByValue.trajectory.map EigenTrajectoryPoint.position_W ∧
      (∀ p ∈ t.trajectory, p.getYaw = back.getYaw) ∧
      t.parent = exampleByValue.parent ∧ t.gain = best.gain ∧
      ((exampleEvaluator true 0 6).p_select_by_value_ = true →
        t.cost = best.cost ∧ t.value = best.value) ∧
      ((exampleEvaluator true 0 6).p_select_by_value_ = false →
        t.cost = exampleByValue.cost ∧ t.value = exampleByValue.value) :=
  ⟨⟨rfl, exampleNode_updatable _ _ _ _ 2 (by decide), exampleEvaluator_keepsPoses true 0 6,
      example_inRange_zero true 6 _⟩,
    by rw [example_update_by_value]; rfl,
    updateSegment_geometry_frozen (exampleEvaluator true 0 6) rfl exampleNorm
      ⟨⟨1000, 0, 0⟩⟩ exampleByValue (exampleInfo 2) ()
      (exampleNode_updatable _ _ _ _ 2 (by decide)) (exampleEvaluator_keepsPoses true 0 6)
      (example_inRange_zero true 6 _)⟩

/-- Witness of C20: `update_range = 5` and the planner at distance exactly 5
from the final pose of the example segment: the local phase hands the segment
on unchanged. -/
theorem updateSegment_range_gate_strict_witness :
    (Updatable (exampleCached 1) (exampleInfo 1) ∧
      (exampleEvaluator false 5 6).following_evaluator_.KeepsPoses ∧
      0 < (exampleEvaluator false 5 6).p_update_range_ ∧
      exampleNorm ((PlannerI.mk ⟨6, 0, 0⟩).getCurrentPosition.sub
        (Vector3d.mk 1 0 0)) = (exampleEvaluator false 5 6).p_update_range_) ∧
    ∃ back, (exampleCached 1).trajectory.getLast? = some back ∧
      ((exampleEvaluator false 5 6).inRange exampleNorm ⟨⟨6, 0, 0⟩⟩ (exampleCached 1) ↔
        exampleNorm ((PlannerI.mk ⟨6, 0, 0⟩).getCurrentPosition.sub back.position_W)
          < (exampleEvaluator false 5 6).p_update_range_) ∧
      (exampleNorm ((PlannerI.mk ⟨6, 0, 0⟩).getCurrentPosition.sub back.position_W)
          < (exampleEvaluator false 5 6).p_update_range_ →
        ∃ t st1, (exampleEvaluator false 5 6).logged.updateSegmentLocal exampleNorm
            ⟨⟨6, 0, 0⟩⟩ (exampleCached 1) ((), []) = some (t, st1) ∧
          gainCalls st1.2 = (exampleInfo 1).orientations.filter
            (fun o => decide ((exampleEvaluator false 5 6).eligible o))) ∧
      ((exampleEvaluator false 5 6).p_update_range_
          ≤ exampleNorm ((PlannerI.mk ⟨6, 0, 0⟩).getCurrentPosition.sub back.position_W) →
        (exampleEvaluator false 5 6).updateSegmentLocal exampleNorm ⟨⟨6, 0, 0⟩⟩
          (exampleCached 1) () = some (exampleCached 1, ()) ∧
        (exampleEvaluator false 5 6).updateSegment exampleNorm ⟨⟨6, 0, 0⟩⟩
          (exampleCached 1) ()
          = some ((exampleEvaluator false 5 6).following_evaluator_.updateSegment
              (exampleCached 1) ()) ∧
        ∃ r, (exampleEvaluator false 5 6).logged.updateSegment exampleNorm ⟨⟨6, 0, 0⟩⟩
            (exampleCached 1) ((), []) = some r ∧
          r.state.2 = [InnerCall.updateSegment (exampleCached 1)]) ∧
      (exampleNorm ((PlannerI.mk ⟨6, 0, 0⟩).getCurrentPosition.sub back.position_W)
          = (exampleEvaluator false 5 6).p_update_range_ →
        (exampleEvaluator false 5 6).updateSegmentLocal exampleNorm ⟨⟨6, 0, 0⟩⟩
          (exampleCached 1) () = some (exampleCached 1, ())) :=
  ⟨⟨exampleCached_updatable 1 (by decide), exampleEvaluator_keepsPoses false 5 6,
      by norm_num [exampleEvaluator, SimpleYawPlanningEvaluator.create],
      by norm_num [exampleEvaluator, SimpleYawPlanningEvaluator.create, exampleNorm,
        Vector3d.sub]⟩,
    updateSegment_range_gate_strict (exampleEvaluator false 5 6) exampleNorm ⟨⟨6, 0, 0⟩⟩
      (exampleCached 1) (exampleInfo 1) () (exampleCached_updatable 1 (by decide))
      (exampleEvaluator_keepsPoses false 5 6)
      (by norm_num [exampleEvaluator, SimpleYawPlanningEvaluator.create])⟩

end YawPlanningEvaluator

/-! ## The calls that `computeGain` makes -/

namespace YawPlanningEvaluator

variable {σ : Type}

theorem log_rescored_logged (e : YawPlanningEvaluator σ) (alt : TrajectorySegment)
    (st : σ × List InnerCall) :
    (e.logged.rescored alt st).2.2 = st.2 ++
      scoringCalls e.p_select_by_value_ alt
        (e.following_evaluator_.computeGain alt st.1).segment
        (e.following_evaluator_.computeCost (e.following_evaluator_.computeGain alt st.1).segment
          (e.following_evaluator_.computeGain alt st.1).state).segment := by
  unfold rescored logged TrajectoryEvaluator.logged scoringCalls
  cases hsbv : e.p_select_by_value_ <;> simp

/-- The log of the sampling loop before the pass with index `m`: for every
index below `m` the calls of scoring that alternative, in index order; the
cost call is made on a segment left by the gain call on the alternative, the
value call on a segment left by that cost call. -/
theorem log_foldl (e : YawPlanningEvaluator σ) (traj_in : TrajectorySegment)
    (sy oy : ℚ) (k : Nat) : ∀ (m : Nat) (s : LoopState (σ × List InnerCall)), m ≠ 0 →
    (∃ xs ys : Nat → TrajectorySegment,
      s.state.2 = (List.range m).flatMap (fun i =>
        scoringCalls e.p_select_by_value_ (e.sampled traj_in sy oy i) (xs i) (ys i)) ∧
      ∀ i : Nat, i < m → ∃ s1 s2 : σ,
        xs i = (e.following_evaluator_.computeGain (e.sampled traj_in sy oy i) s1).segment ∧
        ys i = (e.following_evaluator_.computeCost (xs i) s2).segment) →
    ∃ xs ys : Nat → TrajectorySegment,
      ((List.range' m k).foldl (e.logged.computeGainStep traj_in sy oy) s).state.2
        = (List.range (m + k)).flatMap (fun i =>
          scoringCalls e.p_select_by_value_ (e.sampled traj_in sy oy i) (xs i) (ys i)) ∧
      ∀ i : Nat, i < m + k → ∃ s1 s2 : σ,
        xs i = (e.following_evaluator_.computeGain (e.sampled traj_in sy oy i) s1).segment ∧
        ys i = (e.following_evaluator_.computeCost (xs i) s2).segment := by
  induction k with
  | zero => intro m s _ h; simpa using h
  | succ k ih =>
    intro m s hm h
    obtain ⟨xs, ys, hlog, hP⟩ := h
    rw [List.range'_succ, List.foldl_cons, show m + (k + 1) = m + 1 + k by omega]
    apply ih (m + 1) _ (by omega)
    refine ⟨fun i => if i = m then
        (e.following_evaluator_.computeGain (e.sampled traj_in sy oy m) s.state.1).segment
        else xs i,
      fun i => if i = m then
        (e.following_evaluator_.computeCost
          (e.following_evaluator_.computeGain (e.sampled traj_in sy oy m) s.state.1).segment
          (e.following_evaluator_.computeGain (e.sampled traj_in sy oy m) s.state.1).state).segment
        else ys i, ?_, ?_⟩
    · rw [computeGainStep_state _ _ _ _ _ _ hm, log_rescored_logged, hlog, sampled_logged,
        List.range_succ, List.flatMap_append, List.flatMap_singleton]
      congr 1
      · apply List.flatMap_congr
        intro i hi
        have : i ≠ m := by
          have := List.mem_range.mp hi
          omega
        simp [this]
      · simp
    · intro i hi
      by_cases him : i = m
      · subst him
        exact ⟨s.state.1,
          (e.following_evaluator_.computeGain (e.sampled traj_in sy oy i) s.state.1).state,
          by simp, by simp⟩
      · obtain ⟨s1, s2, h1, h2⟩ := hP i (by omega)
        exact ⟨s1, s2, by simp [him, h1], by simp [him, h2]⟩

end YawPlanningEvaluator

namespace YawPlanningEvaluator

variable {σ : Type}

/-- C18: for `n_directions = k ≥ 1`, the calls that `computeGain` makes on the
instrumented inner evaluator are, for the alternatives `0, ..., k - 1` in this
order, the gain computation on the alternative as sampled and, selecting by
value, the cost computation on the segment that gain call left and then the
value computation on the segment that cost call left; selecting by gain the log
consists of the `k` gain calls alone. -/
theorem computeGain_inner_calls (e : YawPlanningEvaluator σ) (traj_in : TrajectorySegment)
    (st : σ) (k : Nat) (hk : 1 ≤ k) (hn : e.p_n_directions_ = (k : Int))
    (hne : traj_in.trajectory ≠ []) :
    ∃ r front back, ∃ xs ys : Nat → TrajectorySegment,
      e.logged.computeGain traj_in (st, []) = some r ∧
      traj_in.trajectory.head? = some front ∧ traj_in.trajectory.getLast? = some back ∧
      r.state.2 = (List.range k).flatMap (fun i =>
        scoringCalls e.p_select_by_value_ (e.sampled traj_in front.getYaw back.getYaw i)
          (xs i) (ys i)) ∧
      (∀ i : Nat, i < k → ∃ s1 s2 : σ,
        xs i = (e.following_evaluator_.computeGain
          (e.sampled traj_in front.getYaw back.getYaw i) s1).segment ∧
        ys i = (e.following_evaluator_.computeCost (xs i) s2).segment) ∧
      gainCalls r.state.2
        = (List.range k).map (e.sampled traj_in front.getYaw back.getYaw) ∧
      (e.p_select_by_value_ = true →
        r.state.2 = (List.range k).flatMap (fun i =>
          [InnerCall.computeGain (e.sampled traj_in front.getYaw back.getYaw i),
            InnerCall.computeCost (xs i), InnerCall.computeValue (ys i)])) ∧
      (e.p_select_by_value_ = false →
        r.state.2 = (List.range k).map (fun i =>
          InnerCall.computeGain (e.sampled traj_in front.getYaw back.getYaw i))) := by
  obtain ⟨front, back, best, t, hfront, hback, -, hrun, -⟩ :=
    computeGain_some e.logged traj_in (st, []) hne
  have hcount : 1 + (e.p_n_directions_ - 1).toNat = k := by rw [hn]; omega
  have hg := gainCalls_loop e traj_in front.getYaw back.getYaw st
  rw [hcount] at hg
  obtain ⟨xs, ys, hlog, hP⟩ := log_foldl e traj_in front.getYaw back.getYaw
    (e.p_n_directions_ - 1).toNat 1
    (e.logged.computeGainInit traj_in front.getYaw back.getYaw (st, [])) (by omega)
    ⟨fun _ => (e.following_evaluator_.computeGain
        (e.sampled traj_in front.getYaw back.getYaw 0) st).segment,
      fun _ => (e.following_evaluator_.computeCost
        (e.following_evaluator_.computeGain
          (e.sampled traj_in front.getYaw back.getYaw 0) st).segment
        (e.following_evaluator_.computeGain
          (e.sampled traj_in front.getYaw back.getYaw 0) st).state).segment,
      by
        rw [computeGainInit_eq, log_rescored_logged, sampled_logged]
        simp [List.range_succ],
      fun i hi => ⟨st, _, by
        have : i = 0 := by omega
        subst this
        exact ⟨rfl, rfl⟩⟩⟩
  rw [hcount] at hlog hP
  have hlog2 : (e.logged.computeGainLoop traj_in front.getYaw back.getYaw (st, [])).state.2
      = (List.range k).flatMap (fun i =>
        scoringCalls e.p_select_by_value_ (e.sampled traj_in front.getYaw back.getYaw i)
          (xs i) (ys i)) := hlog
  refine ⟨_, front, back, xs, ys, hrun, hfront, hback, hlog2, hP, hg, ?_, ?_⟩
  · intro h
    show (e.logged.computeGainLoop traj_in front.getYaw back.getYaw (st, [])).state.2 = _
    rw [hlog2]
    simp [scoringCalls, h]
  · intro h
    show (e.logged.computeGainLoop traj_in front.getYaw back.getYaw (st, [])).state.2 = _
    rw [hlog2]
    simp only [scoringCalls, h, Bool.false_eq_true, if_false]
    induction (List.range k) with
    | nil => rfl
    | cons a l ih => simp [List.flatMap_cons, ih]

/-- Witness of C18: three directions selecting by value on the example
segment. -/
theorem computeGain_inner_calls_witness :
    (1 ≤ 3 ∧ (exampleEvaluator true 0 0).p_n_directions_ = ((3 : Nat) : Int) ∧
      exampleSegment.trajectory ≠ []) ∧
    ∃ r front back, ∃ xs ys : Nat → TrajectorySegment,
      (exampleEvaluator true 0 0).logged.computeGain exampleSegment ((), []) = some r ∧
      exampleSegment.trajectory.head? = some front ∧
      exampleSegment.trajectory.getLast? = some back ∧
      r.state.2 = (List.range 3).flatMap (fun i =>
        scoringCalls (exampleEvaluator true 0 0).p_select_by_value_
          ((exampleEvaluator true 0 0).sampled exampleSegment front.getYaw back.getYaw i)
          (xs i) (ys i)) ∧
      (∀ i : Nat, i < 3 → ∃ s1 s2 : Unit,
        xs i = ((exampleEvaluator true 0 0).following_evaluator_.computeGain
          ((exampleEvaluator true 0 0).sampled exampleSegment front.getYaw back.getYaw i)
          s1).segment ∧
        ys i = ((exampleEvaluator true 0 0).following_evaluator_.computeCost (xs i)
          s2).segment) ∧
      gainCalls r.state.2 = (List.range 3).map
        ((exampleEvaluator true 0 0).sampled exampleSegment front.getYaw back.getYaw) ∧
      ((exampleEvaluator true 0 0).p_select_by_value_ = true →
        r.state.2 = (List.range 3).flatMap (fun i =>
          [InnerCall.computeGain
              ((exampleEvaluator true 0 0).sampled exampleSegment front.getYaw back.getYaw i),
            InnerCall.computeCost (xs i), InnerCall.computeValue (ys i)])) ∧
      ((exampleEvaluator true 0 0).p_select_by_value_ = false →
        r.state.2 = (List.range 3).map (fun i =>
          InnerCall.computeGain
            ((exampleEvaluator true 0 0).sampled exampleSegment front.getYaw back.getYaw i))) :=
  ⟨⟨by decide, rfl, exampleSegment_trajectory_ne_nil⟩,
    computeGain_inner_calls (exampleEvaluator true 0 0) exampleSegment () 3 (by decide) rfl
      exampleSegment_trajectory_ne_nil⟩

end YawPlanningEvaluator

/-! ## The lifetime of the record -/

theorem headingEvaluator_metricsOnly (gainOf costOf valueOf : ℚ → ℚ) :
    (headingEvaluator gainOf costOf valueOf).MetricsOnly where
  gain := fun seg st => by simp [headingEvaluator]
  cost := fun seg st => by simp [headingEvaluator]
  value := fun seg st => by simp [headingEvaluator]
  next := fun _ _ => rfl
  update := fun _ _ => rfl

theorem example_computeGain_again :
    (exampleEvaluator false 0 0).computeGain
        (exampleNode (44 / 21) 9 0 0 (some ⟨[exampleNode 0 5 0 0 none,
          exampleNode (44 / 21) 9 0 0 none, exampleNode (88 / 21) 3 0 0 none], 1⟩)) () =
      some ⟨true, exampleNode (44 / 21) 9 0 0 (some ⟨[exampleNode (44 / 21) 9 0 0 none,
        exampleNode (88 / 21) 3 0 0 none, exampleNode (44 / 7) 3 0 0 none], 0⟩), ()⟩ := by
  norm_num [exampleEvaluator, SimpleYawPlanningEvaluator.create,
    YawPlanningEvaluator.computeGain, exampleNode, TrajectorySegment.trajectory,
    YawPlanningEvaluator.computeGainLoop, YawPlanningEvaluator.computeGainStep,
    YawPlanningEvaluator.computeGainInit, List.range', headingEvaluator,
    SimpleYawPlanningEvaluator.setTrajectoryYaw, SimpleYawPlanningEvaluator.sampleYaw,
    TrajectorySegment.shallowCopy, TrajectorySegment.setTrajectory, finalYaw,
    EigenTrajectoryPoint.setFromYaw, EigenTrajectoryPoint.getYaw, TrajectorySegment.setGain,
    exampleGain, TrajectorySegment.gain, YawPlanningEvaluator.applyBest,
    TrajectorySegment.setInfo]

namespace YawPlanningEvaluator

variable {σ : Type}

theorem keepsPoses_of_metricsOnly (ev : TrajectoryEvaluator σ) (h : ev.MetricsOnly) :
    ev.KeepsPoses := by
  intro seg st hne
  rw [(h.gain seg st).1, (h.cost seg st).1, (h.value seg st).1]
  exact ⟨hne, hne, hne⟩

/-- Scoring by an inner evaluator that writes metrics only leaves the poses,
the parent and the extension slot of the alternative. -/
theorem rescored_metricsOnly (e : YawPlanningEvaluator σ)
    (h : e.following_evaluator_.MetricsOnly) (o : TrajectorySegment) (st : σ) :
    (e.rescored o st).1.trajectory = o.trajectory ∧ (e.rescored o st).1.parent = o.parent ∧
      (e.rescored o st).1.info = o.info := by
  unfold rescored
  cases hsbv : e.p_select_by_value_
  · simpa using h.gain o st
  · obtain ⟨g1, g2, g3⟩ := h.gain o st
    obtain ⟨c1, c2, c3⟩ := h.cost (e.following_evaluator_.computeGain o st).segment
      (e.following_evaluator_.computeGain o st).state
    obtain ⟨v1, v2, v3⟩ := h.value
      (e.following_evaluator_.computeCost (e.following_evaluator_.computeGain o st).segment
        (e.following_evaluator_.computeGain o st).state).segment
      (e.following_evaluator_.computeCost (e.following_evaluator_.computeGain o st).segment
        (e.following_evaluator_.computeGain o st).state).state
    simp only [if_true]
    exact ⟨by rw [v1, c1, g1], by rw [v2, c2, g2], by rw [v3, c3, g3]⟩

/-- C14, amended: for an inner evaluator that writes metrics only and a policy
whose `setTrajectoryYaw` leaves the extension slot alone, a segment that
carries a record keeps it through `computeCost`, `computeValue` and
`selectNextBest`; `updateSegment` keeps the number of alternatives and the
poses, parent and extension slot of every alternative, changing only scores and
the active index, and it returns on every updatable segment.  Nothing is said
of a later `computeGain`. -/
theorem record_kept (e : YawPlanningEvaluator σ)
    (hpol : ∀ s a b, (e.setTrajectoryYaw s a b).info = s.info)
    (norm : Vector3d → ℚ) (planner_ : PlannerI) (segment : TrajectorySegment)
    (info : YawPlanningInfo) (st : σ) (hinfo : segment.info = some info)
    (hm : e.following_evaluator_.MetricsOnly) :
    (e.computeCost segment st).segment.info = some info ∧
    (e.computeValue segment st).segment.info = some info ∧
    (e.selectNextBest segment st).segment.info = some info ∧
    (∀ r, e.updateSegment norm planner_ segment st = some r →
      ∃ info1, r.segment.info = some info1 ∧
        info1.orientations.length = info.orientations.length ∧
        ∀ (j : Nat) (o : TrajectorySegment), info.orientations[j]? = some o →
          ∃ o1, info1.orientations[j]? = some o1 ∧ o1.trajectory = o.trajectory ∧
            o1.parent = o.parent ∧ o1.info = o.info) ∧
    (Updatable segment info → ∃ r, e.updateSegment norm planner_ segment st = some r) := by
  refine ⟨?_, ?_, ?_, ?_, ?_⟩
  · show (e.following_evaluator_.computeCost segment st).segment.info = _
    rw [(hm.cost segment st).2.2, hinfo]
  · show (e.following_evaluator_.computeValue segment st).segment.info = _
    rw [(hm.value segment st).2.2, hinfo]
  · show (e.following_evaluator_.selectNextBest segment st).segment.info = _
    rw [hm.next, hinfo]
  · intro r hr
    unfold updateSegment at hr
    cases hloc : e.updateSegmentLocal norm planner_ segment st with
    | none => simp [hloc] at hr
    | some p =>
      obtain ⟨t, st1⟩ := p
      simp only [hloc, Option.some.injEq] at hr
      subst hr
      rw [hm.update]
      rcases updateSegmentLocal_cases e norm planner_ segment t st st1 hloc with
        ⟨rfl, -⟩ | ⟨info0, fin, best, front, back, -, hi0, -, hloop, -, -, -, rfl, -⟩
      · exact ⟨info, hinfo, rfl, fun j o ho => ⟨o, ho, rfl, rfl, rfl⟩⟩
      · rw [hinfo] at hi0
        cases hi0
        have hinv := updInv_loop e info segment st fin hloop
        refine ⟨fin.info, info_applied e hpol _ _ _ _ _, hinv.len, ?_⟩
        intro j o ho
        by_cases hel : e.eligible o
        · obtain ⟨s1, hs1⟩ := hinv.scored j o (List.getElem?_eq_some.mp ho).1 ho hel
          obtain ⟨h1, h2, h3⟩ := rescored_metricsOnly e hm o s1
          exact ⟨_, hs1, h1, h2, h3⟩
        · exact ⟨o, hinv.skip j o ho hel, rfl, rfl, rfl⟩
  · intro hu
    have hk := keepsPoses_of_metricsOnly _ hm
    by_cases hgate : e.inRange norm planner_ segment
    · obtain ⟨fin, best, front, back, -, -, -, -, -, hloc⟩ :=
        updateSegmentLocal_rescoring e norm planner_ segment info st hu hk hgate
      exact ⟨_, updateSegment_of_local e norm planner_ segment _ _ _ hloc⟩
    · exact ⟨_, updateSegment_of_local e norm planner_ segment segment st st
        (updateSegmentLocal_closed e norm planner_ segment st hu.poses hgate)⟩

/-- Witness of C14 as amended: the example evaluator on the segment that
`computeGain` left selecting by value. -/
theorem record_kept_witness :
    ((∀ s a b, ((exampleEvaluator true 0 6).setTrajectoryYaw s a b).info = s.info) ∧
      exampleByValue.info = some (exampleInfo 2) ∧
      (exampleEvaluator true 0 6).following_evaluator_.MetricsOnly) ∧
    ((exampleEvaluator true 0 6).computeCost exampleByValue ()).segment.info
      = some (exampleInfo 2) ∧
    ((exampleEvaluator true 0 6).computeValue exampleByValue ()).segment.info
      = some (exampleInfo 2) ∧
    ((exampleEvaluator true 0 6).selectNextBest exampleByValue ()).segment.info
      = some (exampleInfo 2) ∧
    (∀ r, (exampleEvaluator true 0 6).updateSegment exampleNorm ⟨⟨1000, 0, 0⟩⟩
        exampleByValue () = some r →
      ∃ info1, r.segment.info = some info1 ∧
        info1.orientations.length = (exampleInfo 2).orientations.length ∧
        ∀ (j : Nat) (o : TrajectorySegment), (exampleInfo 2).orientations[j]? = some o →
          ∃ o1, info1.orientations[j]? = some o1 ∧ o1.trajectory = o.trajectory ∧
            o1.parent = o.parent ∧ o1.info = o.info) ∧
    (Updatable exampleByValue (exampleInfo 2) →
      ∃ r, (exampleEvaluator true 0 6).updateSegment exampleNorm ⟨⟨1000, 0, 0⟩⟩
        exampleByValue () = some r) :=
  ⟨⟨simple_setTrajectoryYaw_info, rfl,
      headingEvaluator_metricsOnly exampleGain (fun _ => 1) exampleValue⟩,
    record_kept (exampleEvaluator true 0 6) simple_setTrajectoryYaw_info exampleNorm
      ⟨⟨1000, 0, 0⟩⟩ exampleByValue (exampleInfo 2) () rfl
      (headingEvaluator_metricsOnly exampleGain (fun _ => 1) exampleValue)⟩

/-- C14 as stated fails for `computeGain`: a second `computeGain` on the segment
that the first one left replaces the record by a freshly sampled one; the
headings of the alternatives, sampled around the new heading of the segment,
and the active index are no longer those of the first record. -/
theorem record_kept_counterexample :
    ∃ r1 info1 r2 info2,
      (exampleEvaluator false 0 0).computeGain exampleSegment () = some r1 ∧
      r1.segment.info = some info1 ∧
      (exampleEvaluator false 0 0).computeGain r1.segment r1.state = some r2 ∧
      r2.segment.info = some info2 ∧
      info2.orientations.map TrajectorySegment.trajectory
        ≠ info1.orientations.map TrajectorySegment.trajectory ∧
      info1.active_orientation = 1 ∧ info2.active_orientation = 0 := by
  refine ⟨_, _, _, _, example_computeGain_by_gain 0 0, rfl, example_computeGain_again, rfl,
    ?_, rfl, rfl⟩
  norm_num [exampleNode, TrajectorySegment.trajectory]

end YawPlanningEvaluator

/-! ## The colours of the rendered hints -/

namespace SimpleYawPlanningEvaluator

theorem valueRangeStep_eq (sbv : Bool) (acc : ℚ × ℚ) (o : TrajectorySegment) :
    valueRangeStep sbv acc o = (max acc.1 (score sbv o), min acc.2 (score sbv o)) := by
  have hmax : ∀ a s : ℚ, (if s > a then s else a) = max a s := by
    intro a s
    split_ifs with h
    · exact (max_eq_right (le_of_lt h)).symm
    · exact (max_eq_left (not_lt.mp h)).symm
  have hmin : ∀ a s : ℚ, (if s < a then s else a) = min a s := by
    intro a s
    split_ifs with h
    · exact (min_eq_right (le_of_lt h)).symm
    · exact (min_eq_left (not_lt.mp h)).symm
  unfold valueRangeStep score
  cases sbv <;> simp [hmax, hmin]

theorem valueRange_foldl (sbv : Bool) (rest : List TrajectorySegment) :
    ∀ acc : ℚ × ℚ,
      acc.1 ≤ (rest.foldl (valueRangeStep sbv) acc).1 ∧
      (rest.foldl (valueRangeStep sbv) acc).2 ≤ acc.2 ∧
      (∀ o ∈ rest, (rest.foldl (valueRangeStep sbv) acc).2 ≤ score sbv o ∧
        score sbv o ≤ (rest.foldl (valueRangeStep sbv) acc).1) ∧
      ((rest.foldl (valueRangeStep sbv) acc).1 = acc.1 ∨
        ∃ o ∈ rest, score sbv o = (rest.foldl (valueRangeStep sbv) acc).1) ∧
      ((rest.foldl (valueRangeStep sbv) acc).2 = acc.2 ∨
        ∃ o ∈ rest, score sbv o = (rest.foldl (valueRangeStep sbv) acc).2) := by
  induction rest with
  | nil => intro acc; simp
  | cons o rest ih =>
    intro acc
    rw [List.foldl_cons, valueRangeStep_eq]
    obtain ⟨h1, h2, h3, h4, h5⟩ := ih (max acc.1 (score sbv o), min acc.2 (score sbv o))
    simp only at h1 h2 h4 h5
    refine ⟨le_trans (le_max_left _ _) h1, le_trans h2 (min_le_left _ _), ?_, ?_, ?_⟩
    · intro p hp
      rcases List.mem_cons.mp hp with rfl | hp
      · exact ⟨le_trans h2 (min_le_right _ _), le_trans (le_max_right _ _) h1⟩
      · exact h3 p hp
    · rcases h4 with h4 | ⟨p, hp, hps⟩
      · rcases max_choice acc.1 (score sbv o) with hc | hc
        · exact Or.inl (h4.trans hc)
        · exact Or.inr ⟨o, List.mem_cons_self _ _, (h4.trans hc).symm⟩
      · exact Or.inr ⟨p, List.mem_cons_of_mem _ hp, hps⟩
    · rcases h5 with h5 | ⟨p, hp, hps⟩
      · rcases min_choice acc.2 (score sbv o) with hc | hc
        · exact Or.inl (h5.trans hc)
        · exact Or.inr ⟨o, List.mem_cons_self _ _, (h5.trans hc).symm⟩
      · exact Or.inr ⟨p, List.mem_cons_of_mem _ hp, hps⟩

/-- The pair that `valueRange` computes on a list with an entry consists of the
largest and the smallest score of the list. -/
theorem valueRange_spec (sbv : Bool) (l : List TrajectorySegment) (hne : l ≠ []) :
    ∃ mx mn : ℚ, valueRange sbv l = some (mx, mn) ∧
      (∀ o ∈ l, mn ≤ score sbv o ∧ score sbv o ≤ mx) ∧
      (∃ o ∈ l, score sbv o = mx) ∧ (∃ o ∈ l, score sbv o = mn) := by
  cases l with
  | nil => exact absurd rfl hne
  | cons o0 rest =>
    have hinit : (if sbv then (o0.value, o0.value) else (o0.gain, o0.gain))
        = (score sbv o0, score sbv o0) := by
      unfold score
      cases sbv <;> rfl
    obtain ⟨h1, h2, h3, h4, h5⟩ := valueRange_foldl sbv rest (score sbv o0, score sbv o0)
    refine ⟨(rest.foldl (valueRangeStep sbv) (score sbv o0, score sbv o0)).1,
      (rest.foldl (valueRangeStep sbv) (score sbv o0, score sbv o0)).2,
      by simp only [valueRange, hinit], ?_, ?_, ?_⟩
    · intro p hp
      rcases List.mem_cons.mp hp with rfl | hp
      · exact ⟨h2, h1⟩
      · exact h3 p hp
    · rcases h4 with h4 | ⟨p, hp, hps⟩
      · exact ⟨o0, List.mem_cons_self _ _, h4.symm⟩
      · exact ⟨p, List.mem_cons_of_mem _ hp, hps⟩
    · rcases h5 with h5 | ⟨p, hp, hps⟩
      · exact ⟨o0, List.mem_cons_self _ _, h5.symm⟩
      · exact ⟨p, List.mem_cons_of_mem _ hp, hps⟩

/-- When every alternative has a pose, the second loop appends one hint per
alternative, in index order, at the final pose of the alternative and with its
`hintColor`. -/
theorem pushHints_spec (sbv : Bool) (mx mn : ℚ) (l : List TrajectorySegment)
    (hposes : ∀ o ∈ l, o.trajectory ≠ []) :
    ∀ msg : List Marker, ∃ hs : List Marker,
      pushHints sbv mx mn l msg = some (msg ++ hs) ∧ hs.length = l.length ∧
      ∀ (i : Nat) (o : TrajectorySegment), l[i]? = some o →
        ∃ back, o.trajectory.getLast? = some back ∧
          hs[i]? = some ⟨back.position_W, back.yaw, ⟨3 / 5, 7 / 100, 7 / 100⟩,
            hintColor sbv mx mn o⟩ := by
  induction l with
  | nil => intro msg; exact ⟨[], by simp [pushHints], rfl, by simp⟩
  | cons o rest ih =>
    intro msg
    have ho := hposes o (List.mem_cons_self _ _)
    have hb : o.trajectory.getLast? = some (o.trajectory.getLast ho) :=
      List.getLast?_eq_getLast _ ho
    obtain ⟨hs, h1, h2, h3⟩ := ih (fun p hp => hposes p (List.mem_cons_of_mem _ hp))
      (msg ++ [⟨(o.trajectory.getLast ho).position_W, (o.trajectory.getLast ho).yaw,
        ⟨3 / 5, 7 / 100, 7 / 100⟩, hintColor sbv mx mn o⟩])
    refine ⟨⟨(o.trajectory.getLast ho).position_W, (o.trajectory.getLast ho).yaw,
        ⟨3 / 5, 7 / 100, 7 / 100⟩, hintColor sbv mx mn o⟩ :: hs, ?_, by simp [h2], ?_⟩
    · simp only [pushHints, hb]
      rw [h1, List.append_assoc]
      rfl
    · intro i p hp
      cases i with
      | zero =>
        simp only [List.getElem?_cons_zero, Option.some.injEq] at hp
        subst hp
        exact ⟨_, hb, List.getElem?_cons_zero⟩
      | succ i =>
        simp only [List.getElem?_cons_succ] at hp
        obtain ⟨back, hback, hh⟩ := h3 i p hp
        exact ⟨back, hback, by simpa using hh⟩

theorem hintColor_ne (sbv : Bool) (mx mn : ℚ) (o : TrajectorySegment) (h : mx ≠ mn) :
    hintColor sbv mx mn o =
      ⟨min (2 * (1 - (score sbv o - mn) / (mx - mn))) 1,
        min (2 * ((score sbv o - mn) / (mx - mn))) 1, 0, 2 / 5⟩ := by
  unfold hintColor score
  rw [if_pos h]
  cases sbv <;> simp <;> constructor <;> congr 1 <;> ring

theorem hintColor_eq (sbv : Bool) (mx mn : ℚ) (o : TrajectorySegment) (h : mx = mn) :
    hintColor sbv mx mn o = ⟨3 / 10, 3 / 10, 1, 2 / 5⟩ := by
  unfold hintColor
  rw [if_neg (not_not.mpr h)]

end SimpleYawPlanningEvaluator

namespace SimpleYawPlanningEvaluator

/-- C17, amended: on a segment whose record has an alternative, every
alternative with a pose, `visualizeTrajectoryValue` appends one hint per
alternative at its final pose; with `max` and `min` the largest and smallest
score and `frac = (score - min) / (max - min)`, the colour of a hint is
`(min (2 (1 - frac)) 1, min (2 frac) 1, 0)` when `max ≠ min`, which is red
`(1, 0, 0)` at the smallest score and green `(0, 1, 0)` at the largest, and
`(0.3, 0.3, 1.0)` when all scores are equal. -/
theorem visualize_colours (sbv flag : Bool)
    (followup : List Marker → TrajectorySegment → List Marker) (msg : List Marker)
    (trajectory : TrajectorySegment) (info : YawPlanningInfo)
    (hinfo : trajectory.info = some info) (hne : info.orientations ≠ [])
    (hposes : ∀ o ∈ info.orientations, o.trajectory ≠ [])
    (hact : info.active_orientation < info.orientations.length) :
    ∃ (mx mn : ℚ) (hs : List Marker),
      (∀ o ∈ info.orientations, mn ≤ score sbv o ∧ score sbv o ≤ mx) ∧
      (∃ o ∈ info.orientations, score sbv o = mx) ∧
      (∃ o ∈ info.orientations, score sbv o = mn) ∧
      hs.length = info.orientations.length ∧
      (flag = false →
        visualizeTrajectoryValue sbv flag followup msg trajectory = some (msg ++ hs)) ∧
      (flag = true → ∃ active, info.orientations[info.active_orientation]? = some active ∧
        visualizeTrajectoryValue sbv flag followup msg trajectory
          = some (followup (msg ++ hs) active)) ∧
      ∀ (i : Nat) (o : TrajectorySegment), info.orientations[i]? = some o →
        ∃ h back, hs[i]? = some h ∧ o.trajectory.getLast? = some back ∧
          h.position = back.position_W ∧ h.yaw = back.yaw ∧ h.color.a = 2 / 5 ∧
          (mx ≠ mn →
            h.rgb = (min (2 * (1 - (score sbv o - mn) / (mx - mn))) 1,
              min (2 * ((score sbv o - mn) / (mx - mn))) 1, 0) ∧
            0 ≤ (score sbv o - mn) / (mx - mn) ∧ (score sbv o - mn) / (mx - mn) ≤ 1) ∧
          (mx ≠ mn → score sbv o = mn → h.rgb = (1, 0, 0)) ∧
          (mx ≠ mn → score sbv o = mx → h.rgb = (0, 1, 0)) ∧
          (mx = mn → h.rgb = (3 / 10, 3 / 10, 1)) := by
  obtain ⟨mx, mn, hrange, hbound, hmax, hmin⟩ := valueRange_spec sbv info.orientations hne
  obtain ⟨hs, hpush, hlen, hh⟩ := pushHints_spec sbv mx mn info.orientations hposes msg
  have hle : mn ≤ mx := by
    obtain ⟨o, ho, -⟩ := hmax
    exact le_trans (hbound o ho).1 (hbound o ho).2
  refine ⟨mx, mn, hs, hbound, hmax, hmin, hlen, ?_, ?_, ?_⟩
  · intro hf
    simp only [visualizeTrajectoryValue, hinfo, hrange, hpush, hf]
    rfl
  · intro hf
    refine ⟨_, List.getElem?_eq_getElem hact, ?_⟩
    simp only [visualizeTrajectoryValue, hinfo, hrange, hpush, hf,
      List.getElem?_eq_getElem hact]
    rfl
  · intro i o ho
    obtain ⟨back, hback, hhi⟩ := hh i o ho
    have hmem := List.getElem?_mem ho
    refine ⟨_, back, hhi, hback, rfl, rfl, ?_, ?_, ?_, ?_, ?_⟩
    · show (hintColor sbv mx mn o).a = 2 / 5
      by_cases h : mx = mn
      · rw [hintColor_eq sbv mx mn o h]
      · rw [hintColor_ne sbv mx mn o h]
    · intro h
      have hpos : 0 < mx - mn := sub_pos.mpr (lt_of_le_of_ne hle (Ne.symm h))
      refine ⟨?_, div_nonneg (sub_nonneg.mpr (hbound o hmem).1) (le_of_lt hpos),
        (div_le_one hpos).mpr (sub_le_sub_right (hbound o hmem).2 mn)⟩
      show ((hintColor sbv mx mn o).r, (hintColor sbv mx mn o).g, (hintColor sbv mx mn o).b) = _
      rw [hintColor_ne sbv mx mn o h]
    · intro h hs0
      show ((hintColor sbv mx mn o).r, (hintColor sbv mx mn o).g, (hintColor sbv mx mn o).b) = _
      rw [hintColor_ne sbv mx mn o h, hs0]
      norm_num
    · intro h hs1
      have hpos : mx - mn ≠ 0 := sub_ne_zero.mpr h
      show ((hintColor sbv mx mn o).r, (hintColor sbv mx mn o).g, (hintColor sbv mx mn o).b) = _
      rw [hintColor_ne sbv mx mn o h, hs1, div_self hpos]
      norm_num
    · intro h
      show ((hintColor sbv mx mn o).r, (hintColor sbv mx mn o).g, (hintColor sbv mx mn o).b) = _
      rw [hintColor_eq sbv mx mn o h]

end SimpleYawPlanningEvaluator

/-! ## Example colours: gains 5, 9, 3 -/

theorem example_colours :
    (SimpleYawPlanningEvaluator.visualizeTrajectoryValue false false (fun m _ => m) []
      (exampleCached 1)).map (List.map Marker.rgb)
      = some [(1, 2 / 3, 0), (0, 1, 0), (1, 0, 0)] := by
  norm_num [SimpleYawPlanningEvaluator.visualizeTrajectoryValue,
    SimpleYawPlanningEvaluator.valueRange, SimpleYawPlanningEvaluator.valueRangeStep,
    SimpleYawPlanningEvaluator.pushHints, SimpleYawPlanningEvaluator.hintColor,
    exampleCached, exampleInfo, exampleNode, Marker.rgb, TrajectorySegment.info,
    TrajectorySegment.trajectory, TrajectorySegment.gain]

theorem exampleInfo_poses (active : Nat) :
    ∀ o ∈ (exampleInfo active).orientations, o.trajectory ≠ [] :=
  (exampleCached_updatable 1 (by decide)).alt_poses

namespace SimpleYawPlanningEvaluator

/-- Witness of C17 as amended: the example record with gains 5, 9, 3, selecting
by gain, without the visualization of the inner evaluator; the three hints are
coloured `(1, 2/3, 0)`, green and red. -/
theorem visualize_colours_witness :
    ((exampleCached 1).info = some (exampleInfo 1) ∧ (exampleInfo 1).orientations ≠ [] ∧
      (∀ o ∈ (exampleInfo 1).orientations, o.trajectory ≠ []) ∧
      (exampleInfo 1).active_orientation < (exampleInfo 1).orientations.length) ∧
    (visualizeTrajectoryValue false false (fun m _ => m) []
      (exampleCached 1)).map (List.map Marker.rgb)
      = some [(1, 2 / 3, 0), (0, 1, 0), (1, 0, 0)] ∧
    ∃ (mx mn : ℚ) (hs : List Marker),
      (∀ o ∈ (exampleInfo 1).orientations, mn ≤ score false o ∧ score false o ≤ mx) ∧
      (∃ o ∈ (exampleInfo 1).orientations, score false o = mx) ∧
      (∃ o ∈ (exampleInfo 1).orientations, score false o = mn) ∧
      hs.length = (exampleInfo 1).orientations.length ∧
      (false = false →
        visualizeTrajectoryValue false false (fun m _ => m) [] (exampleCached 1)
          = some ([] ++ hs)) ∧
      (false = true → ∃ active,
        (exampleInfo 1).orientations[(exampleInfo 1).active_orientation]? = some active ∧
        visualizeTrajectoryValue false false (fun m _ => m) [] (exampleCached 1)
          = some ((fun m _ => m) ([] ++ hs) active)) ∧
      ∀ (i : Nat) (o : TrajectorySegment), (exampleInfo 1).orientations[i]? = some o →
        ∃ h back, hs[i]? = some h ∧ o.trajectory.getLast? = some back ∧
          h.position = back.position_W ∧ h.yaw = back.yaw ∧ h.color.a = 2 / 5 ∧
          (mx ≠ mn →
            h.rgb = (min (2 * (1 - (score false o - mn) / (mx - mn))) 1,
              min (2 * ((score false o - mn) / (mx - mn))) 1, 0) ∧
            0 ≤ (score false o - mn) / (mx - mn) ∧ (score false o - mn) / (mx - mn) ≤ 1) ∧
          (mx ≠ mn → score false o = mn → h.rgb = (1, 0, 0)) ∧
          (mx ≠ mn → score false o = mx → h.rgb = (0, 1, 0)) ∧
          (mx = mn → h.rgb = (3 / 10, 3 / 10, 1)) :=
  ⟨⟨rfl, by simp [exampleInfo], exampleInfo_poses 1, by decide⟩, example_colours,
    visualize_colours false false (fun m _ => m) [] (exampleCached 1) (exampleInfo 1) rfl
      (by simp [exampleInfo]) (exampleInfo_poses 1) (by decide)⟩

/-- C17 as stated fails: with gains 5, 9, 3 the first alternative has
`frac = 1/3` and its hint is coloured `(1, 2/3, 0)`, not the linear
interpolation `(2/3, 1/3, 0)`. -/
theorem visualize_colours_counterexample :
    (visualizeTrajectoryValue false false (fun m _ => m) []
      (exampleCached 1)).map (List.map Marker.rgb)
      = some [(1, 2 / 3, 0), (0, 1, 0), (1, 0, 0)] ∧
    (visualizeTrajectoryValue false false (fun m _ => m) []
      (exampleCached 1)).map (List.map Marker.rgb)
      ≠ some ((exampleInfo 1).orientations.map fun o =>
          linearRedGreen ((score false o - 3) / (9 - 3))) := by
  refine ⟨example_colours, ?_⟩
  rw [example_colours]
  norm_num [exampleInfo, exampleNode, linearRedGreen, score, TrajectorySegment.gain]

end SimpleYawPlanningEvaluator
end active_3d_planning
